import Mathlib

/-!
Verification of the framing/crop engine of the AIAgent repository
(src/src/services/ffmpeg.ts) against its natural-language specification.

The engine is embedded shallowly: JavaScript numbers are modelled as exact
rationals (every arithmetic operation the engine performs on the values of
interest is closed over the rationals), arrays are lists, records are
structures, and functions that can throw are modelled with Except / Option.
Environment-variable tunables are embedded at their default values, exactly
as the source computes them.  The IO boundary (frame decoding and the neural
detector) is out of scope, as in the specification: functions that consume
detections take the detection timeline as an argument.

The single numeric primitive of the engine that is not rational-valued is
Math.hypot, used only inside anchorScore to compute the centrality bonus.
The embedding is therefore parameterized over a function `hyp : Q -> Q -> Q`
standing for Math.hypot; every theorem below is proved for all `hyp`, hence
in particular for the true square-root instance, and every concrete
counterexample input is built so that each frame holds at most one detection,
which makes chooseAnchor (the only consumer) independent of `hyp`.
-/

/-- JS Math.round: round half toward positive infinity (Math.round(-2.5) = -2). -/
def jsRound (q : ℚ) : ℚ := ((⌊q + 1/2⌋ : ℤ) : ℚ)

/-- JS Math.floor. -/
def jsFloor (q : ℚ) : ℚ := ((⌊q⌋ : ℤ) : ℚ)

/-- JS Math.ceil. -/
def jsCeil (q : ℚ) : ℚ := ((⌈q⌉ : ℤ) : ℚ)

/-- JS Math.sign (on rationals; NaN cannot arise in the embedding). -/
def jsSign (q : ℚ) : ℚ := if q < 0 then -1 else if 0 < q then 1 else 0

/-- JS Math.abs. -/
def jsAbs (q : ℚ) : ℚ := |q|

/-- Numeric value printed by Number.prototype.toFixed(f): |q| is scaled by
10^f and rounded to the nearest integer, half away from zero (the ECMA
algorithm applies round-half-up to the magnitude after extracting the sign). -/
def toFixedVal (f : ℕ) (q : ℚ) : ℚ :=
  if q < 0 then -(((⌊(-q) * 10 ^ f + 1/2⌋ : ℤ) : ℚ) / 10 ^ f)
  else ((⌊q * 10 ^ f + 1/2⌋ : ℤ) : ℚ) / 10 ^ f

/-- Source function `clamp` (ffmpeg.ts): clamp value into [lo, hi], written
with the same two-test structure as the source. -/
def clamp (value lo hi : ℚ) : ℚ :=
  if value < lo then lo else if value > hi then hi else value

/-- Source function `stepToward` (ffmpeg.ts). -/
def stepToward (current target maxDelta : ℚ) : ℚ :=
  if |target - current| ≤ maxDelta then target
  else if target > current then current + maxDelta else current - maxDelta

/-! ## Data model (section 3 of the spec, types of ffmpeg.ts) -/

/-- Source type `CropKF`. -/
structure CropKF where
  t : ℚ
  x : ℚ
  y : ℚ
  w : ℚ
  h : ℚ
  z : ℚ
  xs : ℚ
  ys : ℚ
deriving DecidableEq, Repr

/-- Source type `PersonDet` (detectorType is never read by the framing math
and is omitted). -/
structure PersonDet where
  x : ℚ
  y : ℚ
  w : ℚ
  h : ℚ
  score : ℚ
  id : Option ℕ := none
deriving DecidableEq, Repr

/-- Source type `PersonSnapshot`. -/
structure PersonSnapshot where
  t : ℚ
  dets : List PersonDet
deriving DecidableEq, Repr

/-- Source type `Track`. -/
structure Track where
  id : ℕ
  x : ℚ
  y : ℚ
  w : ℚ
  h : ℚ
  score : ℚ
  vx : ℚ
  vy : ℚ
  lastT : ℚ
  age : ℚ
  hits : ℕ
  miss : ℚ
deriving DecidableEq, Repr

/-- Source type `SpeakerTurn` (`end` is a Lean keyword, renamed `endT`). -/
structure SpeakerTurn where
  start : ℚ
  endT : ℚ
  label : String
deriving DecidableEq, Repr

/-- Source type `TranscriptWord` of ffmpeg.ts (`end` renamed `endT`). -/
structure TranscriptWord where
  t : ℚ
  endT : ℚ
  text : String
  speaker : Option String := none
deriving DecidableEq, Repr

/-- Source interface `Constraints`. -/
structure Constraints where
  margin : ℚ
  maxPan : ℚ
  easeMs : ℚ
  centerBiasX : ℚ
  centerBiasY : ℚ
  safeTop : ℚ
  safeBottom : ℚ
deriving DecidableEq, Repr

/-- Source interface `ComputeInput` (videoPath is the IO boundary and is
omitted; the detection timeline is passed to the compute functions directly). -/
structure ComputeInput where
  baseW : ℚ
  baseH : ℚ
  segStart : ℚ
  segEnd : ℚ
  transcript : List TranscriptWord
deriving DecidableEq, Repr

/-- Source interface `FaceDetection`. -/
structure FaceDetection where
  x : ℚ
  y : ℚ
  width : ℚ
  height : ℚ
  centerX : ℚ
  centerY : ℚ
  score : ℚ
  area : ℚ
deriving DecidableEq, Repr

/-- Source interface `WeightedValue`. -/
structure WeightedValue where
  value : ℚ
  weight : ℚ
deriving DecidableEq, Repr

/-- Source interface `FrameDetections` (the per-frame output of
detectFacesTimeline). -/
structure FrameDetections where
  index : ℕ
  time : ℚ
  detections : List FaceDetection
deriving DecidableEq, Repr

/-- Source interface `CropInfo` (result of calculateCrop). -/
structure CropInfo where
  cropX : ℚ
  cropY : ℚ
  cropWidth : ℚ
  cropHeight : ℚ
  videoWidth : ℚ
  videoHeight : ℚ
deriving DecidableEq, Repr

/-- Result record of computeGlobalStaticCrop (the spec calls it GlobalCrop). -/
structure GlobalCrop where
  cropX : ℚ
  cropY : ℚ
  cropW : ℚ
  cropH : ℚ
  zMin : ℚ
deriving DecidableEq, Repr

/-! ## Environment-derived tunables, at their source-default values -/

/-- Source constant TRACK_IOU_THRESH = max(0, min(1, 0.35)). -/
def trackIouThresh : ℚ := max 0 (min 1 0.35)

/-- Source constant TRACK_MAX_AGE_S = max(0.1, 0.8). -/
def trackMaxAgeS : ℚ := max 0.1 0.8

/-- Source constant TRACK_MIN_HITS = max(1, 2). -/
def trackMinHits : ℕ := max 1 2

/-- Source constant MIN_TRACK_AREA = max(1, 300). -/
def minTrackArea : ℚ := max 1 300

/-- Source constant FRAMING_SMOOTH_ALPHA = max(0.01, min(1, 0.2)). -/
def smoothAlpha : ℚ := max 0.01 (min 1 0.2)

/-- Source constant FRAMING_DEADZONE_X = max(0, 70). -/
def deadzoneX : ℚ := max 0 70

/-- Source constant FRAMING_DEADZONE_Y = max(0, 50). -/
def deadzoneY : ℚ := max 0 50

/-- Source constant FRAMING_MAX_ACCEL = max(0, 900). -/
def maxAccel : ℚ := max 0 900

/-- Source constant FRAMING_GLOB_LAMBDA_V = max(0, 80). -/
def globLambdaV : ℚ := max 0 80

/-- Source constant FRAMING_GLOB_LAMBDA_A = max(0, 500). -/
def globLambdaA : ℚ := max 0 500

/-- Source constant FRAMING_GLOB_ITERS = max(1, 80). -/
def globIters : ℕ := max 1 80

/-- Source constant FRAMING_GLOB_LR = max(0.001, 0.15). -/
def globLR : ℚ := max 0.001 0.15

/-- Source constant FRAMING_Z_MIN = max(0.8, min(1, 0.88)). -/
def zMinUser : ℚ := max 0.8 (min 1 0.88)

/-- Source constant FRAMING_Z_DECAY = max(0.01, min(1, 0.2)). -/
def zDecay : ℚ := max 0.01 (min 1 0.2)

/-! ## Multi-object tracker (spec 4.1; ffmpeg.ts iouTrackDet / associateAndUpdate / buildTracks) -/

/-- Source function `iouTrackDet`: intersection over union of a predicted
track box and a detection box. -/
def iouTrackDet (tr : Track) (d : PersonDet) : ℚ :=
  let xx1 := max tr.x d.x
  let yy1 := max tr.y d.y
  let xx2 := min (tr.x + tr.w) (d.x + d.w)
  let yy2 := min (tr.y + tr.h) (d.y + d.h)
  if xx2 ≤ xx1 ∨ yy2 ≤ yy1 then 0
  else
    let inter := (xx2 - xx1) * (yy2 - yy1)
    let uni := tr.w * tr.h + d.w * d.h - inter
    if uni ≤ 0 then 0 else inter / uni

/-- Inner loop of the association step of `associateAndUpdate`: over the
indexed detections not yet in `usedD`, the candidate of strictly largest
IOU with the predicted track (first wins ties), starting from bestIou = 0. -/
def bestCandStep (tr : Track) (usedD : List ℕ)
    (best : Option (ℕ × PersonDet) × ℚ) (p : ℕ × PersonDet) :
    Option (ℕ × PersonDet) × ℚ :=
  if p.1 ∈ usedD then best
  else if iouTrackDet tr p.2 > best.2 then (some p, iouTrackDet tr p.2) else best

def bestCand (tr : Track) (dets : List (ℕ × PersonDet)) (usedD : List ℕ) :
    Option (ℕ × PersonDet) × ℚ :=
  dets.foldl (bestCandStep tr usedD) (none, 0)

/-- Outer loop of the association step of `associateAndUpdate`: tracks are
visited in array order; each takes its best not-yet-used detection provided
the best IOU reaches the threshold (`bestIdx >= 0 && bestIou >= TRACK_IOU_THRESH`). -/
def greedyMatchAux : List (ℕ × Track) → List (ℕ × PersonDet) → List ℕ →
    List ((ℕ × Track) × (ℕ × PersonDet))
  | [], _, _ => []
  | tp :: rest, dets, usedD =>
    match bestCand tp.2 dets usedD with
    | (some dp, bv) =>
      if bv ≥ trackIouThresh then
        (tp, dp) :: greedyMatchAux rest dets (dp.1 :: usedD)
      else greedyMatchAux rest dets usedD
    | (none, _) => greedyMatchAux rest dets usedD

/-- Linear-extrapolation prediction applied to every existing track at the
head of `associateAndUpdate`. -/
def predictTrack (t baseW baseH : ℚ) (tr : Track) : Track :=
  let dt := max 0.001 (t - tr.lastT)
  let nx := clamp (jsRound (tr.x + tr.vx * dt)) 0 (baseW - tr.w)
  let ny := clamp (jsRound (tr.y + tr.vy * dt)) 0 (baseH - tr.h)
  { tr with x := nx, y := ny }

/-- Matched-track update rule of `associateAndUpdate` (position/size/score
from the detection, velocity from the centroid delta over elapsed time). -/
def updateMatched (t : ℚ) (m : (ℕ × Track) × (ℕ × PersonDet)) : Track :=
  let tr := m.1.2
  let det := m.2.2
  let dt := max 0.001 (t - tr.lastT)
  let pcx := tr.x + tr.w / 2
  let pcy := tr.y + tr.h / 2
  let dcx := det.x + det.w / 2
  let dcy := det.y + det.h / 2
  { id := tr.id, x := det.x, y := det.y, w := det.w, h := det.h,
    score := det.score, vx := (dcx - pcx) / dt, vy := (dcy - pcy) / dt,
    lastT := t, age := tr.age + dt, hits := tr.hits + 1, miss := 0 }

/-- Unmatched-track retention rule of `associateAndUpdate`: kept (with the
predicted position already in `tr`) while miss + dt stays within the
max-age ceiling, dropped otherwise. -/
def keepUnmatched (t : ℚ) (usedT : List ℕ) (tp : ℕ × Track) : Option Track :=
  if tp.1 ∈ usedT then none
  else
    let tr := tp.2
    let dt := max 0.001 (t - tr.lastT)
    if tr.miss + dt ≤ trackMaxAgeS then
      some { tr with lastT := t, age := tr.age + dt, miss := tr.miss + dt }
    else none

/-- New-track spawn rule of `associateAndUpdate`: an unmatched detection
becomes a zero-velocity track (kp.1 counts the unmatched detections before
this one, so ids are nextId, nextId+1, ... as the source nextId++ yields). -/
def spawnTrack (t : ℚ) (nextId : ℕ) (kp : ℕ × (ℕ × PersonDet)) : Track :=
  let det := kp.2.2
  { id := nextId + kp.1, x := det.x, y := det.y, w := det.w, h := det.h,
    score := det.score, vx := 0, vy := 0, lastT := t, age := 0,
    hits := 1, miss := 0 }

/-- Source function `associateAndUpdate`: predict, greedily associate, update
matched tracks, retain unmatched tracks while miss + dt stays within the
max-age ceiling, and spawn zero-velocity tracks for unmatched detections. -/
def associateAndUpdate (prev : List Track) (dets : List PersonDet)
    (t baseW baseH : ℚ) (nextId : ℕ) : List Track :=
  let predicted := prev.map (predictTrack t baseW baseH)
  let mts := greedyMatchAux predicted.enum dets.enum []
  let usedT := mts.map (fun m => m.1.1)
  let usedD := mts.map (fun m => m.2.1)
  mts.map (updateMatched t)
    ++ predicted.enum.filterMap (keepUnmatched t usedT)
    ++ ((dets.enum.filter (fun dp => dp.1 ∉ usedD)).enum.map (spawnTrack t nextId))

/-- Per-snapshot step of `buildTracks`: run the tracker, advance the id
counter past the largest live id, and project the alive tracks (confirmed
hit count, fresh enough, above the minimum area) to detection-like records. -/
def buildTracksStep (baseW baseH : ℚ)
    (st : List Track × ℕ × List PersonSnapshot) (s : PersonSnapshot) :
    List Track × ℕ × List PersonSnapshot :=
  let tracks := associateAndUpdate st.1 s.dets s.t baseW baseH st.2.1
  let maxId := tracks.foldl (fun m tr => max m tr.id) st.2.1
  let nextId := max st.2.1 (maxId + 1)
  let alive := tracks.filter (fun tr =>
    trackMinHits ≤ tr.hits ∧ tr.miss ≤ trackMaxAgeS ∧ minTrackArea ≤ tr.w * tr.h)
  let detLike := alive.map (fun tr =>
    { x := tr.x, y := tr.y, w := tr.w, h := tr.h, score := tr.score,
      id := some tr.id : PersonDet })
  (tracks, nextId, st.2.2 ++ [{ t := s.t, dets := detLike }])

/-- Source function `buildTracks`: runs the tracker over the snapshot
timeline and projects, per frame, the alive tracks back to detection-like
records. -/
def buildTracks (snaps : List PersonSnapshot) (baseW baseH : ℚ) :
    List PersonSnapshot :=
  (snaps.foldl (buildTracksStep baseW baseH) ([], 1, [])).2.2

/-! ## Anchor selection (spec 4.2; ffmpeg.ts anchorScore / chooseAnchor) -/

/-- Source function `anchorScore`; `hyp` stands for Math.hypot (see the
file-level comment). -/
def anchorScore (hyp : ℚ → ℚ → ℚ) (d : PersonDet) (baseW baseH : ℚ) : ℚ :=
  let area := d.w * d.h
  let cx := d.x + d.w / 2
  let cy := d.y + d.h / 2
  let dx := |cx - baseW / 2| / (baseW / 2)
  let dy := |cy - baseH / 2| / (baseH / 2)
  let centr := 1 - min 1 (hyp dx dy)
  area * d.score * (0.5 + 0.5 * centr)

/-- Source function `chooseAnchor`: argmax of anchorScore, first element
winning ties (strict improvement test).  The JS function indexes dets[0]
and is only called on non-empty lists; the empty case is `none`. -/
def chooseAnchor (hyp : ℚ → ℚ → ℚ) (dets : List PersonDet) (baseW baseH : ℚ) :
    Option PersonDet :=
  match dets with
  | [] => none
  | d :: rest =>
    some (rest.foldl
      (fun best di =>
        if anchorScore hyp di baseW baseH > best.2 then
          (di, anchorScore hyp di baseW baseH)
        else best)
      (d, anchorScore hyp d baseW baseH)).1

/-- Group bounding box as computed by source function `computeBounds`
(infinities of the empty case are modelled by `none`; every call site
guards non-emptiness). -/
structure GroupBounds where
  minX : ℚ
  maxX : ℚ
  minY : ℚ
  maxY : ℚ
deriving DecidableEq, Repr

/-- Source function `computeBounds`. -/
def computeBounds (dets : List PersonDet) : Option GroupBounds :=
  match dets with
  | [] => none
  | d :: rest =>
    some (rest.foldl
      (fun b di =>
        { minX := min b.minX di.x, maxX := max b.maxX (di.x + di.w),
          minY := min b.minY di.y, maxY := max b.maxY (di.y + di.h) })
      { minX := d.x, maxX := d.x + d.w, minY := d.y, maxY := d.y + d.h })

/-- Source record returned by `boundsToGroup`. -/
structure GroupBox where
  groupW : ℚ
  groupH : ℚ
  minX : ℚ
  maxX : ℚ
  minY : ℚ
  maxY : ℚ
deriving DecidableEq, Repr

/-- Source function `boundsToGroup`. -/
def boundsToGroup (b : GroupBounds) : GroupBox :=
  { groupW := b.maxX - b.minX, groupH := b.maxY - b.minY,
    minX := b.minX, maxX := b.maxX, minY := b.minY, maxY := b.maxY }

/-! ## Speaker turns (ffmpeg.ts buildSpeakerTurns / activeSpeakerAt) -/

/-- Fold step of `buildSpeakerTurns` over the filtered, time-sorted words:
extend the current turn when the speaker matches and the gap is at most
0.6 s, otherwise flush it and open a new one. -/
def speakerTurnStep (segStart segEnd : ℚ)
    (st : List SpeakerTurn × Option SpeakerTurn) (w : TranscriptWord) :
    List SpeakerTurn × Option SpeakerTurn :=
  match st.2 with
  | none =>
    (st.1, some { start := max segStart w.t, endT := min segEnd w.endT,
                  label := w.speaker.getD "" })
  | some c =>
    if w.speaker = some c.label ∧ w.t - c.endT ≤ 0.6 then
      (st.1, some { c with endT := min segEnd (max c.endT w.endT) })
    else
      (st.1 ++ [c], some { start := max segStart w.t, endT := min segEnd w.endT,
                           label := w.speaker.getD "" })

/-- Source function `buildSpeakerTurns`.  The JS Array.sort by word start
time is stable; a stable insertion sort by the same key reproduces it. -/
def buildSpeakerTurns (words : List TranscriptWord) (segStart segEnd : ℚ) :
    List SpeakerTurn :=
  let filtered := (words.filter (fun w =>
    w.speaker.isSome ∧ segStart ≤ w.endT ∧ w.t ≤ segEnd)).insertionSort
    (fun a b => a.t ≤ b.t)
  match filtered.foldl (speakerTurnStep segStart segEnd) ([], none) with
  | (turns, some c) => turns ++ [c]
  | (turns, none) => turns

/-- Source function `activeSpeakerAt`: label of the turn with the largest
strictly positive overlap with the window [t - 0.6, t + 0.2]. -/
def activeSpeakerAt (t : ℚ) (turns : List SpeakerTurn) : Option String :=
  (turns.foldl
    (fun (best : Option String × ℚ) turn =>
      let u := max (t - 0.6) turn.start
      let v := min (t + 0.2) turn.endT
      let ov := max 0 (v - u)
      if ov > best.2 then (some turn.label, ov) else best)
    (none, 0)).1

/-! ## Anchor hardening and feasible regions (ffmpeg.ts applyTemporalSmoothing / buildFeasible) -/

/-- Source function `applyTemporalSmoothing`; the mutable SmoothingState is
threaded explicitly (`none` models the two-null initial state, and the
caller always stores the returned pair back into the state). -/
def applyTemporalSmoothing (rawX rawY : ℚ) (st : Option (ℚ × ℚ)) : ℚ × ℚ :=
  match st with
  | none => (rawX, rawY)
  | some (sx, sy) =>
    let targetX := if |rawX - sx| ≤ deadzoneX then sx else rawX
    let targetY := if |rawY - sy| ≤ deadzoneY then sy else rawY
    (sx + smoothAlpha * (targetX - sx), sy + smoothAlpha * (targetY - sy))

/-- Result record of source function `buildFeasible`. -/
structure Feasible where
  xL : ℚ
  xU : ℚ
  yL : ℚ
  yU : ℚ
  xDes : ℚ
  yDes : ℚ
  groupW : ℚ
  groupH : ℚ
  insetX : ℚ
  insetY : ℚ
deriving DecidableEq, Repr

/-- Source function `buildFeasible`. -/
def buildFeasible (group : GroupBox) (_anchor : PersonDet)
    (targetW targetH baseW baseH : ℚ) (constraints : Constraints)
    (smoothedPosition : ℚ × ℚ) : Feasible :=
  let marginX := max 0 constraints.margin * targetW
  let minMarginY := targetH * 0.1
  let adaptiveMarginY := max minMarginY (group.groupH * 0.6)
  let topPad := max minMarginY (adaptiveMarginY * 0.6)
  let bottomPad := adaptiveMarginY
  let paddedMinX := clamp (group.minX - marginX) 0 baseW
  let paddedMaxX := clamp (group.maxX + marginX) 0 baseW
  let paddedMinY := clamp (group.minY - topPad) 0 baseH
  let paddedMaxY := clamp (group.maxY + bottomPad) 0 baseH
  let frameCenterX := baseW / 2
  let blend := max 0 (min 1 constraints.centerBiasX)
  let desiredCenterX := smoothedPosition.1 * blend + frameCenterX * (1 - blend)
  let torsoBias := min (targetH * 0.18) (group.groupH * 0.6)
  let desiredCenterY :=
    (paddedMinY + paddedMaxY) / 2 + torsoBias - targetH * constraints.centerBiasY
  let insetX := max 8 (jsFloor (targetW * 0.06))
  let insetY := max 8 (jsFloor (targetH * 0.08))
  let xL0 := clamp (paddedMaxX + insetX - targetW) 0 (max 0 (baseW - targetW))
  let xU0 := clamp (paddedMinX - insetX) 0 (max 0 (baseW - targetW))
  let xM := clamp ((paddedMinX + paddedMaxX) / 2 - targetW / 2) 0 (max 0 (baseW - targetW))
  let xL := if xL0 > xU0 then xM else xL0
  let xU := if xL0 > xU0 then xM else xU0
  let safeTop := -(jsRound (targetH * constraints.safeTop))
  let safeBottom := jsRound (targetH * constraints.safeBottom)
  let minY := safeTop
  let maxY := baseH - targetH + safeBottom
  let yL0 := clamp (paddedMaxY + insetY - targetH) minY maxY
  let yU0 := clamp (paddedMinY - insetY) minY maxY
  let yM := clamp ((paddedMinY + paddedMaxY) / 2 - targetH / 2) minY maxY
  let yL := if yL0 > yU0 then yM else yL0
  let yU := if yL0 > yU0 then yM else yU0
  let xDes := clamp (desiredCenterX - targetW / 2) xL xU
  let yDes := clamp (desiredCenterY - targetH / 2) yL yU
  { xL := xL, xU := xU, yL := yL, yU := yU, xDes := xDes, yDes := yDes,
    groupW := paddedMaxX - paddedMinX, groupH := paddedMaxY - paddedMinY,
    insetX := insetX, insetY := insetY }

/-! ## Global trajectory optimizer (spec 4.3; ffmpeg.ts globalOptimize1D) -/

/-- Second-difference term used by the acceleration-penalty loop of
`globalOptimize1D`. -/
def daAt (x : List ℚ) (j : ℕ) : ℚ :=
  x.getD (j + 1) 0 - 2 * x.getD j 0 + x.getD (j - 1) 0

/-- Accumulated gradient g[i] of one `globalOptimize1D` iteration, written
per index: the fit loop contributes at i; the velocity loop (over i in
[1, n-1]) contributes +2 lambdaV (x[i]-x[i-1]) at i and the negated term at
i-1; the acceleration loop (over j in [1, n-2]) contributes 2 lambdaA da(j)
at j-1 and j+1 and -4 lambdaA da(j) at j. -/
def gAt (lambdaV lambdaA : ℚ) (x des ww : List ℚ) (n i : ℕ) : ℚ :=
  2 * ww.getD i 0 * (x.getD i 0 - des.getD i 0)
  + (if 1 ≤ i ∧ i < n then 2 * lambdaV * (x.getD i 0 - x.getD (i - 1) 0) else 0)
  - (if i + 2 ≤ n then 2 * lambdaV * (x.getD (i + 1) 0 - x.getD i 0) else 0)
  + (if 2 ≤ i ∧ i < n then 2 * lambdaA * daAt x (i - 1) else 0)
  + (if 1 ≤ i ∧ i + 2 ≤ n then -(4 * lambdaA * daAt x i) else 0)
  + (if i + 3 ≤ n then 2 * lambdaA * daAt x (i + 1) else 0)

/-- One gradient-descent iteration of `globalOptimize1D`: the whole gradient
is computed from the current x, then every coordinate steps and is clamped
by the two sequential ifs of the update loop (x < L first, then x > U). -/
def optIter (lambdaV lambdaA lr : ℚ) (des L U ww : List ℚ) (x : List ℚ) :
    List ℚ :=
  let n := des.length
  (List.range n).map (fun i =>
    let v := x.getD i 0 - lr * gAt lambdaV lambdaA x des ww n i
    let v1 := if v < L.getD i 0 then L.getD i 0 else v
    if v1 > U.getD i 0 then U.getD i 0 else v1)

/-- Source function `globalOptimize1D` (the t argument is accepted and, as
in the source, never read). -/
def globalOptimize1D (_t des L U w : List ℚ) (lambdaV lambdaA : ℚ)
    (iters : ℕ) (lr : ℚ) : List ℚ :=
  let ww := w.map (fun s => max 0.2 (min 1 s))
  (optIter lambdaV lambdaA lr des L U ww)^[iters] des

/-! ## Zoom solver (spec 4.4; ffmpeg.ts solveZoomSeries) -/

/-- Group geometry record consumed by `solveZoomSeries`. -/
structure ZoomGroup where
  w : ℚ
  h : ℚ
  insetX : ℚ
  insetY : ℚ
deriving DecidableEq, Repr

/-- Instantaneous zoom requirement of one sample (body of the
`solveZoomSeries` loop before blending). -/
def zoomRequired (g : ZoomGroup) (targetW targetH zMin : ℚ) : ℚ :=
  let needX := (g.w + 2 * g.insetX) / targetW
  let needY := (g.h + 2 * g.insetY) / targetH
  if needX > 1 ∨ needY > 1 then max zMin (1 / max needX needY) else 1

/-- Loop of `solveZoomSeries`: the first sample takes its raw requirement,
every later one blends from the previous output with the decay factor and
is floored at zMin. -/
def solveZoomAux (targetW targetH zMin : ℚ) :
    List ZoomGroup → Option ℚ → List ℚ
  | [], _ => []
  | g :: rest, prev =>
    let zr := zoomRequired g targetW targetH zMin
    match prev with
    | none => zr :: solveZoomAux targetW targetH zMin rest (some zr)
    | some p =>
      let blended := max zMin (p + zDecay * (zr - p))
      blended :: solveZoomAux targetW targetH zMin rest (some blended)

/-- Source function `solveZoomSeries`: iterates over the sample indices of
xs (ys is accepted and never read); the call site always passes groups of
the same length as xs. -/
def solveZoomSeries (xs _ys : List ℚ) (groups : List ZoomGroup)
    (targetW targetH zMin : ℚ) : List ℚ :=
  solveZoomAux targetW targetH zMin (groups.take xs.length) none

/-! ## Keyframe synthesis (ffmpeg.ts computeGlobalCropKeyframesFromTracksWithSpeechAndZoom) -/

/-- Per-frame anchor collection result of the first loop of
`computeGlobalCropKeyframesFromTracksWithSpeechAndZoom`. -/
structure AnchorFrame where
  anchor : PersonDet
  box : GroupBox
  t : ℚ
deriving DecidableEq, Repr

/-- First loop of `computeGlobalCropKeyframesFromTracksWithSpeechAndZoom`:
skip empty frames; under an active speaker reuse the remembered
speaker-to-track mapping when that track is still present, otherwise pick
by anchorScore and remember the choice; without a speaker just pick by
anchorScore.  The Record<string, number> map is an association list whose
most recent binding shadows older ones, exactly like JS assignment for
lookup purposes. -/
def anchorStep (hyp : ℚ → ℚ → ℚ) (turns : List SpeakerTurn) (baseW baseH : ℚ)
    (st : List (String × ℕ) × List AnchorFrame) (snap : PersonSnapshot) :
    List (String × ℕ) × List AnchorFrame :=
  match computeBounds snap.dets with
  | none => st
  | some b =>
    let push := fun (m : List (String × ℕ)) (a : PersonDet) =>
      (m, st.2 ++ [{ anchor := a, box := boundsToGroup b, t := snap.t }])
    match activeSpeakerAt snap.t turns with
    | some spk =>
      let found := match st.1.lookup spk with
        | some mid => snap.dets.find? (fun d => d.id = some mid)
        | none => none
      match found with
      | some a => push st.1 a
      | none =>
        match chooseAnchor hyp snap.dets baseW baseH with
        | some pick =>
          let m := match pick.id with
            | some pid => (spk, pid) :: st.1
            | none => st.1
          push m pick
        | none => st
    | none =>
      match chooseAnchor hyp snap.dets baseW baseH with
      | some pick => push st.1 pick
      | none => st

def collectAnchorFrames (hyp : ℚ → ℚ → ℚ) (timeline : List PersonSnapshot)
    (turns : List SpeakerTurn) (baseW baseH : ℚ) : List AnchorFrame :=
  (timeline.foldl (anchorStep hyp turns baseW baseH) ([], [])).2

/-- Second loop of the same function: exponential smoothing of raw anchor
centers, threading the SmoothingState exactly as the source does. -/
def smoothAnchors : List AnchorFrame → Option (ℚ × ℚ) → List (ℚ × ℚ)
  | [], _ => []
  | a :: rest, st =>
    let rawX := a.anchor.x + a.anchor.w / 2
    let rawY := a.anchor.y + a.anchor.h / 2
    let sm := applyTemporalSmoothing rawX rawY st
    sm :: smoothAnchors rest (some sm)

/-- Dimension-aware dynamic-path zoom floor of
`computeGlobalCropKeyframesFromTracksWithSpeechAndZoom`:
max(targetW / baseW, 1.0, Z_MIN) with targetW = floor(baseH * 9 / 16). -/
def zMinDyn (baseW baseH : ℚ) : ℚ :=
  max (max (jsFloor (baseH * 9 / 16) / baseW) 1) zMinUser

/-- Source function `computeGlobalCropKeyframesFromTracksWithSpeechAndZoom`:
anchors, smoothing, feasible regions, the two independent 1-D optimizations,
the zoom series, and the final clamped keyframes (w and h of each keyframe
are stored as targetW and baseH; list indices xs[i], ys[i], zs[i] are
in bounds by construction, so getD defaults are never consulted). -/
def computeGlobalCropKeyframesFromTracksWithSpeechAndZoom (hyp : ℚ → ℚ → ℚ)
    (timeline : List PersonSnapshot) (turns : List SpeakerTurn)
    (baseW baseH : ℚ) (constraints : Constraints) : List CropKF :=
  let targetW := jsFloor (baseH * 9 / 16)
  let frames := collectAnchorFrames hyp timeline turns baseW baseH
  if frames.isEmpty then []
  else
    let smooths := smoothAnchors frames none
    let feas := List.zipWith
      (fun (a : AnchorFrame) sm =>
        buildFeasible a.box a.anchor targetW baseH baseW baseH constraints sm)
      frames smooths
    let feasT := frames.map (fun a => a.t)
    let wts := frames.map (fun a => a.anchor.score)
    let xs := globalOptimize1D feasT (feas.map Feasible.xDes) (feas.map Feasible.xL)
      (feas.map Feasible.xU) wts globLambdaV globLambdaA globIters globLR
    let ys := globalOptimize1D feasT (feas.map Feasible.yDes) (feas.map Feasible.yL)
      (feas.map Feasible.yU) wts globLambdaV globLambdaA globIters globLR
    let zMin := zMinDyn baseW baseH
    let groups := feas.map (fun f =>
      { w := f.groupW, h := f.groupH, insetX := f.insetX, insetY := f.insetY : ZoomGroup })
    let zs := solveZoomSeries xs ys groups targetW baseH zMin
    (List.range feasT.length).map (fun i =>
      let z := zs.getD i 1
      let cropW := jsRound (targetW / z)
      let cropH := jsRound (baseH / z)
      let maxX := baseW - cropW
      let maxY := baseH - cropH
      let x := max 0 (min (jsRound (xs.getD i 0)) maxX)
      let y := max 0 (min (jsRound (ys.getD i 0)) maxY)
      { t := feasT.getD i 0, x := x, y := y, w := targetW, h := baseH,
        z := z, xs := 0, ys := 0 })

/-! ## Post-processing chain (spec 4.5; ffmpeg.ts smoothKeyframes .. compressCropMap) -/

/-- Loop of source function `smoothKeyframes` (first keyframe seeds the
state; sx, sy, sz are blended before each later push). -/
def smoothKFAux : List CropKF → ℚ → ℚ → ℚ → List CropKF
  | [], _, _, _ => []
  | k :: rest, sx, sy, sz =>
    let sx1 := sx + smoothAlpha * (k.x - sx)
    let sy1 := sy + smoothAlpha * (k.y - sy)
    let sz1 := sz + smoothAlpha * (k.z - sz)
    { t := k.t, x := jsRound sx1, y := jsRound sy1, w := k.w, h := k.h,
      z := sz1, xs := 0, ys := 0 } :: smoothKFAux rest sx1 sy1 sz1

/-- Source function `smoothKeyframes`. -/
def smoothKeyframes (kf : List CropKF) : List CropKF :=
  match kf with
  | [] => kf
  | [_] => kf
  | k :: rest =>
    { t := k.t, x := jsRound k.x, y := jsRound k.y, w := k.w, h := k.h,
      z := k.z, xs := 0, ys := 0 } :: smoothKFAux rest k.x k.y k.z

/-- Loop of source function `applyDeadzone` (prev is the last pushed
keyframe). -/
def deadzoneAux (dzx dzy : ℚ) : List CropKF → CropKF → List CropKF
  | [], _ => []
  | cur :: rest, prev =>
    let nx := if |cur.x - prev.x| < dzx then prev.x else cur.x
    let ny := if |cur.y - prev.y| < dzy then prev.y else cur.y
    let nz := if |cur.z - prev.z| < 0.01 then prev.z else cur.z
    let nk := { t := cur.t, x := nx, y := ny, w := cur.w, h := cur.h,
                z := nz, xs := 0, ys := 0 : CropKF }
    nk :: deadzoneAux dzx dzy rest nk

/-- Source function `applyDeadzone`. -/
def applyDeadzone (kf : List CropKF) (dzx dzy : ℚ) : List CropKF :=
  match kf with
  | [] => kf
  | [_] => kf
  | k :: rest => k :: deadzoneAux dzx dzy rest k

/-- Loop of source function `applyPanLimits`. -/
def panLimitAux (maxPanPerSecond : ℚ) : List CropKF → CropKF → List CropKF
  | [], _ => []
  | cur :: rest, prev =>
    let dt := max 0.001 (cur.t - prev.t)
    let maxDelta := max 0 maxPanPerSecond * dt
    let nk := { t := cur.t, x := stepToward prev.x cur.x maxDelta,
                y := stepToward prev.y cur.y maxDelta, w := cur.w, h := cur.h,
                z := cur.z, xs := 0, ys := 0 : CropKF }
    nk :: panLimitAux maxPanPerSecond rest nk

/-- Source function `applyPanLimits`. -/
def applyPanLimits (kf : List CropKF) (maxPanPerSecond : ℚ) : List CropKF :=
  match kf with
  | [] => kf
  | [_] => kf
  | k :: rest => k :: panLimitAux maxPanPerSecond rest k

/-- Loop of source function `applyAccelLimits` (carries the velocity state). -/
def accelLimitAux (maxAccelPerSecond : ℚ) :
    List CropKF → CropKF → ℚ → ℚ → List CropKF
  | [], _, _, _ => []
  | cur :: rest, prev, vx, vy =>
    let dt := max 0.001 (cur.t - prev.t)
    let tx := (cur.x - prev.x) / dt
    let ty := (cur.y - prev.y) / dt
    let ax := stepToward vx tx (maxAccelPerSecond * dt) - vx
    let ay := stepToward vy ty (maxAccelPerSecond * dt) - vy
    let vx1 := vx + ax
    let vy1 := vy + ay
    let nk := { t := cur.t, x := jsRound (prev.x + vx1 * dt),
                y := jsRound (prev.y + vy1 * dt), w := cur.w, h := cur.h,
                z := cur.z, xs := 0, ys := 0 : CropKF }
    nk :: accelLimitAux maxAccelPerSecond rest nk vx1 vy1

/-- Source function `applyAccelLimits` (returns the input unchanged below
three keyframes). -/
def applyAccelLimits (kf : List CropKF) (maxAccelPerSecond : ℚ) : List CropKF :=
  match kf with
  | [] => kf
  | [_] => kf
  | [_, _] => kf
  | k :: rest => k :: accelLimitAux maxAccelPerSecond rest k 0 0

/-- Loop of source function `easeSegmentEdges` (prev is the last pushed
keyframe; the first keyframe is pushed unchanged). -/
def easeAux (segStart segEnd easeSeconds : ℚ) :
    List CropKF → CropKF → List CropKF
  | [], _ => []
  | frame :: rest, prev =>
    let fromStart := min 1 (max 0 ((frame.t - segStart) / easeSeconds))
    let fromEnd := min 1 (max 0 ((segEnd - frame.t) / easeSeconds))
    let influence := min fromStart fromEnd
    let nk := { t := frame.t, x := jsRound (prev.x + (frame.x - prev.x) * influence),
                y := jsRound (prev.y + (frame.y - prev.y) * influence),
                w := frame.w, h := frame.h,
                z := prev.z + (frame.z - prev.z) * influence,
                xs := 0, ys := 0 : CropKF }
    nk :: easeAux segStart segEnd easeSeconds rest nk

/-- Source function `easeSegmentEdges`. -/
def easeSegmentEdges (kf : List CropKF) (segStart segEnd easeSeconds : ℚ) :
    List CropKF :=
  if kf.isEmpty ∨ easeSeconds ≤ 0 then kf
  else
    match kf with
    | [] => kf
    | k :: rest => k :: easeAux segStart segEnd easeSeconds rest k

/-- Source function `applyScaledCoords`: recompute the crop rectangle of
every keyframe from its zoom and clamp it into the frame. -/
def applyScaledCoords (kf : List CropKF) (baseW baseH : ℚ) : List CropKF :=
  let targetW := min (jsFloor (baseH * 9 / 16)) baseW
  kf.map (fun k =>
    let cropW := jsRound (targetW / k.z)
    let cropH := jsRound (baseH / k.z)
    let maxX := max 0 (baseW - cropW)
    let maxY := max 0 (baseH - cropH)
    { t := k.t, x := clamp k.x 0 maxX, y := clamp k.y 0 maxY,
      w := cropW, h := cropH, z := k.z, xs := 0, ys := 0 })

/-- Loop of source function `dedupeByTime` (last is the last kept keyframe). -/
def dedupeAux (minDelta : ℚ) : List CropKF → CropKF → List CropKF
  | [], _ => []
  | k :: rest, last =>
    if k.t - last.t ≥ minDelta then k :: dedupeAux minDelta rest k
    else dedupeAux minDelta rest last

/-- Source function `dedupeByTime`. -/
def dedupeByTime (kf : List CropKF) (minDelta : ℚ) : List CropKF :=
  match kf with
  | [] => kf
  | k :: rest => k :: dedupeAux minDelta rest k

/-- Filter loop of source function `compressCropMap` (the near-duplicate
branch): skip a middle keyframe when its time delta from the last kept one
is under 0.15 s, or when both the position delta and the zoom delta are
negligible.  Math.sqrt(dx^2 + dy^2) < 1 is written as dx^2 + dy^2 < 1
(equivalent, since the radicand is nonnegative and sqrt is monotone). -/
def compressFilterAux : List CropKF → CropKF → List CropKF
  | [], _ => []
  | curr :: rest, prev =>
    if curr.t - prev.t < 0.15 then compressFilterAux rest prev
    else if (curr.x - prev.x) ^ 2 + (curr.y - prev.y) ^ 2 < 1 ∧ |curr.z - prev.z| < 0.005 then
      compressFilterAux rest prev
    else curr :: compressFilterAux rest curr

/-- Source function `compressCropMap`: below three keyframes unchanged; up
to maxKeyframes the near-duplicate filter; above it uniform decimation with
step = length / (maxKeyframes - 1), always re-appending the last original
keyframe.  The decimation indices round(i * step) are within bounds for
every i < maxKeyframes - 1 (JS would read undefined otherwise); the getD
default is never consulted. -/
def compressCropMap (kf : List CropKF) (maxKeyframes : ℕ) : List CropKF :=
  match kf with
  | [] => kf
  | k :: rest =>
    if kf.length ≤ 2 then kf
    else if kf.length ≤ maxKeyframes then
      (k :: compressFilterAux rest.dropLast k) ++ [rest.getLastD k]
    else
      let step : ℚ := (kf.length : ℚ) / ((maxKeyframes : ℚ) - 1)
      (k :: List.map (fun (i : ℕ) => kf.getD (⌊(i : ℚ) * step + 1/2⌋).toNat k)
        (List.range' 1 (maxKeyframes - 2)))
      ++ [rest.getLastD k]

/-! ## Dynamic per-segment pipeline (ffmpeg.ts computeCropMapPerson) -/

/-- Source function `computeCropMapPerson`.  The detection timeline `snaps`
(the result of the IO-bound detectPersonsTimeline) is the input; everything
after it is the pure pipeline of the source, in the same order.  `none`
models the `return null` outcomes. -/
def computeCropMapPerson (hyp : ℚ → ℚ → ℚ) (snaps : List PersonSnapshot)
    (input : ComputeInput) (constraints : Constraints) :
    Option (List CropKF) :=
  if snaps.isEmpty then none
  else
    let tracksTimeline := buildTracks snaps input.baseW input.baseH
    if tracksTimeline.isEmpty then none
    else
      let turns := buildSpeakerTurns input.transcript input.segStart input.segEnd
      let raw := computeGlobalCropKeyframesFromTracksWithSpeechAndZoom hyp
        tracksTimeline turns input.baseW input.baseH constraints
      if raw.isEmpty then none
      else
        let smoothed := smoothKeyframes raw
        let deadzoned := applyDeadzone smoothed deadzoneX deadzoneY
        let limited := applyPanLimits deadzoned constraints.maxPan
        let accelLimited := applyAccelLimits limited maxAccel
        let eased := easeSegmentEdges accelLimited input.segStart input.segEnd
          (constraints.easeMs / 1000)
        let withScaled := applyScaledCoords eased input.baseW input.baseH
        let deduped := if withScaled.length > 0 then dedupeByTime withScaled 0.1 else []
        if deduped.isEmpty then none
        else some (compressCropMap deduped 120)

/-! ## Static per-segment path (ffmpeg.ts computeCropMapPersonStatic) -/

/-- Source function `percentile` (expects a sorted list, index clamped). -/
def percentile (sortedValues : List ℚ) (p : ℚ) : ℚ :=
  if sortedValues.isEmpty then 0
  else
    let index : ℤ := ⌈((sortedValues.length : ℚ) * p) / 100⌉ - 1
    sortedValues.getD (max 0 (min index ((sortedValues.length : ℤ) - 1))).toNat 0

/-- Source function `median` (expects a sorted list). -/
def median (sortedValues : List ℚ) : ℚ :=
  if sortedValues.isEmpty then 0
  else if sortedValues.length % 2 = 0 then
    (sortedValues.getD (sortedValues.length / 2 - 1) 0
      + sortedValues.getD (sortedValues.length / 2) 0) / 2
  else sortedValues.getD (sortedValues.length / 2) 0

/-- Source function `computeCropMapPersonStatic`.  With a persisted global
crop the keyframe is copied from it verbatim; otherwise one keyframe is
computed from the per-frame anchors of the detection timeline.  The
pairedAnchors array of the source is dead (collected, never read) and the
p90 width/height are likewise never read; they are omitted. -/
def computeCropMapPersonStatic (hyp : ℚ → ℚ → ℚ)
    (snaps : List PersonSnapshot) (input : ComputeInput)
    (_constraints : Constraints) (globalCrop : Option GlobalCrop) :
    Option (List CropKF) :=
  match globalCrop with
  | some gc =>
    some [{ t := input.segStart, x := gc.cropX, y := gc.cropY, w := gc.cropW,
            h := gc.cropH, z := gc.zMin, xs := 0, ys := 0 }]
  | none =>
    if snaps.isEmpty then none
    else
      let rawTargetW := min (jsFloor (input.baseH * 9 / 16)) input.baseW
      let targetW := jsFloor (rawTargetW / 2) * 2
      let evenTargetW := targetW
      let maxAnchorWidth := targetW * 0.9
      let collected := snaps.filterMap (fun snap =>
        match chooseAnchor hyp snap.dets input.baseW input.baseH with
        | none => none
        | some anchor =>
          some (anchor.x + anchor.w / 2, anchor.y + anchor.h / 2,
            min anchor.w maxAnchorWidth, anchor.h))
      if collected.isEmpty then none
      else
        let anchorCentersX := (collected.map (fun c => c.1)).insertionSort (· ≤ ·)
        let anchorCentersY := (collected.map (fun c => c.2.1)).insertionSort (· ≤ ·)
        let medianCx := median anchorCentersX
        let _medianCy := median anchorCentersY
        let zMin := max (max (evenTargetW / input.baseW) 1) 0.88
        let frameCenterX := input.baseW / 2
        let direction := jsSign (medianCx - frameCenterX)
        let bias := evenTargetW * 0.35
        let biasedCenterX := if direction ≠ 0 then medianCx - direction * bias else medianCx
        let cropXFinal0 := jsRound (biasedCenterX - evenTargetW / 2)
        let maxX := input.baseW - evenTargetW
        let cropXFinal1 := if cropXFinal0 < 0 then 0 else cropXFinal0
        let cropXFinal := if cropXFinal1 > maxX then maxX else cropXFinal1
        some [{ t := input.segStart, x := cropXFinal, y := 0, w := evenTargetW,
                h := input.baseH, z := zMin, xs := 0, ys := 0 }]

/-! ## Top-level fallback (ffmpeg.ts computeCropMap) -/

/-- Source function `computeCropMap`: dynamic first, static fallback, null
when neither yields keyframes.  In the source the fallback is also taken
when the dynamic path throws; the embedded pipeline is total, so the
fallback is taken exactly on the null/empty outcomes.  dynSnaps and
staticSnaps are the two (independent) detection passes of the two paths. -/
def computeCropMap (hyp : ℚ → ℚ → ℚ) (dynSnaps staticSnaps : List PersonSnapshot)
    (input : ComputeInput) (constraints : Constraints) : Option (List CropKF) :=
  let staticFallback :=
    match computeCropMapPersonStatic hyp staticSnaps input constraints none with
    | some kf => if kf.isEmpty then none else some kf
    | none => none
  match computeCropMapPerson hyp dynSnaps input constraints with
  | some kf => if kf.isEmpty then staticFallback else some kf
  | none => staticFallback

/-! ## Static global crop (spec 4.6; ffmpeg.ts weightedMedian / calculateCrop / computeGlobalStaticCrop) -/

/-- Accumulation loop of source function `weightedMedian`: first sorted item
whose cumulative weight reaches half the total. -/
def wmScan : List WeightedValue → ℚ → ℚ → Option ℚ
  | [], _, _ => none
  | i :: rest, acc, half =>
    if acc + i.weight ≥ half then some i.value else wmScan rest (acc + i.weight) half

/-- Source function `weightedMedian` (stable ascending sort by value; ties
cannot change the returned value, the JS stable sort is reproduced by a
stable insertion sort). -/
def weightedMedian (values : List WeightedValue) : ℚ :=
  match values.insertionSort (fun a b => a.value ≤ b.value) with
  | [] => 0
  | h :: rest =>
    let totalWeight := (h :: rest).foldl (fun sum i => sum + i.weight) 0
    match wmScan (h :: rest) 0 (totalWeight / 2) with
    | some v => v
    | none => (rest.getLastD h).value

/-- Centering stage of `calculateCrop` (everything between the strong-
detection filter and the clamp of the crop rectangle): weighted medians,
the two-cluster split, the blend toward frame center and the maximum-shift
clamp. -/
def cropCenterX (videoWidth videoHeight : ℚ) (d0 : FaceDetection)
    (drest : List FaceDetection) : ℚ :=
  let frameArea := videoWidth * videoHeight
  let strongDetections := (d0 :: drest).filter (fun d =>
    d.score ≥ 0.25 ∧ d.area ≥ 0.008 * frameArea)
  let usedDetections :=
    if strongDetections.length ≥ 8 then strongDetections else d0 :: drest
  let facesLeft := (usedDetections.map (fun d => d.x)).foldl min
    ((usedDetections.headD d0).x)
  let facesRight := (usedDetections.map (fun d => d.x + d.width)).foldl max
    ((usedDetections.headD d0).x + (usedDetections.headD d0).width)
  let centerXValues := usedDetections.map (fun d =>
    { value := d.centerX, weight := max d.area 1 : WeightedValue })
  let totalWeight := centerXValues.foldl (fun sum v => sum + v.weight) 0
  let groupCenterX := (facesLeft + facesRight) / 2
  let medianCenterX := weightedMedian centerXValues
  let leftCluster := centerXValues.filter (fun v => v.value ≤ groupCenterX)
  let rightCluster := centerXValues.filter (fun v => v.value > groupCenterX)
  let leftWeight := leftCluster.foldl (fun sum v => sum + v.weight) 0
  let rightWeight := rightCluster.foldl (fun sum v => sum + v.weight) 0
  let hasTwoSides : Bool :=
    totalWeight > 0 ∧ leftWeight / totalWeight ≥ 0.18 ∧
      rightWeight / totalWeight ≥ 0.18
  let centerFromFaces :=
    if hasTwoSides ∧ ¬leftCluster.isEmpty ∧ ¬rightCluster.isEmpty then
      ((weightedMedian leftCluster + weightedMedian rightCluster) / 2) * 0.8
        + medianCenterX * 0.2
    else groupCenterX * 0.6 + medianCenterX * 0.4
  let videoCenterX := videoWidth / 2
  let centerX0 := centerFromFaces * (1 - 0.1) + videoCenterX * 0.1
  let maxShift := videoWidth * 0.22
  let centerX1 := if centerX0 < videoCenterX - maxShift then videoCenterX - maxShift else centerX0
  if centerX1 > videoCenterX + maxShift then videoCenterX + maxShift else centerX1

/-- Source function `calculateCrop`, constants inlined at their source
values (STRONG_MIN_AREA_RATIO 0.008, STRONG_MIN_SCORE 0.25, two-speaker
minimum side share 0.18, VIDEO_CENTER_BLEND 0.1, maximum shift from center
0.22 of the width).  The centerYValues array of the source is dead
(pushed, never read) and is omitted. -/
def calculateCrop (resolution : ℚ × ℚ) (detections : List FaceDetection) :
    CropInfo :=
  let videoWidth := resolution.1
  let videoHeight := resolution.2
  let maxCropHeight := videoHeight
  let maxCropWidth0 := jsRound (maxCropHeight * 9 / 16)
  let maxCropWidth := if maxCropWidth0 > videoWidth then videoWidth else maxCropWidth0
  match detections with
  | [] =>
    { cropX := max 0 (jsFloor ((videoWidth - maxCropWidth) / 2)), cropY := 0,
      cropWidth := maxCropWidth, cropHeight := maxCropHeight,
      videoWidth := videoWidth, videoHeight := videoHeight }
  | d0 :: drest =>
    let centerX := cropCenterX videoWidth videoHeight d0 drest
    let cropHeight := maxCropHeight
    let cropWidth := maxCropWidth
    let cropX0 := jsRound (centerX - cropWidth / 2)
    let cropX1 := if cropX0 < 0 then 0 else cropX0
    let cropX := if cropX1 + cropWidth > videoWidth then videoWidth - cropWidth else cropX1
    let cropY0 : ℚ := 0
    let cropY1 := if cropY0 < 0 then 0 else cropY0
    let cropY := if cropY1 + cropHeight > videoHeight then videoHeight - cropHeight else cropY1
    { cropX := cropX, cropY := cropY, cropWidth := cropWidth,
      cropHeight := cropHeight, videoWidth := videoWidth, videoHeight := videoHeight }

/-- Detections one sampled window contributes to the aggregation loop of
`computeGlobalStaticCrop`: the flattened per-frame detections of a
successful window, nothing for a window whose detection pass threw (the
source catches the error and moves to the next window). -/
def winDetections : Except String (List FrameDetections) → List FaceDetection
  | .ok frames => frames.foldl (fun a f => a ++ f.detections) []
  | .error _ => []

/-- Window count of `computeGlobalStaticCrop`: between 3 and 6 fifteen-second
windows over the usable portion of the source (after the intro skip),
exactly as the source computes it. -/
def gscNumSamples (videoDurationSec : ℚ) (skipUntilSec : Option ℚ) : ℕ :=
  let sampleDurationSec : ℚ := 15
  let maxSamples : ℤ := 6
  let skipUntil := max 0 (skipUntilSec.getD 0)
  let defaultStart := videoDurationSec * 0.1
  let defaultEnd := videoDurationSec * 0.9
  let usableStart0 := max skipUntil defaultStart
  let usableStart :=
    if usableStart0 > videoDurationSec - sampleDurationSec then
      max 0 (videoDurationSec - sampleDurationSec)
    else usableStart0
  let usableEnd :=
    if defaultEnd < usableStart + sampleDurationSec then
      min videoDurationSec (usableStart + sampleDurationSec)
    else defaultEnd
  let usableDuration := max sampleDurationSec (usableEnd - usableStart)
  (min maxSamples (max 3 ⌊usableDuration / sampleDurationSec⌋)).toNat

/-- Aggregated detection pool of `computeGlobalStaticCrop` across all
sampled windows (partial aggregation: error windows contribute nothing and
do not stop the loop). -/
def gscPool (winDets : ℕ → Except String (List FrameDetections)) (n : ℕ) :
    List FaceDetection :=
  (List.range n).foldl (fun acc i => acc ++ winDetections (winDets i)) []

/-- Source function `computeGlobalStaticCrop`.  The detection boundary is
the function `winDets`, giving per sampled window either the detected
frames or the error thrown inside that window; the source catches the
error, keeps what was already aggregated, and continues with the next
window.  The window start/end times are computed by the source only to be
passed to the detector and logged; they do not affect the aggregation. -/
def computeGlobalStaticCrop (winDets : ℕ → Except String (List FrameDetections))
    (videoDurationSec baseW baseH : ℚ) (skipUntilSec : Option ℚ) :
    Option GlobalCrop :=
  let numSamples := gscNumSamples videoDurationSec skipUntilSec
  let allDetections := gscPool winDets numSamples
  if allDetections.length < 50 then none
  else
    let cropResult := calculateCrop (baseW, baseH) allDetections
    let finalCropW := jsFloor (cropResult.cropWidth / 2) * 2
    let zMin := max (max (finalCropW / baseW) 1) 0.88
    some { cropX := cropResult.cropX, cropY := cropResult.cropY,
           cropW := finalCropW, cropH := cropResult.cropHeight, zMin := zMin }

/-! ## Expression builder (spec 4.7; ffmpeg.ts buildPiecewiseExpr / buildCropDimensionExpr / buildFFmpegFilter) -/

/-- Decimal digit character. -/
def digitChar (n : ℕ) : Char := Char.ofNat (48 + n % 10)

/-- Reversed decimal digits of n (fuel-based structural recursion; fuel
n + 1 always suffices). -/
def natDigitsRev : ℕ → ℕ → List Char
  | 0, _ => []
  | fuel + 1, n => if n = 0 then [] else digitChar (n % 10) :: natDigitsRev fuel (n / 10)

/-- Decimal string of a natural number. -/
def natToStr (n : ℕ) : String :=
  if n = 0 then "0" else String.mk (natDigitsRev (n + 1) n).reverse

/-- Decimal string of an integer (JS default integer formatting). -/
def intToStr (i : ℤ) : String :=
  if i < 0 then "-" ++ natToStr i.natAbs else natToStr i.natAbs

/-- String JS prints for an integer-valued number (the embedding only ever
prints integer-valued quantities without toFixed: Math.round results,
evened widths and frame dimensions). -/
def qIntToStr (q : ℚ) : String := intToStr ⌊q⌋

/-- Fractional part of toFixed output, zero-padded to f digits. -/
def fracDigits (fp f : ℕ) : String :=
  String.mk (List.replicate (f - (natDigitsRev (fp + 1) fp).length) (digitChar 0)
    ++ (natDigitsRev (fp + 1) fp).reverse)

/-- Number.prototype.toFixed(f) for nonnegative q. -/
def toFixedStrNonneg (f : ℕ) (q : ℚ) : String :=
  let n : ℕ := (⌊q * 10 ^ f + 1/2⌋).toNat
  if f = 0 then natToStr (n / 10 ^ f)
  else natToStr (n / 10 ^ f) ++ "." ++ fracDigits (n % 10 ^ f) f

/-- Number.prototype.toFixed(f) (sign extracted first, as in ECMA-262). -/
def toFixedStr (f : ℕ) (q : ℚ) : String :=
  if q < 0 then "-" ++ toFixedStrNonneg f (-q) else toFixedStrNonneg f q

/-- Key selector of `buildPiecewiseExpr`. -/
inductive PwKey | x | y | xs | ys
deriving DecidableEq, Repr

/-- Value projection of `buildPiecewiseExpr`. -/
def pwProj : PwKey → CropKF → ℚ
  | .x, k => k.x
  | .y, k => k.y
  | .xs, k => k.xs
  | .ys, k => k.ys

/-- Middle pieces of the emitted piecewise expression, one per adjacent
keyframe pair: between(t,ta,tb)*(round(va)+(slope)*(t-ta)). -/
def pwPiecesStr : List (ℚ × ℚ) → List String
  | [] => []
  | [_] => []
  | (ta, va) :: (tb, vb) :: rest =>
    ("between(t," ++ toFixedStr 3 ta ++ "," ++ toFixedStr 3 tb ++ ")*("
      ++ qIntToStr (jsRound va) ++ "+("
      ++ toFixedStr 6 ((vb - va) / max 0.001 (tb - ta)) ++ ")*(t-"
      ++ toFixedStr 3 ta ++ "))")
      :: pwPiecesStr ((tb, vb) :: rest)

/-- Non-constant branch of the emitted expression: the lt head piece, the
between middle pieces, and the gte tail piece, joined with plus signs. -/
def pwExprStr (pairs : List (ℚ × ℚ)) : String :=
  match pairs, pairs.getLast? with
  | (t0, v0) :: _, some (tN, vN) =>
    String.intercalate "+"
      (("lt(t," ++ toFixedStr 3 t0 ++ ")*" ++ qIntToStr (jsRound v0))
        :: pwPiecesStr pairs
        ++ ["gte(t," ++ toFixedStr 3 tN ++ ")*" ++ qIntToStr (jsRound vN)])
  | _, _ => ""

/-- Source function `buildPiecewiseExpr` (the emitted filter text). -/
def buildPiecewiseExpr (kf : List CropKF) (key : PwKey) : String :=
  match kf with
  | [] => "0"
  | k0 :: _ =>
    let values := kf.map (pwProj key)
    let minVal := values.foldl min (pwProj key k0)
    let maxVal := values.foldl max (pwProj key k0)
    if maxVal - minVal < 1 then qIntToStr (jsRound (pwProj key k0))
    else pwExprStr (List.zip (kf.map CropKF.t) values)

/-- Source function `buildCropDimensionExpr` (the emitted filter text): the
piece values are baseDim / z, printed rounded, with slopes from the raw
values; the constant test compares the rounded dimensions. -/
def buildCropDimensionExpr (kf : List CropKF) (baseDim : ℚ) : String :=
  match kf with
  | [] => qIntToStr baseDim
  | k0 :: _ =>
    let dimensions := kf.map (fun k => jsRound (baseDim / k.z))
    let minDim := dimensions.foldl min (jsRound (baseDim / k0.z))
    let maxDim := dimensions.foldl max (jsRound (baseDim / k0.z))
    if maxDim - minDim < 1 then qIntToStr (jsRound (baseDim / k0.z))
    else pwExprStr (List.zip (kf.map CropKF.t) (kf.map (fun k => baseDim / k.z)))

/-- Per-keyframe validity test of `buildFFmpegFilter`: the two error checks
of the validation loop (crop dimensions exceeding the source, and crop
origin plus size outside the source), either of which sets the
hasInvalidCrop flag. -/
def invalidKF (baseW baseH evenTargetW : ℚ) (k : CropKF) : Bool :=
  let cropW := jsRound (evenTargetW / k.z)
  let cropH := jsRound (baseH / k.z)
  (cropW > baseW ∨ cropH > baseH) ∨
    (k.x < 0 ∨ k.y < 0 ∨ k.x + cropW > baseW ∨ k.y + cropH > baseH)

/-- Source function `buildFFmpegFilter`: validates the first
min(5, kf.length) keyframes, throws on a violation (modelled as .error),
builds the four dimension expressions, and throws when the assembled filter
exceeds 65536 characters. -/
def buildFFmpegFilter (baseW baseH : ℚ) (kf : List CropKF) :
    Except String String :=
  let targetW := jsFloor (baseH * 9 / 16)
  let evenTargetW := jsFloor (targetW / 2) * 2
  if (kf.take 5).any (invalidKF baseW baseH evenTargetW) then
    Except.error "Invalid crop parameters detected. This indicates a bug in the zoom calculation."
  else
    let xExpr := buildPiecewiseExpr kf PwKey.x
    let yExpr := buildPiecewiseExpr kf PwKey.y
    let cropWExpr := buildCropDimensionExpr kf evenTargetW
    let cropHExpr := buildCropDimensionExpr kf baseH
    let crop := "crop=\x27" ++ cropWExpr ++ "\x27:\x27" ++ cropHExpr
      ++ "\x27:\x27" ++ xExpr ++ "\x27:\x27" ++ yExpr ++ "\x27"
    let scale := "scale=" ++ qIntToStr evenTargetW ++ ":" ++ qIntToStr baseH ++ ":eval=frame"
    let fmt := "format=yuv420p"
    let fullFilter := String.intercalate "," [crop, scale, fmt]
    if fullFilter.length > 65536 then
      Except.error "Filter expression exceeds FFmpeg limits (64KB)."
    else Except.ok fullFilter

/-! ## FFmpeg expression semantics of the emitted text.
Under FFmpeg evaluation, lt(t,a) is 1 iff t < a, between(t,a,b) is 1 iff
a ≤ t ≤ b (both endpoints inclusive), gte(t,a) is 1 iff t ≥ a, and the
emitted numerals denote exactly the printed values: Math.round(v) for the
piece base values, toFixed(6) for slopes and toFixed(3) for times.  The
evaluators below denote the strings built by pwExprStr piece for piece. -/

/-- Indicator of a decidable proposition, as FFmpeg comparison functions
return 1 or 0. -/
def indQ (p : Prop) [Decidable p] : ℚ := if p then 1 else 0

/-- Value denoted by one between piece of the emitted expression. -/
def pwPieceVal (ta va tb vb tq : ℚ) : ℚ :=
  indQ (toFixedVal 3 ta ≤ tq ∧ tq ≤ toFixedVal 3 tb)
    * (jsRound va + toFixedVal 6 ((vb - va) / max 0.001 (tb - ta)) * (tq - toFixedVal 3 ta))

/-- Sum of the values of the middle pieces. -/
def pwPiecesVal : List (ℚ × ℚ) → ℚ → ℚ
  | [], _ => 0
  | [_], _ => 0
  | (ta, va) :: (tb, vb) :: rest, tq =>
    pwPieceVal ta va tb vb tq + pwPiecesVal ((tb, vb) :: rest) tq

/-- Value denoted by the non-constant emitted expression at time tq. -/
def pwExprVal (pairs : List (ℚ × ℚ)) (tq : ℚ) : ℚ :=
  match pairs, pairs.getLast? with
  | (t0, v0) :: _, some (tN, vN) =>
    indQ (tq < toFixedVal 3 t0) * jsRound v0 + pwPiecesVal pairs tq
      + indQ (toFixedVal 3 tN ≤ tq) * jsRound vN
  | _, _ => 0

/-- Time/value pairs feeding the pieces of buildPiecewiseExpr. -/
def pwPairs (kf : List CropKF) (key : PwKey) : List (ℚ × ℚ) :=
  List.zip (kf.map CropKF.t) (kf.map (pwProj key))

/-- Time/value pairs feeding the pieces of buildCropDimensionExpr (raw
dimensions baseDim / z; rounding happens at emission). -/
def dimPairs (kf : List CropKF) (baseDim : ℚ) : List (ℚ × ℚ) :=
  List.zip (kf.map CropKF.t) (kf.map (fun k => baseDim / k.z))

/-- Value denoted by the string buildPiecewiseExpr emits, at time tq. -/
def buildPiecewiseExprVal (kf : List CropKF) (key : PwKey) (tq : ℚ) : ℚ :=
  match kf with
  | [] => 0
  | k0 :: _ =>
    let values := kf.map (pwProj key)
    let minVal := values.foldl min (pwProj key k0)
    let maxVal := values.foldl max (pwProj key k0)
    if maxVal - minVal < 1 then jsRound (pwProj key k0)
    else pwExprVal (pwPairs kf key) tq

/-- Value denoted by the string buildCropDimensionExpr emits, at time tq. -/
def buildCropDimensionExprVal (kf : List CropKF) (baseDim : ℚ) (tq : ℚ) : ℚ :=
  match kf with
  | [] => baseDim
  | k0 :: _ =>
    let dimensions := kf.map (fun k => jsRound (baseDim / k.z))
    let minDim := dimensions.foldl min (jsRound (baseDim / k0.z))
    let maxDim := dimensions.foldl max (jsRound (baseDim / k0.z))
    if maxDim - minDim < 1 then jsRound (baseDim / k0.z)
    else pwExprVal (dimPairs kf baseDim) tq

/-- The greedy matched pairs computed inside `associateAndUpdate`: predicted
tracks and detections carry their array indices. -/
def assocMatches (prev : List Track) (dets : List PersonDet)
    (t baseW baseH : ℚ) : List ((ℕ × Track) × (ℕ × PersonDet)) :=
  greedyMatchAux ((prev.map (predictTrack t baseW baseH)).enum) dets.enum []

/-- A confirmed track at the origin (input for the association theorems). -/
def c6T1 : Track :=
  { id := 1, x := 0, y := 0, w := 100, h := 100, score := 1, vx := 0, vy := 0,
    lastT := 0, age := 1, hits := 3, miss := 0 }

/-- A second track over the same box, with 0.79 s of accumulated miss time. -/
def c6T2 : Track := { c6T1 with id := 2, miss := 79/100 }

/-- A detection exactly over both tracks' box. -/
def c6D : PersonDet :=
  { x := 0, y := 0, w := 100, h := 100, score := 1, id := none }

/-- A one-frame landscape timeline (input for the zoom-inertness witness). -/
def c10Timeline : List PersonSnapshot := [{ t := 0, dets := [c6D] }]

/-- Single detection driving the portrait-source zoom counterexample. -/
def c1Det : PersonDet :=
  { x := 100, y := 100, w := 50, h := 50, score := 1, id := none }

/-- Two snapshots of the same detection (enough for a confirmed track). -/
def c1Snaps : List PersonSnapshot :=
  [{ t := 0, dets := [c1Det] }, { t := 1/2, dets := [c1Det] }]

/-- A portrait source: baseW = 1000 < floor(baseH * 9/16) = 1080. -/
def c1Input : ComputeInput :=
  { baseW := 1000, baseH := 1920, segStart := 0, segEnd := 10, transcript := [] }

/-- Anchor-frame times of the c4Snaps run (the first snapshot yields no
confirmed track, the remaining 121 do). -/
def c4Ts : List ℚ := (List.range 121).map (fun i => ((i : ℚ) + 1) / 6)

/-- The constant anchor the tracker reports for every confirmed frame. -/
def c4Anchor : PersonDet :=
  { x := 100, y := 100, w := 50, h := 50, score := 1, id := some 1 }

/-- The constant group box of those frames. -/
def c4Box : GroupBox :=
  { groupW := 50, groupH := 50, minX := 100, maxX := 150, minY := 100,
    maxY := 150 }

/-- One snapshot of the c4 timeline. -/
def c4Snap (j : ℕ) : PersonSnapshot := { t := (j : ℚ) / 6, dets := [c1Det] }

/-- 122 snapshots of the same detection, 1/6 s apart: the tracker confirms
from the second one on, so the dynamic pipeline produces 121 deduped
keyframes — one above the compression ceiling. -/
def c4Snaps : List PersonSnapshot := (List.range 122).map c4Snap

/-- Tracker state after the first n snapshots of c4Snaps (n ≥ 1): one track,
matched every frame, and a timeline whose first frame is empty (the track is
not yet confirmed there). -/
def c4State (n : ℕ) : List Track × ℕ × List PersonSnapshot :=
  ([{ id := 1, x := 100, y := 100, w := 50, h := 50, score := 1, vx := 0,
      vy := 0, lastT := ((n : ℚ) - 1) / 6, age := ((n : ℚ) - 1) / 6,
      hits := n, miss := 0 }], n + 1,
    { t := 0, dets := [] } ::
      (List.range (n - 1)).map (fun i => { t := ((i : ℚ) + 1) / 6, dets := [c4Anchor] }))

/-- Witness input for the C5 theorem: 121 distinct keyframes. -/
def c5Input : List CropKF :=
  (List.range 121).map (fun i =>
    { t := i, x := i, y := 0, w := 100, h := 100, z := 1, xs := 0, ys := 0 })

/-- Trivial stand-in for Math.hypot used by concrete inputs whose frames
hold at most one detection each (chooseAnchor never evaluates it there). -/
def hyp0 : ℚ → ℚ → ℚ := fun _ _ => 0

/-- Concrete input record shared by witness evaluations. -/
def wInput : ComputeInput :=
  { baseW := 1920, baseH := 1080, segStart := 0, segEnd := 10, transcript := [] }

/-- Concrete constraints record shared by witness evaluations. -/
def wCons : Constraints :=
  { margin := 0.05, maxPan := 300, easeMs := 500, centerBiasX := 1,
    centerBiasY := 0, safeTop := 0, safeBottom := 0 }

/-- The constant feasible record of every frame of the c4Snaps run. -/
def c4F : Feasible :=
  buildFeasible c4Box c4Anchor (jsFloor ((1080 : ℚ) * 9 / 16)) 1080 1920 1080
    wCons (125, 125)

/-- The raw keyframe the dynamic path produces at time t in the c4Snaps
run (the anchor is far inside the target, so x = y = 0 and z = 1). -/
def c4RawKF (t : ℚ) : CropKF :=
  { t := t, x := 0, y := 0, w := 607, h := 1080, z := 1, xs := 0, ys := 0 }

/-- The keyframe sequence computeCropMapPerson returns on the c4Snaps run. -/
def c4Out : List CropKF :=
  compressCropMap (dedupeByTime (applyScaledCoords (easeSegmentEdges
    (applyAccelLimits (applyPanLimits (applyDeadzone
      (smoothKeyframes (c4Ts.map c4RawKF)) deadzoneX deadzoneY)
      wCons.maxPan) maxAccel)
    wInput.segStart wInput.segEnd (wCons.easeMs / 1000))
    wInput.baseW wInput.baseH) 0.1) 120

/-- Detector boundary with a throwing first window and a 50-detection
second window. -/
def c8DetOk : FaceDetection :=
  { x := 900, y := 400, width := 120, height := 120, centerX := 960,
    centerY := 460, score := 0.9, area := 14400 }

/-- Failing-window detector: window 0 throws, window 1 detects 50 faces,
later windows see nothing. -/
def c8f : ℕ → Except String (List FrameDetections) :=
  fun i =>
    if i = 0 then Except.error "detector crashed"
    else if i = 1 then
      Except.ok [{ index := 0, time := 30, detections := List.replicate 50 c8DetOk }]
    else Except.ok []

/-- Same boundary with the failing window replaced by an empty success. -/
def c8g : ℕ → Except String (List FrameDetections) :=
  fun i =>
    if i = 0 then Except.ok []
    else if i = 1 then
      Except.ok [{ index := 0, time := 30, detections := List.replicate 50 c8DetOk }]
    else Except.ok []

/-- Out-of-bounds keyframe sitting at index 5: its zoom 0.5 makes the
recomputed crop height 2160 exceed the 1080-pixel source. -/
def c2Bad : CropKF :=
  { t := 5, x := 0, y := 0, w := 606, h := 1080, z := 0.5, xs := 0, ys := 0 }

/-- Six keyframes whose only invalid member is at index 5, past the
five-keyframe validation window. -/
def c2Kf : List CropKF :=
  [{ t := 0, x := 0, y := 0, w := 606, h := 1080, z := 1, xs := 0, ys := 0 },
   { t := 1, x := 0, y := 0, w := 606, h := 1080, z := 1, xs := 0, ys := 0 },
   { t := 2, x := 0, y := 0, w := 606, h := 1080, z := 1, xs := 0, ys := 0 },
   { t := 3, x := 0, y := 0, w := 606, h := 1080, z := 1, xs := 0, ys := 0 },
   { t := 4, x := 0, y := 0, w := 606, h := 1080, z := 1, xs := 0, ys := 0 },
   c2Bad]

/-- Dominant face detection centered at x = 1600 for the C9 inputs. -/
def c9Det : FaceDetection :=
  { x := 1550, y := 100, width := 100, height := 100, centerX := 1600,
    centerY := 150, score := 0.9, area := 10000 }

/-- Detector boundary: one window with 50 detections centered at 1600. -/
def c9Win : ℕ → Except String (List FrameDetections) :=
  fun i =>
    if i = 0 then Except.ok [{ index := 0, time := 30, detections := List.replicate 50 c9Det }]
    else Except.ok []

/-- Default pair for indexed access into piece lists (indices are always in
bounds where it is used). -/
def dPair : ℚ × ℚ := (0, 0)

/-- Strict order on pieces: rounded times strictly increase. -/
def pairLt (a b : ℚ × ℚ) : Prop := toFixedVal 3 a.1 < toFixedVal 3 b.1

/-- First keyframe of the C3 concrete inputs. -/
def c3k0 : CropKF :=
  { t := 0, x := 0, y := 0, w := 606, h := 1080, z := 1, xs := 0, ys := 0 }

/-- Second keyframe of the C3 concrete inputs. -/
def c3k1 : CropKF :=
  { t := 1, x := 100, y := 0, w := 606, h := 1080, z := 1, xs := 0, ys := 0 }


/-! ## General helper lemmas -/

theorem clamp_le_hi (v lo hi : ℚ) (h : lo ≤ hi) : clamp v lo hi ≤ hi := by
  unfold clamp
  split
  · exact h
  · split
    · exact le_refl hi
    · linarith [not_lt.mp (by assumption : ¬_)]

theorem lo_le_clamp (v lo hi : ℚ) (h : lo ≤ hi) : lo ≤ clamp v lo hi := by
  unfold clamp
  split
  · exact le_refl lo
  · split
    · exact h
    · linarith [not_lt.mp (by assumption : ¬_)]

theorem clamp_self (v c : ℚ) : clamp v c c = c := by
  unfold clamp
  split
  · rfl
  · split
    · rfl
    · linarith [not_lt.mp (by assumption : ¬_), not_lt.mp (by assumption : ¬_)]

theorem jsRound_le_jsRound {a b : ℚ} (h : a ≤ b) : jsRound a ≤ jsRound b := by
  unfold jsRound
  exact_mod_cast Int.floor_le_floor (by linarith)

theorem jsRound_intCast (n : ℤ) : jsRound (n : ℚ) = n := by
  unfold jsRound
  have h : ⌊(n : ℚ) + 1/2⌋ = n := by
    apply Int.floor_eq_iff.mpr
    constructor
    · linarith
    · linarith
  rw [h]

theorem getLast?_cons_eq (k : CropKF) (rest : List CropKF) :
    (k :: rest).getLast? = some (rest.getLastD k) := by
  induction rest generalizing k with
  | nil => rfl
  | cons r rs ih =>
    rw [List.getLast?_cons_cons, ih r, List.getLastD_cons]

/-- C5: for every keyframe list longer than the compression ceiling (120),
compressCropMap returns at most 120 keyframes, beginning with the original
first keyframe and ending with the original last keyframe. -/
theorem compress_ceiling_first_last (kf : List CropKF) (h : 120 < kf.length) :
    (compressCropMap kf 120).length ≤ 120 ∧
    (compressCropMap kf 120).head? = kf.head? ∧
    (compressCropMap kf 120).getLast? = kf.getLast? := by
  match kf with
  | [] => simp at h
  | k :: rest =>
    have h2 : ¬((k :: rest).length ≤ 2) := by omega
    have h120 : ¬((k :: rest).length ≤ 120) := by omega
    unfold compressCropMap
    simp only [h2, h120, if_false]
    refine ⟨?_, ?_, ?_⟩
    · simp only [List.length_append, List.length_cons, List.length_map,
        List.length_singleton, List.length_range', List.length_nil]
      omega
    · rw [List.cons_append, List.head?_cons, List.head?_cons]
    · rw [List.getLast?_concat, getLast?_cons_eq]


/-- Witness for C5 at a concrete 121-keyframe list. -/
theorem compress_ceiling_first_last_witness :
    120 < c5Input.length ∧
    ((compressCropMap c5Input 120).length ≤ 120 ∧
     (compressCropMap c5Input 120).head? = c5Input.head? ∧
     (compressCropMap c5Input 120).getLast? = c5Input.getLast?) :=
  ⟨by decide, compress_ceiling_first_last c5Input (by decide)⟩


theorem associateAndUpdate_nil_nil (t baseW baseH : ℚ) (n : ℕ) :
    associateAndUpdate [] [] t baseW baseH n = [] := rfl

theorem buildTracksStep_empty (baseW baseH : ℚ)
    (st : List Track × ℕ × List PersonSnapshot) (s : PersonSnapshot)
    (htr : st.1 = []) (hs : s.dets = []) :
    buildTracksStep baseW baseH st s
      = ([], st.2.1 + 1, st.2.2 ++ [{ t := s.t, dets := [] }]) := by
  unfold buildTracksStep
  rw [htr, hs, associateAndUpdate_nil_nil]
  simp only [List.foldl_nil, List.filter_nil, List.map_nil]
  rw [Nat.max_eq_right (Nat.le_succ st.2.1)]

theorem buildTracks_empty_dets (snaps : List PersonSnapshot) (baseW baseH : ℚ)
    (h : ∀ s ∈ snaps, s.dets = []) :
    ∀ fr ∈ buildTracks snaps baseW baseH, fr.dets = [] := by
  suffices H : ∀ (nextId : ℕ) (out : List PersonSnapshot),
      (∀ fr ∈ out, fr.dets = []) →
      ∀ fr ∈ (snaps.foldl (buildTracksStep baseW baseH) ([], nextId, out)).2.2,
        fr.dets = [] by
    intro fr hfr
    exact H 1 [] (by intro fr hx; simp at hx) fr hfr
  induction snaps with
  | nil =>
    intro nextId out hout fr hfr
    exact hout fr hfr
  | cons s rest ih =>
    intro nextId out hout fr hfr
    rw [List.foldl_cons,
      buildTracksStep_empty baseW baseH _ s rfl (h s (List.mem_cons_self s rest))] at hfr
    refine ih (fun a ha => h a (List.mem_cons_of_mem s ha)) _ _ ?_ fr hfr
    intro a ha
    rcases List.mem_append.mp ha with h1 | h1
    · exact hout a h1
    · simp at h1
      rw [h1]

theorem anchorStep_empty (hyp : ℚ → ℚ → ℚ) (turns : List SpeakerTurn)
    (baseW baseH : ℚ) (st : List (String × ℕ) × List AnchorFrame)
    (snap : PersonSnapshot) (hs : snap.dets = []) :
    anchorStep hyp turns baseW baseH st snap = st := by
  unfold anchorStep
  rw [hs]
  rfl

theorem collectAnchorFrames_empty (hyp : ℚ → ℚ → ℚ)
    (timeline : List PersonSnapshot) (turns : List SpeakerTurn) (baseW baseH : ℚ)
    (h : ∀ fr ∈ timeline, fr.dets = []) :
    collectAnchorFrames hyp timeline turns baseW baseH = [] := by
  unfold collectAnchorFrames
  suffices H : ∀ st : List (String × ℕ) × List AnchorFrame,
      timeline.foldl (anchorStep hyp turns baseW baseH) st = st by
    rw [H ([], [])]
  intro st
  induction timeline generalizing st with
  | nil => rfl
  | cons s rest ih =>
    rw [List.foldl_cons, anchorStep_empty hyp turns baseW baseH st s
      (h s (List.mem_cons_self s rest))]
    exact ih (fun a ha => h a (List.mem_cons_of_mem s ha)) st

theorem computeGlobalCropKeyframes_empty (hyp : ℚ → ℚ → ℚ)
    (timeline : List PersonSnapshot) (turns : List SpeakerTurn)
    (baseW baseH : ℚ) (constraints : Constraints)
    (h : ∀ fr ∈ timeline, fr.dets = []) :
    computeGlobalCropKeyframesFromTracksWithSpeechAndZoom hyp timeline turns
      baseW baseH constraints = [] := by
  unfold computeGlobalCropKeyframesFromTracksWithSpeechAndZoom
  rw [collectAnchorFrames_empty hyp timeline turns baseW baseH h]
  rfl

theorem computeCropMapPerson_no_dets (hyp : ℚ → ℚ → ℚ)
    (snaps : List PersonSnapshot) (input : ComputeInput)
    (constraints : Constraints) (h : ∀ s ∈ snaps, s.dets = []) :
    computeCropMapPerson hyp snaps input constraints = none := by
  unfold computeCropMapPerson
  by_cases hsnil : snaps.isEmpty
  · rw [if_pos hsnil]
  · rw [if_neg hsnil]
    have hraw := computeGlobalCropKeyframes_empty hyp
      (buildTracks snaps input.baseW input.baseH)
      (buildSpeakerTurns input.transcript input.segStart input.segEnd)
      input.baseW input.baseH constraints
      (buildTracks_empty_dets snaps input.baseW input.baseH h)
    by_cases htl : (buildTracks snaps input.baseW input.baseH).isEmpty
    · rw [if_pos htl]
    · rw [if_neg htl]
      simp only [hraw]
      rfl

theorem computeCropMapPersonStatic_no_dets (hyp : ℚ → ℚ → ℚ)
    (snaps : List PersonSnapshot) (input : ComputeInput)
    (constraints : Constraints) (h : ∀ s ∈ snaps, s.dets = []) :
    computeCropMapPersonStatic hyp snaps input constraints none = none := by
  unfold computeCropMapPersonStatic
  by_cases hsnil : snaps.isEmpty
  · rw [if_pos hsnil]
  · rw [if_neg hsnil]
    have hcol : snaps.filterMap (fun snap =>
        match chooseAnchor hyp snap.dets input.baseW input.baseH with
        | none => none
        | some anchor =>
          some (anchor.x + anchor.w / 2, anchor.y + anchor.h / 2,
            min anchor.w (jsFloor (min (jsFloor (input.baseH * 9 / 16)) input.baseW / 2) * 2 * 0.9),
            anchor.h)) = [] := by
      rw [List.filterMap_eq_nil_iff]
      intro s hs
      rw [h s hs]
      rfl
    simp only [hcol]
    rfl

/-- C7: a detection timeline with no detections in any sampled frame makes
the dynamic computation return the explicit "no crop computable" value
(none, the embedding of null, with no exception since the pipeline is a
total function), and the top-level computeCropMap — whose static pass sees
the same detection-free video — then falls back and returns none as well. -/
theorem no_detections_yields_null (hyp : ℚ → ℚ → ℚ)
    (dynSnaps staticSnaps : List PersonSnapshot) (input : ComputeInput)
    (constraints : Constraints)
    (h1 : ∀ s ∈ dynSnaps, s.dets = []) (h2 : ∀ s ∈ staticSnaps, s.dets = []) :
    computeCropMapPerson hyp dynSnaps input constraints = none ∧
    computeCropMap hyp dynSnaps staticSnaps input constraints = none := by
  refine ⟨computeCropMapPerson_no_dets hyp dynSnaps input constraints h1, ?_⟩
  unfold computeCropMap
  rw [computeCropMapPerson_no_dets hyp dynSnaps input constraints h1,
    computeCropMapPersonStatic_no_dets hyp staticSnaps input constraints h2]


/-- Witness for C7 at a concrete detection-free timeline. -/
theorem no_detections_yields_null_witness :
    computeCropMapPerson hyp0 [{ t := 0, dets := [] }] wInput wCons = none ∧
    computeCropMap hyp0 [{ t := 0, dets := [] }] [{ t := 0, dets := [] }]
      wInput wCons = none :=
  no_detections_yields_null hyp0 [{ t := 0, dets := [] }] [{ t := 0, dets := [] }]
    wInput wCons (by intro s hs; simp at hs; rw [hs]) (by intro s hs; simp at hs; rw [hs])

theorem gscPool_congr (f g : ℕ → Except String (List FrameDetections))
    (hfg : ∀ i, winDetections (f i) = winDetections (g i)) (n : ℕ) :
    gscPool f n = gscPool g n := by
  unfold gscPool
  suffices H : ∀ (l : List ℕ) (acc : List FaceDetection),
      l.foldl (fun acc i => acc ++ winDetections (f i)) acc
        = l.foldl (fun acc i => acc ++ winDetections (g i)) acc by
    exact H (List.range n) []
  intro l
  induction l with
  | nil => intro acc; rfl
  | cons i rest ih =>
    intro acc
    rw [List.foldl_cons, List.foldl_cons, hfg i, ih]

/-- C8: one sampled window failing changes nothing beyond its own (empty)
contribution — aggregation over the other windows continues and the result
is the same as if the failing window had simply produced no detections —
and the computation returns the explicit failure value none exactly when
the aggregated pool across all sampled windows is smaller than the
50-detection floor, a crop rectangle otherwise. -/
theorem globalStatic_partial_aggregation
    (videoDurationSec baseW baseH : ℚ) (skip : Option ℚ)
    (f g : ℕ → Except String (List FrameDetections))
    (hfg : ∀ i, winDetections (f i) = winDetections (g i)) :
    (computeGlobalStaticCrop f videoDurationSec baseW baseH skip = none ↔
      (gscPool f (gscNumSamples videoDurationSec skip)).length < 50) ∧
    ((gscPool f (gscNumSamples videoDurationSec skip)).length ≥ 50 →
      (computeGlobalStaticCrop f videoDurationSec baseW baseH skip).isSome) ∧
    computeGlobalStaticCrop f videoDurationSec baseW baseH skip
      = computeGlobalStaticCrop g videoDurationSec baseW baseH skip := by
  refine ⟨?_, ?_, ?_⟩
  · unfold computeGlobalStaticCrop
    dsimp only
    split
    · exact iff_of_true rfl (by assumption)
    · exact iff_of_false (by simp) (by omega)
  · intro hge
    unfold computeGlobalStaticCrop
    dsimp only
    split
    · omega
    · rfl
  · unfold computeGlobalStaticCrop
    simp only [gscPool_congr f g hfg]


theorem c8_same_windows : ∀ i, winDetections (c8f i) = winDetections (c8g i) := by
  intro i
  match i with
  | 0 => rfl
  | 1 => rfl
  | n + 2 => rfl

/-- Witness for C8 at a concrete 300-second source whose first sampled
window throws: the pool still reaches 50, the result is a crop, and it
equals the result with the failure replaced by an empty window. -/
theorem globalStatic_partial_aggregation_witness :
    (∀ i, winDetections (c8f i) = winDetections (c8g i)) ∧
    ((computeGlobalStaticCrop c8f 300 1920 1080 none = none ↔
      (gscPool c8f (gscNumSamples 300 none)).length < 50) ∧
    ((gscPool c8f (gscNumSamples 300 none)).length ≥ 50 →
      (computeGlobalStaticCrop c8f 300 1920 1080 none).isSome) ∧
    computeGlobalStaticCrop c8f 300 1920 1080 none
      = computeGlobalStaticCrop c8g 300 1920 1080 none) :=
  ⟨c8_same_windows,
    globalStatic_partial_aggregation 300 1920 1080 none c8f c8g c8_same_windows⟩

section

/- Concrete evaluation of the embedded engine requires unfolding the
rational-number operations, which Batteries seals behind [irreducible];
re-opening them is sound (the attribute only affects elaborator-side
reduction). -/
attribute [local semireducible] Rat.mul Rat.add Rat.sub Rat.inv Rat.ofScientific

/-- C2 (amended): buildFFmpegFilter validates only the first min(5, length)
keyframes — an out-of-bounds keyframe among those five aborts with a hard
error before any expression text is assembled. -/
theorem buildFFmpegFilter_validates_first_five (baseW baseH : ℚ)
    (kf : List CropKF)
    (h : (kf.take 5).any
      (invalidKF baseW baseH (jsFloor (jsFloor (baseH * 9 / 16) / 2) * 2)) = true) :
    buildFFmpegFilter baseW baseH kf =
      Except.error "Invalid crop parameters detected. This indicates a bug in the zoom calculation." := by
  unfold buildFFmpegFilter
  rw [if_pos h]

/-- Witness for the amended C2: a violation at index 0 is caught. -/
theorem buildFFmpegFilter_validates_first_five_witness :
    ((([{ t := 0, x := -5, y := 0, w := 606, h := 1080, z := 1, xs := 0, ys := 0 }] :
        List CropKF).take 5).any
      (invalidKF 1920 1080 (jsFloor (jsFloor ((1080 : ℚ) * 9 / 16) / 2) * 2)) = true) ∧
    buildFFmpegFilter 1920 1080
      [{ t := 0, x := -5, y := 0, w := 606, h := 1080, z := 1, xs := 0, ys := 0 }] =
      Except.error "Invalid crop parameters detected. This indicates a bug in the zoom calculation." :=
  ⟨by decide,
    buildFFmpegFilter_validates_first_five 1920 1080 _ (by decide)⟩


set_option maxRecDepth 100000 in
/-- Counterexample to C2 as stated: c2Kf contains an out-of-bounds keyframe
(index 5, crop 1212x2160 against a 1920x1080 source), yet buildFFmpegFilter
emits a filter instead of throwing — the validation loop stops after the
first five keyframes. -/
theorem buildFFmpegFilter_misses_late_keyframe :
    c2Bad ∈ c2Kf ∧
    invalidKF 1920 1080 (jsFloor (jsFloor ((1080 : ℚ) * 9 / 16) / 2) * 2) c2Bad = true ∧
    (buildFFmpegFilter 1920 1080 c2Kf).isOk = true := by
  refine ⟨by decide, by decide, ?_⟩
  decide

theorem calculateCrop_1920x1080 (dets : List FaceDetection) :
    (calculateCrop (1920, 1080) dets).cropWidth = 608 ∧
    (calculateCrop (1920, 1080) dets).cropHeight = 1080 ∧
    (calculateCrop (1920, 1080) dets).cropY = 0 ∧
    0 ≤ (calculateCrop (1920, 1080) dets).cropX ∧
    (calculateCrop (1920, 1080) dets).cropX + 608 ≤ 1920 := by
  have hw : jsRound ((1080 : ℚ) * 9 / 16) = 608 := by decide
  unfold calculateCrop
  cases dets with
  | nil => decide
  | cons d0 drest =>
    dsimp only
    rw [hw, if_neg (by decide : ¬((608 : ℚ) > 1920))]
    refine ⟨rfl, rfl, by decide, ?_, ?_⟩
    · split_ifs <;> first | decide | linarith
    · split_ifs <;> first | decide | linarith

/-- C9 (amended), part of the framing-engine static paths at 1920x1080: the
segment-static path uses floor(1080*9/16) = 607 evened to 606 and clamps x
into [0, 1920-606]; the global static path uses round(1080*9/16) = 608
(evening leaves 608) and clamps x so that 0 <= x and x + 608 <= 1920. -/
theorem staticCrop_width_and_clamp :
    (∀ (hyp : ℚ → ℚ → ℚ) (snaps : List PersonSnapshot) (ss se : ℚ)
      (tr : List TranscriptWord) (cons : Constraints) (kfs : List CropKF),
      computeCropMapPersonStatic hyp snaps
        { baseW := 1920, baseH := 1080, segStart := ss, segEnd := se,
          transcript := tr } cons none = some kfs →
      ∀ k ∈ kfs, k.w = 606 ∧ k.h = 1080 ∧ k.y = 0 ∧ 0 ≤ k.x ∧
        k.x + k.w ≤ 1920 ∧ k.x ≤ 1920 - 606) ∧
    (∀ (winDets : ℕ → Except String (List FrameDetections)) (dur : ℚ)
      (skip : Option ℚ) (gc : GlobalCrop),
      computeGlobalStaticCrop winDets dur 1920 1080 skip = some gc →
      gc.cropW = 608 ∧ gc.cropH = 1080 ∧ gc.cropY = 0 ∧ 0 ≤ gc.cropX ∧
        gc.cropX + gc.cropW ≤ 1920 ∧ gc.cropX ≤ 1920 - 606) := by
  constructor
  · intro hyp snaps ss se tr cons kfs h k hk
    unfold computeCropMapPersonStatic at h
    dsimp only at h
    split at h
    · exact absurd h (by simp)
    · split at h
      · exact absurd h (by simp)
      · rw [Option.some_inj] at h
        subst h
        rw [List.mem_singleton] at hk
        subst hk
        have hev : jsFloor (min (jsFloor ((1080 : ℚ) * 9 / 16)) 1920 / 2) * 2 = 606 := by
          decide
        rw [hev]
        refine ⟨rfl, rfl, rfl, ?_, ?_, ?_⟩ <;>
          dsimp only <;> split_ifs <;> first | decide | linarith
  · intro winDets dur skip gc h
    unfold computeGlobalStaticCrop at h
    dsimp only at h
    split at h
    · exact absurd h (by simp)
    · rw [Option.some_inj] at h
      obtain ⟨h1, h2, h3, h4, h5⟩ := calculateCrop_1920x1080
        (gscPool winDets (gscNumSamples dur skip))
      subst h
      dsimp only
      rw [h1, h2, h3]
      have hev : jsFloor ((608 : ℚ) / 2) * 2 = 608 := by decide
      rw [hev]
      refine ⟨rfl, rfl, rfl, h4, by linarith, by linarith⟩


set_option maxRecDepth 100000 in
/-- Counterexample to C9 as stated: with a pool of detections all centered
at x = 1600 on a 1920x1080 source, the produced global static crop has
width round(1080*9/16) = 608 — not floor(1080*9/16) = 607 evened to 606 as
the claim says — because calculateCrop uses Math.round, not Math.floor (its
x, 1078, does satisfy the claimed clamp range). -/
theorem static_crop_width_is_608 :
    computeGlobalStaticCrop c9Win 300 1920 1080 none =
      some { cropX := 1078, cropY := 0, cropW := 608, cropH := 1080, zMin := 1 } ∧
    ¬(608 : ℚ) = 606 := by
  constructor
  · decide
  · decide

set_option maxRecDepth 100000 in
/-- Witness for the amended C9 at the concrete dominant-detection input and
at a concrete segment-static input with a single detection. -/
theorem staticCrop_width_and_clamp_witness :
    (computeCropMapPersonStatic hyp0
        [{ t := 0, dets := [{ x := 1550, y := 100, w := 100, h := 100, score := 0.9 }] }]
        { baseW := 1920, baseH := 1080, segStart := 0, segEnd := 10, transcript := [] }
        wCons none = some
          [{ t := 0, x := 1085, y := 0, w := 606, h := 1080, z := 1, xs := 0, ys := 0 }] ∧
     ((0 : ℚ) ≤ 1085 ∧ (1085 : ℚ) + 606 ≤ 1920)) ∧
    (computeGlobalStaticCrop c9Win 300 1920 1080 none =
      some { cropX := 1078, cropY := 0, cropW := 608, cropH := 1080, zMin := 1 } ∧
     ∀ k ∈ [{ t := 0, x := 1085, y := 0, w := 606, h := 1080, z := 1, xs := 0, ys := 0 : CropKF }],
       k.w = 606 ∧ k.h = 1080 ∧ k.y = 0 ∧ 0 ≤ k.x ∧ k.x + k.w ≤ 1920 ∧ k.x ≤ 1920 - 606) := by
  have hs := staticCrop_width_and_clamp.1 hyp0
    [{ t := 0, dets := [{ x := 1550, y := 100, w := 100, h := 100, score := 0.9 }] }]
    0 10 [] wCons
    [{ t := 0, x := 1085, y := 0, w := 606, h := 1080, z := 1, xs := 0, ys := 0 }]
    (by decide)
  have hg := staticCrop_width_and_clamp.2 c9Win 300 none
    { cropX := 1078, cropY := 0, cropW := 608, cropH := 1080, zMin := 1 } (by decide)
  exact ⟨⟨by decide, by decide, by decide⟩, ⟨by decide, hs⟩⟩


/-! ## Semantics lemmas for the emitted piecewise expressions (C3) -/


theorem indQ_pos (p : Prop) [Decidable p] (h : p) : indQ p = 1 := if_pos h

theorem indQ_neg (p : Prop) [Decidable p] (h : ¬p) : indQ p = 0 := if_neg h

theorem pwPiecesVal_inactive_lt (ps : List (ℚ × ℚ)) (tq : ℚ)
    (h : ∀ p ∈ ps, tq < toFixedVal 3 p.1) : pwPiecesVal ps tq = 0 := by
  induction ps with
  | nil => rfl
  | cons a rest ih =>
    cases rest with
    | nil => rfl
    | cons b rest2 =>
      obtain ⟨ta, va⟩ := a
      obtain ⟨tb, vb⟩ := b
      show pwPieceVal ta va tb vb tq + pwPiecesVal ((tb, vb) :: rest2) tq = 0
      rw [ih (fun p hp => h p (List.mem_cons_of_mem _ hp))]
      unfold pwPieceVal
      rw [indQ_neg]
      · ring
      · intro hc
        exact absurd (h (ta, va) (List.mem_cons_self _ _)) (not_lt.mpr hc.1)

theorem pwPiecesVal_inactive_gt (ps : List (ℚ × ℚ)) (tq : ℚ)
    (h : ∀ p ∈ ps, toFixedVal 3 p.1 < tq) : pwPiecesVal ps tq = 0 := by
  induction ps with
  | nil => rfl
  | cons a rest ih =>
    cases rest with
    | nil => rfl
    | cons b rest2 =>
      obtain ⟨ta, va⟩ := a
      obtain ⟨tb, vb⟩ := b
      show pwPieceVal ta va tb vb tq + pwPiecesVal ((tb, vb) :: rest2) tq = 0
      rw [ih (fun p hp => h p (List.mem_cons_of_mem _ hp))]
      unfold pwPieceVal
      rw [indQ_neg]
      · ring
      · intro hc
        exact absurd (h (tb, vb) (List.mem_cons_of_mem _ (List.mem_cons_self _ _)))
          (not_lt.mpr hc.2)


theorem pwPieceVal_at_left (ta va tb vb : ℚ)
    (h : toFixedVal 3 ta ≤ toFixedVal 3 tb) :
    pwPieceVal ta va tb vb (toFixedVal 3 ta) = jsRound va := by
  unfold pwPieceVal
  rw [indQ_pos _ ⟨le_refl _, h⟩]
  ring


theorem getD_mem_of_lt (ps : List (ℚ × ℚ)) (j : ℕ) (hj : j < ps.length) :
    ps.getD j dPair ∈ ps := by
  rw [List.getD_eq_getElem ps dPair hj]
  exact List.getElem_mem hj

theorem pairwise_head_leD (b : ℚ × ℚ) (ps : List (ℚ × ℚ))
    (hp : List.Pairwise pairLt (b :: ps)) (j : ℕ) (hj : j < (b :: ps).length) :
    toFixedVal 3 b.1 ≤ toFixedVal 3 (((b :: ps)).getD j dPair).1 := by
  cases j with
  | zero => exact le_refl _
  | succ j =>
    rw [List.getD_cons_succ]
    rw [List.pairwise_cons] at hp
    exact le_of_lt (hp.1 _ (getD_mem_of_lt ps j (by simpa using hj)))

theorem pwPiecesVal_within (i : ℕ) (ps : List (ℚ × ℚ))
    (hp : List.Pairwise pairLt ps) (hi : i + 1 < ps.length) (tq : ℚ)
    (hlo : toFixedVal 3 (ps.getD i dPair).1 ≤ tq)
    (hlo' : i = 0 ∨ toFixedVal 3 (ps.getD i dPair).1 < tq)
    (hhi : tq < toFixedVal 3 (ps.getD (i + 1) dPair).1) :
    pwPiecesVal ps tq =
      pwPieceVal (ps.getD i dPair).1 (ps.getD i dPair).2
        (ps.getD (i + 1) dPair).1 (ps.getD (i + 1) dPair).2 tq := by
  induction i generalizing ps with
  | zero =>
    match ps, hp, hi, hlo, hlo', hhi with
    | (ta, va) :: (tb, vb) :: rest, hp, hx, hlo, hlo', hhi =>
      rw [List.getD_cons_succ, List.getD_cons_zero] at hhi
      rw [List.getD_cons_zero] at hlo
      rw [List.getD_cons_succ, List.getD_cons_zero, List.getD_cons_zero]
      show pwPieceVal ta va tb vb tq + pwPiecesVal ((tb, vb) :: rest) tq = _
      rw [pwPiecesVal_inactive_lt ((tb, vb) :: rest) tq]
      · ring
      · intro p hpmem
        rcases List.mem_cons.mp hpmem with h1 | h1
        · rw [h1]
          exact hhi
        · rw [List.pairwise_cons] at hp
          rw [List.pairwise_cons] at hp
          exact lt_trans hhi (hp.2.1 p h1)
  | succ j ih =>
    match ps, hp, hi, hlo, hlo', hhi with
    | (ta, va) :: b :: rest, hp, hx, hlo, hlo', hhi =>
      rw [List.getD_cons_succ] at hlo hhi
      rw [List.getD_cons_succ] at hhi
      rw [List.getD_cons_succ, List.getD_cons_succ]
      show pwPieceVal ta va b.1 b.2 tq + pwPiecesVal (b :: rest) tq = _
      have hstrict : toFixedVal 3 ((b :: rest).getD j dPair).1 < tq := by
        rcases hlo' with h0 | h0
        · exact absurd h0 (Nat.succ_ne_zero j)
        · rw [List.getD_cons_succ] at h0
          exact h0
      have htail : List.Pairwise pairLt (b :: rest) := by
        rw [List.pairwise_cons] at hp
        exact hp.2
      have hjlen : j + 1 < (b :: rest).length := by
        simpa using hx
      have hble : toFixedVal 3 b.1 ≤ toFixedVal 3 ((b :: rest).getD j dPair).1 := by
        apply pairwise_head_leD b rest htail
        omega
      have hbne : ¬(toFixedVal 3 ta ≤ tq ∧ tq ≤ toFixedVal 3 b.1) := by
        intro hc
        exact absurd (lt_of_le_of_lt hble hstrict) (not_lt.mpr hc.2)
      have hpe : pwPieceVal ta va b.1 b.2 tq = 0 := by
        obtain ⟨tb, vb⟩ := b
        unfold pwPieceVal
        rw [indQ_neg _ hbne]
        ring
      rw [hpe, ih (b :: rest) htail hjlen (le_of_lt hstrict) (Or.inr hstrict) hhi]
      ring


theorem pwPiecesVal_at_ts (i : ℕ) (ps : List (ℚ × ℚ))
    (hp : List.Pairwise pairLt ps) (hi : i + 1 < ps.length) :
    pwPiecesVal ps (toFixedVal 3 (ps.getD (i + 1) dPair).1) =
      pwPieceVal (ps.getD i dPair).1 (ps.getD i dPair).2
        (ps.getD (i + 1) dPair).1 (ps.getD (i + 1) dPair).2
        (toFixedVal 3 (ps.getD (i + 1) dPair).1)
      + (if i + 2 < ps.length then jsRound (ps.getD (i + 1) dPair).2 else 0) := by
  induction i generalizing ps with
  | zero =>
    match ps, hp, hi with
    | (ta, va) :: (tb, vb) :: rest, hp, hx =>
      rw [List.getD_cons_succ, List.getD_cons_zero, List.getD_cons_zero]
      show pwPieceVal ta va tb vb _ + pwPiecesVal ((tb, vb) :: rest) _ = _
      cases rest with
      | nil =>
        have hlen : ¬(0 + 2 < ([(ta, va), (tb, vb)] : List (ℚ × ℚ)).length) := by
          simp
        rw [if_neg hlen]
        show pwPieceVal ta va tb vb _ + 0 = pwPieceVal ta va tb vb _ + 0
        rfl
      | cons c rest3 =>
        have hlen : 0 + 2 < ((ta, va) :: (tb, vb) :: c :: rest3).length := by
          simp
        rw [if_pos hlen]
        have htb_le : toFixedVal 3 tb ≤ toFixedVal 3 c.1 := by
          rw [List.pairwise_cons] at hp
          rw [List.pairwise_cons] at hp
          exact le_of_lt (hp.2.1 c (List.mem_cons_self _ _))
        have hmid : pwPiecesVal ((tb, vb) :: c :: rest3) (toFixedVal 3 tb) =
            jsRound vb := by
          obtain ⟨tc, vc⟩ := c
          show pwPieceVal tb vb tc vc _ + pwPiecesVal ((tc, vc) :: rest3) _ = _
          rw [pwPieceVal_at_left tb vb tc vc htb_le]
          rw [pwPiecesVal_inactive_lt ((tc, vc) :: rest3) (toFixedVal 3 tb)]
          · ring
          · intro p hpmem
            rw [List.pairwise_cons] at hp
            rw [List.pairwise_cons] at hp
            rcases List.mem_cons.mp hpmem with h1 | h1
            · rw [h1]
              exact hp.2.1 (tc, vc) (List.mem_cons_self _ _)
            · have h3 := hp.2.2
              rw [List.pairwise_cons] at h3
              exact lt_trans (hp.2.1 (tc, vc) (List.mem_cons_self _ _)) (h3.1 p h1)
        rw [hmid]
  | succ j ih =>
    match ps, hp, hi with
    | (ta, va) :: b :: rest, hp, hx =>
      simp only [List.getD_cons_succ]
      show pwPieceVal ta va b.1 b.2 _ + pwPiecesVal (b :: rest) _ = _
      have htail : List.Pairwise pairLt (b :: rest) := by
        rw [List.pairwise_cons] at hp
        exact hp.2
      have hjlen : j + 1 < (b :: rest).length := by
        simpa using hx
      have hble : toFixedVal 3 b.1 ≤ toFixedVal 3 ((b :: rest).getD j dPair).1 := by
        apply pairwise_head_leD b rest htail
        omega
      have hlt : toFixedVal 3 ((b :: rest).getD j dPair).1 <
          toFixedVal 3 (rest.getD j dPair).1 := by
        have hpg := (List.pairwise_iff_getElem).mp htail
        have h2 : (b :: rest).getD (j + 1) dPair = rest.getD j dPair :=
          List.getD_cons_succ
        rw [← h2, List.getD_eq_getElem _ dPair (by omega : j < (b :: rest).length),
          List.getD_eq_getElem _ dPair hjlen]
        exact hpg j (j + 1) (by omega) hjlen (by omega)
      have hbne : ¬(toFixedVal 3 ta ≤ toFixedVal 3 (rest.getD j dPair).1 ∧
          toFixedVal 3 (rest.getD j dPair).1 ≤ toFixedVal 3 b.1) := by
        intro hc
        exact absurd (lt_of_le_of_lt hble hlt) (not_lt.mpr hc.2)
      have hpe : pwPieceVal ta va b.1 b.2
          (toFixedVal 3 (rest.getD j dPair).1) = 0 := by
        obtain ⟨tb, vb⟩ := b
        unfold pwPieceVal
        rw [indQ_neg _ hbne]
        ring
      have ih' := ih (b :: rest) htail hjlen
      simp only [List.getD_cons_succ] at ih'
      rw [hpe, ih']
      by_cases hc : j + 2 < (b :: rest).length
      · rw [if_pos hc, if_pos (by simp only [List.length_cons] at hc ⊢; omega :
          j + 1 + 2 < ((ta, va) :: b :: rest).length)]
        ring
      · rw [if_neg hc, if_neg (by simp only [List.length_cons] at hc ⊢; omega :
          ¬(j + 1 + 2 < ((ta, va) :: b :: rest).length))]
        ring


theorem getLast?_cons_eq_pair (p0 : ℚ × ℚ) (rest : List (ℚ × ℚ)) :
    (p0 :: rest).getLast? = some (rest.getLastD p0) := by
  induction rest generalizing p0 with
  | nil => rfl
  | cons r rs ih =>
    rw [List.getLast?_cons_cons, ih r, List.getLastD_cons]

theorem getLastD_eq_getD (p0 : ℚ × ℚ) (rest : List (ℚ × ℚ)) :
    rest.getLastD p0 = (p0 :: rest).getD rest.length dPair := by
  induction rest generalizing p0 with
  | nil => rfl
  | cons r rs ih =>
    rw [List.getLastD_cons, ih r]
    rfl

theorem getLastD_mem (p0 : ℚ × ℚ) (rest : List (ℚ × ℚ)) :
    rest.getLastD p0 ∈ p0 :: rest := by
  rw [getLastD_eq_getD]
  exact getD_mem_of_lt _ _ (by simp)

theorem le_getLastD (a : ℚ × ℚ) (l : List (ℚ × ℚ))
    (hp : List.Pairwise pairLt (a :: l)) :
    ∀ p ∈ a :: l, toFixedVal 3 p.1 ≤ toFixedVal 3 (l.getLastD a).1 := by
  induction l generalizing a with
  | nil =>
    intro p hpm
    rcases List.mem_cons.mp hpm with h | h
    · rw [h]
      exact le_refl _
    · simp at h
  | cons b l2 ih =>
    intro p hpm
    rw [List.getLastD_cons]
    rw [List.pairwise_cons] at hp
    rcases List.mem_cons.mp hpm with h | h
    · rw [h]
      exact le_trans (le_of_lt (hp.1 b (List.mem_cons_self _ _)))
        (ih b hp.2 b (List.mem_cons_self _ _))
    · exact ih b hp.2 p h

theorem pwExprVal_cons (t0 v0 : ℚ) (rest : List (ℚ × ℚ)) (tq : ℚ) :
    pwExprVal ((t0, v0) :: rest) tq =
      indQ (tq < toFixedVal 3 t0) * jsRound v0
        + pwPiecesVal ((t0, v0) :: rest) tq
        + indQ (toFixedVal 3 (rest.getLastD (t0, v0)).1 ≤ tq)
            * jsRound (rest.getLastD (t0, v0)).2 := by
  rcases hq : rest.getLastD (t0, v0) with ⟨tN, vN⟩
  unfold pwExprVal
  rw [getLast?_cons_eq_pair, hq]

theorem pwExprVal_before (t0 v0 : ℚ) (rest : List (ℚ × ℚ))
    (hp : List.Pairwise pairLt ((t0, v0) :: rest)) (tq : ℚ)
    (h : tq < toFixedVal 3 t0) :
    pwExprVal ((t0, v0) :: rest) tq = jsRound v0 := by
  have hm := le_getLastD (t0, v0) rest hp (t0, v0) (List.mem_cons_self _ _)
  rw [pwExprVal_cons]
  rw [pwPiecesVal_inactive_lt]
  · rw [indQ_pos _ h, indQ_neg]
    · ring
    · intro hc
      linarith
  · intro p hpm
    rcases List.mem_cons.mp hpm with h1 | h1
    · rw [h1]
      exact h
    · rw [List.pairwise_cons] at hp
      exact lt_trans h (hp.1 p h1)

theorem pwExprVal_after (t0 v0 : ℚ) (rest : List (ℚ × ℚ))
    (hp : List.Pairwise pairLt ((t0, v0) :: rest)) (tq : ℚ)
    (h : toFixedVal 3 (rest.getLastD (t0, v0)).1 < tq) :
    pwExprVal ((t0, v0) :: rest) tq = jsRound (rest.getLastD (t0, v0)).2 := by
  have hall : ∀ p ∈ (t0, v0) :: rest, toFixedVal 3 p.1 < tq := by
    intro p hpm
    exact lt_of_le_of_lt (le_getLastD (t0, v0) rest hp p hpm) h
  rw [pwExprVal_cons]
  rw [pwPiecesVal_inactive_gt _ _ hall]
  rw [indQ_neg _ (not_lt.mpr (le_of_lt (hall (t0, v0) (List.mem_cons_self _ _)))),
    indQ_pos _ (le_of_lt h)]
  ring

theorem pwExprVal_at_first (t0 v0 : ℚ) (rest : List (ℚ × ℚ))
    (hp : List.Pairwise pairLt ((t0, v0) :: rest)) :
    pwExprVal ((t0, v0) :: rest) (toFixedVal 3 t0) = jsRound v0 := by
  rw [pwExprVal_cons]
  cases rest with
  | nil =>
    rw [show (([] : List (ℚ × ℚ)).getLastD (t0, v0)) = (t0, v0) from rfl]
    rw [indQ_neg _ (lt_irrefl _), indQ_pos _ (le_refl _)]
    show 0 * jsRound v0 + 0 + 1 * jsRound v0 = jsRound v0
    ring
  | cons b rest2 =>
    have hlt : toFixedVal 3 t0 < toFixedVal 3 b.1 := by
      rw [List.pairwise_cons] at hp
      exact hp.1 b (List.mem_cons_self _ _)
    have hw := pwPiecesVal_within 0 ((t0, v0) :: b :: rest2) hp
      (by simp) (toFixedVal 3 t0)
      (by rw [List.getD_cons_zero])
      (Or.inl rfl)
      (by rw [List.getD_cons_succ, List.getD_cons_zero]; exact hlt)
    rw [List.getD_cons_zero, List.getD_cons_succ, List.getD_cons_zero] at hw
    rw [hw, pwPieceVal_at_left _ _ _ _ (le_of_lt hlt)]
    have hlast : toFixedVal 3 t0 < toFixedVal 3 ((b :: rest2).getLastD (t0, v0)).1 := by
      rw [List.getLastD_cons]
      have hb := le_getLastD b rest2 (by rw [List.pairwise_cons] at hp; exact hp.2)
        b (List.mem_cons_self _ _)
      exact lt_of_lt_of_le hlt hb
    rw [indQ_neg _ (lt_irrefl _), indQ_neg _ (not_le.mpr hlast)]
    ring


theorem pwExprVal_within_strict (t0 v0 : ℚ) (rest : List (ℚ × ℚ))
    (hp : List.Pairwise pairLt ((t0, v0) :: rest)) (i : ℕ)
    (hi : i + 1 < ((t0, v0) :: rest).length) (tq : ℚ)
    (hlo : toFixedVal 3 (((t0, v0) :: rest).getD i dPair).1 < tq)
    (hhi : tq < toFixedVal 3 (((t0, v0) :: rest).getD (i + 1) dPair).1) :
    pwExprVal ((t0, v0) :: rest) tq =
      jsRound (((t0, v0) :: rest).getD i dPair).2
        + toFixedVal 6 (((((t0, v0) :: rest).getD (i + 1) dPair).2
            - (((t0, v0) :: rest).getD i dPair).2)
          / max 0.001 ((((t0, v0) :: rest).getD (i + 1) dPair).1
            - (((t0, v0) :: rest).getD i dPair).1))
          * (tq - toFixedVal 3 (((t0, v0) :: rest).getD i dPair).1) := by
  have hhead : toFixedVal 3 (t0, v0).1 ≤
      toFixedVal 3 (((t0, v0) :: rest).getD i dPair).1 :=
    pairwise_head_leD (t0, v0) rest hp i (by omega)
  have hlastge : toFixedVal 3 (((t0, v0) :: rest).getD (i + 1) dPair).1 ≤
      toFixedVal 3 (rest.getLastD (t0, v0)).1 :=
    le_getLastD (t0, v0) rest hp _ (getD_mem_of_lt _ _ hi)
  have hact : toFixedVal 3 (((t0, v0) :: rest).getD i dPair).1 ≤ tq ∧
      tq ≤ toFixedVal 3 (((t0, v0) :: rest).getD (i + 1) dPair).1 :=
    ⟨le_of_lt hlo, le_of_lt hhi⟩
  have hlt0 : ¬(tq < toFixedVal 3 t0) :=
    not_lt.mpr (le_trans hhead (le_of_lt hlo))
  have hlast : ¬(toFixedVal 3 (rest.getLastD (t0, v0)).1 ≤ tq) :=
    not_le.mpr (lt_of_lt_of_le hhi hlastge)
  rw [pwExprVal_cons]
  rw [pwPiecesVal_within i ((t0, v0) :: rest) hp hi tq (le_of_lt hlo)
    (Or.inr hlo) hhi]
  unfold pwPieceVal
  rw [indQ_pos _ hact, indQ_neg _ hlt0, indQ_neg _ hlast]
  ring

theorem pwExprVal_at_ts (t0 v0 : ℚ) (rest : List (ℚ × ℚ))
    (hp : List.Pairwise pairLt ((t0, v0) :: rest)) (i : ℕ)
    (hi : i + 1 < ((t0, v0) :: rest).length) :
    pwExprVal ((t0, v0) :: rest)
        (toFixedVal 3 (((t0, v0) :: rest).getD (i + 1) dPair).1) =
      jsRound (((t0, v0) :: rest).getD i dPair).2
        + toFixedVal 6 (((((t0, v0) :: rest).getD (i + 1) dPair).2
            - (((t0, v0) :: rest).getD i dPair).2)
          / max 0.001 ((((t0, v0) :: rest).getD (i + 1) dPair).1
            - (((t0, v0) :: rest).getD i dPair).1))
          * (toFixedVal 3 (((t0, v0) :: rest).getD (i + 1) dPair).1
            - toFixedVal 3 (((t0, v0) :: rest).getD i dPair).1)
        + jsRound (((t0, v0) :: rest).getD (i + 1) dPair).2 := by
  have hpg := (List.pairwise_iff_getElem).mp hp
  have hstrict : toFixedVal 3 (((t0, v0) :: rest).getD i dPair).1 <
      toFixedVal 3 (((t0, v0) :: rest).getD (i + 1) dPair).1 := by
    rw [List.getD_eq_getElem _ dPair (by omega : i < ((t0, v0) :: rest).length),
      List.getD_eq_getElem _ dPair hi]
    exact hpg i (i + 1) (by omega) hi (by omega)
  have hhead : toFixedVal 3 (t0, v0).1 ≤
      toFixedVal 3 (((t0, v0) :: rest).getD i dPair).1 :=
    pairwise_head_leD (t0, v0) rest hp i (by omega)
  have hact : toFixedVal 3 (((t0, v0) :: rest).getD i dPair).1 ≤
      toFixedVal 3 (((t0, v0) :: rest).getD (i + 1) dPair).1 ∧
      toFixedVal 3 (((t0, v0) :: rest).getD (i + 1) dPair).1 ≤
        toFixedVal 3 (((t0, v0) :: rest).getD (i + 1) dPair).1 :=
    ⟨le_of_lt hstrict, le_refl _⟩
  have hlt0 : ¬(toFixedVal 3 (((t0, v0) :: rest).getD (i + 1) dPair).1 <
      toFixedVal 3 t0) :=
    not_lt.mpr (le_trans hhead (le_of_lt hstrict))
  rw [pwExprVal_cons]
  rw [pwPiecesVal_at_ts i ((t0, v0) :: rest) hp hi]
  unfold pwPieceVal
  rw [indQ_pos _ hact, indQ_neg _ hlt0]
  rw [getLastD_eq_getD]
  by_cases hc : i + 2 < ((t0, v0) :: rest).length
  · have hlastgt : toFixedVal 3 (((t0, v0) :: rest).getD (i + 1) dPair).1 <
        toFixedVal 3 (((t0, v0) :: rest).getD rest.length dPair).1 := by
      rw [List.getD_eq_getElem _ dPair hi,
        List.getD_eq_getElem _ dPair (by simp : rest.length < ((t0, v0) :: rest).length)]
      apply hpg (i + 1) rest.length hi
        (by simp : rest.length < ((t0, v0) :: rest).length)
      simp only [List.length_cons] at hc
      omega
    rw [if_pos hc, indQ_neg _ (not_le.mpr hlastgt)]
    ring
  · have heq : i + 1 = rest.length := by
      simp only [List.length_cons] at hi hc
      omega
    rw [if_neg hc]
    rw [← heq]
    rw [indQ_pos _ (le_refl _)]
    ring


theorem pairwise_zip_of_times (ts vs : List ℚ)
    (hs : List.Pairwise (fun a b : ℚ => toFixedVal 3 a < toFixedVal 3 b) ts) :
    List.Pairwise pairLt (List.zip ts vs) := by
  induction ts generalizing vs with
  | nil => exact List.Pairwise.nil
  | cons t tr ih =>
    cases vs with
    | nil => exact List.Pairwise.nil
    | cons v vr =>
      rw [List.zip_cons_cons, List.pairwise_cons]
      rw [List.pairwise_cons] at hs
      constructor
      · intro p hpm
        exact hs.1 p.1 (List.of_mem_zip hpm).1
      · exact ih vr hs.2

theorem buildPiecewiseExprVal_nonconst (k0 : CropKF) (krest : List CropKF)
    (key : PwKey)
    (hnc : ¬(((k0 :: krest).map (pwProj key)).foldl max (pwProj key k0)
      - ((k0 :: krest).map (pwProj key)).foldl min (pwProj key k0) < 1)) (tq : ℚ) :
    buildPiecewiseExprVal (k0 :: krest) key tq =
      pwExprVal (pwPairs (k0 :: krest) key) tq := by
  unfold buildPiecewiseExprVal
  dsimp only
  rw [if_neg hnc]

theorem buildCropDimensionExprVal_nonconst (k0 : CropKF) (krest : List CropKF)
    (baseDim : ℚ)
    (hnc : ¬(((k0 :: krest).map (fun k => jsRound (baseDim / k.z))).foldl max
        (jsRound (baseDim / k0.z))
      - ((k0 :: krest).map (fun k => jsRound (baseDim / k.z))).foldl min
        (jsRound (baseDim / k0.z)) < 1)) (tq : ℚ) :
    buildCropDimensionExprVal (k0 :: krest) baseDim tq =
      pwExprVal (dimPairs (k0 :: krest) baseDim) tq := by
  unfold buildCropDimensionExprVal
  dsimp only
  rw [if_neg hnc]


theorem pwPairs_cons (k0 : CropKF) (krest : List CropKF) (key : PwKey) :
    pwPairs (k0 :: krest) key = (k0.t, pwProj key k0) :: pwPairs krest key := rfl

theorem dimPairs_cons (k0 : CropKF) (krest : List CropKF) (baseDim : ℚ) :
    dimPairs (k0 :: krest) baseDim = (k0.t, baseDim / k0.z) :: dimPairs krest baseDim := rfl

theorem pwPairs_getLastD (k0 : CropKF) (krest : List CropKF) (key : PwKey) :
    (pwPairs krest key).getLastD (k0.t, pwProj key k0) =
      ((krest.getLastD k0).t, pwProj key (krest.getLastD k0)) := by
  induction krest generalizing k0 with
  | nil => rfl
  | cons r rs ih =>
    rw [pwPairs_cons, List.getLastD_cons, List.getLastD_cons, ih r]

theorem dimPairs_getLastD (k0 : CropKF) (krest : List CropKF) (baseDim : ℚ) :
    (dimPairs krest baseDim).getLastD (k0.t, baseDim / k0.z) =
      ((krest.getLastD k0).t, baseDim / (krest.getLastD k0).z) := by
  induction krest generalizing k0 with
  | nil => rfl
  | cons r rs ih =>
    rw [dimPairs_cons, List.getLastD_cons, List.getLastD_cons, ih r]


/-- C3 (amended): with strictly increasing rounded keyframe times, the
expressions emitted by buildPiecewiseExpr and buildCropDimensionExpr,
evaluated under FFmpeg semantics (between(t,a,b) = 1 iff a <= t <= b, both
endpoints inclusive), hold the first emitted value before and at the first
keyframe time, interpolate linearly strictly between adjacent keyframe
times, and hold the last emitted value strictly after the last keyframe
time; but at every keyframe timestamp after the first, two emitted terms
are active at once (between is inclusive at both ends) and the expression
evaluates to the interpolated value plus the starting value of the next
piece — roughly double the intended value — so the claimed equality at the
keyframe timestamps themselves fails there.  When the value range stays
under the epsilon the emitted expression is the constant first value. -/
theorem piecewise_expr_hold_interp (k0 : CropKF) (krest : List CropKF)
    (key : PwKey) (baseDim : ℚ)
    (hs : List.Pairwise (fun a b : ℚ => toFixedVal 3 a < toFixedVal 3 b)
      ((k0 :: krest).map CropKF.t)) :
    ((((k0 :: krest).map (pwProj key)).foldl max (pwProj key k0)
        - ((k0 :: krest).map (pwProj key)).foldl min (pwProj key k0) < 1) →
      ∀ tq, buildPiecewiseExprVal (k0 :: krest) key tq = jsRound (pwProj key k0)) ∧
    ((¬(((k0 :: krest).map (pwProj key)).foldl max (pwProj key k0)
        - ((k0 :: krest).map (pwProj key)).foldl min (pwProj key k0) < 1)) →
      (∀ tq, tq < toFixedVal 3 k0.t →
        buildPiecewiseExprVal (k0 :: krest) key tq = jsRound (pwProj key k0)) ∧
      (buildPiecewiseExprVal (k0 :: krest) key (toFixedVal 3 k0.t)
        = jsRound (pwProj key k0)) ∧
      (∀ i tq, i + 1 < (pwPairs (k0 :: krest) key).length →
        toFixedVal 3 ((pwPairs (k0 :: krest) key).getD i dPair).1 < tq →
        tq < toFixedVal 3 ((pwPairs (k0 :: krest) key).getD (i + 1) dPair).1 →
        buildPiecewiseExprVal (k0 :: krest) key tq =
          jsRound ((pwPairs (k0 :: krest) key).getD i dPair).2
            + toFixedVal 6 ((((pwPairs (k0 :: krest) key).getD (i + 1) dPair).2
                - ((pwPairs (k0 :: krest) key).getD i dPair).2)
              / max 0.001 (((pwPairs (k0 :: krest) key).getD (i + 1) dPair).1
                - ((pwPairs (k0 :: krest) key).getD i dPair).1))
              * (tq - toFixedVal 3 ((pwPairs (k0 :: krest) key).getD i dPair).1)) ∧
      (∀ i, i + 1 < (pwPairs (k0 :: krest) key).length →
        buildPiecewiseExprVal (k0 :: krest) key
            (toFixedVal 3 ((pwPairs (k0 :: krest) key).getD (i + 1) dPair).1) =
          jsRound ((pwPairs (k0 :: krest) key).getD i dPair).2
            + toFixedVal 6 ((((pwPairs (k0 :: krest) key).getD (i + 1) dPair).2
                - ((pwPairs (k0 :: krest) key).getD i dPair).2)
              / max 0.001 (((pwPairs (k0 :: krest) key).getD (i + 1) dPair).1
                - ((pwPairs (k0 :: krest) key).getD i dPair).1))
              * (toFixedVal 3 ((pwPairs (k0 :: krest) key).getD (i + 1) dPair).1
                - toFixedVal 3 ((pwPairs (k0 :: krest) key).getD i dPair).1)
            + jsRound ((pwPairs (k0 :: krest) key).getD (i + 1) dPair).2) ∧
      (∀ tq, toFixedVal 3 (krest.getLastD k0).t < tq →
        buildPiecewiseExprVal (k0 :: krest) key tq
          = jsRound (pwProj key (krest.getLastD k0)))) ∧
    ((((k0 :: krest).map (fun k => jsRound (baseDim / k.z))).foldl max
        (jsRound (baseDim / k0.z))
      - ((k0 :: krest).map (fun k => jsRound (baseDim / k.z))).foldl min
        (jsRound (baseDim / k0.z)) < 1) →
      ∀ tq, buildCropDimensionExprVal (k0 :: krest) baseDim tq
        = jsRound (baseDim / k0.z)) ∧
    ((¬(((k0 :: krest).map (fun k => jsRound (baseDim / k.z))).foldl max
        (jsRound (baseDim / k0.z))
      - ((k0 :: krest).map (fun k => jsRound (baseDim / k.z))).foldl min
        (jsRound (baseDim / k0.z)) < 1)) →
      (∀ tq, tq < toFixedVal 3 k0.t →
        buildCropDimensionExprVal (k0 :: krest) baseDim tq
          = jsRound (baseDim / k0.z)) ∧
      (buildCropDimensionExprVal (k0 :: krest) baseDim (toFixedVal 3 k0.t)
        = jsRound (baseDim / k0.z)) ∧
      (∀ i tq, i + 1 < (dimPairs (k0 :: krest) baseDim).length →
        toFixedVal 3 ((dimPairs (k0 :: krest) baseDim).getD i dPair).1 < tq →
        tq < toFixedVal 3 ((dimPairs (k0 :: krest) baseDim).getD (i + 1) dPair).1 →
        buildCropDimensionExprVal (k0 :: krest) baseDim tq =
          jsRound ((dimPairs (k0 :: krest) baseDim).getD i dPair).2
            + toFixedVal 6 ((((dimPairs (k0 :: krest) baseDim).getD (i + 1) dPair).2
                - ((dimPairs (k0 :: krest) baseDim).getD i dPair).2)
              / max 0.001 (((dimPairs (k0 :: krest) baseDim).getD (i + 1) dPair).1
                - ((dimPairs (k0 :: krest) baseDim).getD i dPair).1))
              * (tq - toFixedVal 3 ((dimPairs (k0 :: krest) baseDim).getD i dPair).1)) ∧
      (∀ tq, toFixedVal 3 (krest.getLastD k0).t < tq →
        buildCropDimensionExprVal (k0 :: krest) baseDim tq
          = jsRound (baseDim / (krest.getLastD k0).z))) := by
  have hpK : List.Pairwise pairLt (pwPairs (k0 :: krest) key) :=
    pairwise_zip_of_times _ _ hs
  have hpD : List.Pairwise pairLt (dimPairs (k0 :: krest) baseDim) :=
    pairwise_zip_of_times _ _ hs
  rw [pwPairs_cons] at hpK
  rw [dimPairs_cons] at hpD
  refine ⟨?_, ?_, ?_, ?_⟩
  · intro hc tq
    unfold buildPiecewiseExprVal
    dsimp only
    rw [if_pos hc]
  · intro hnc
    refine ⟨?_, ?_, ?_, ?_, ?_⟩
    · intro tq htq
      rw [buildPiecewiseExprVal_nonconst k0 krest key hnc, pwPairs_cons]
      exact pwExprVal_before k0.t (pwProj key k0) (pwPairs krest key) hpK tq htq
    · rw [buildPiecewiseExprVal_nonconst k0 krest key hnc, pwPairs_cons]
      exact pwExprVal_at_first k0.t (pwProj key k0) (pwPairs krest key) hpK
    · intro i tq hi hlo hhi
      rw [buildPiecewiseExprVal_nonconst k0 krest key hnc]
      rw [pwPairs_cons] at hi hlo hhi ⊢
      exact pwExprVal_within_strict k0.t (pwProj key k0) (pwPairs krest key)
        hpK i hi tq hlo hhi
    · intro i hi
      rw [buildPiecewiseExprVal_nonconst k0 krest key hnc]
      rw [pwPairs_cons] at hi ⊢
      exact pwExprVal_at_ts k0.t (pwProj key k0) (pwPairs krest key) hpK i hi
    · intro tq htq
      rw [buildPiecewiseExprVal_nonconst k0 krest key hnc, pwPairs_cons]
      have h2 := pwExprVal_after k0.t (pwProj key k0) (pwPairs krest key) hpK tq
      rw [pwPairs_getLastD k0 krest key] at h2
      exact h2 htq
  · intro hc tq
    unfold buildCropDimensionExprVal
    dsimp only
    rw [if_pos hc]
  · intro hnc
    refine ⟨?_, ?_, ?_, ?_⟩
    · intro tq htq
      rw [buildCropDimensionExprVal_nonconst k0 krest baseDim hnc, dimPairs_cons]
      exact pwExprVal_before k0.t (baseDim / k0.z) (dimPairs krest baseDim) hpD tq htq
    · rw [buildCropDimensionExprVal_nonconst k0 krest baseDim hnc, dimPairs_cons]
      exact pwExprVal_at_first k0.t (baseDim / k0.z) (dimPairs krest baseDim) hpD
    · intro i tq hi hlo hhi
      rw [buildCropDimensionExprVal_nonconst k0 krest baseDim hnc]
      rw [dimPairs_cons] at hi hlo hhi ⊢
      exact pwExprVal_within_strict k0.t (baseDim / k0.z) (dimPairs krest baseDim)
        hpD i hi tq hlo hhi
    · intro tq htq
      rw [buildCropDimensionExprVal_nonconst k0 krest baseDim hnc, dimPairs_cons]
      have h2 := pwExprVal_after k0.t (baseDim / k0.z) (dimPairs krest baseDim) hpD tq
      rw [dimPairs_getLastD k0 krest baseDim] at h2
      exact h2 htq


/-- Counterexample to C3 as stated: at the last keyframe timestamp t = 1 the
between piece (inclusive at its right endpoint) and the gte tail term are
both active, so the emitted x expression evaluates to 100 + 100 = 200, not
the last keyframe value 100 the claim requires at the timestamps themselves.
-/
theorem piecewise_double_at_last_timestamp :
    buildPiecewiseExprVal [c3k0, c3k1] PwKey.x 1 = 200 ∧
    ([c3k1].getLastD c3k0).x = 100 ∧ ¬(200 : ℚ) = 100 := by
  refine ⟨by decide, by decide, by decide⟩

/-- Witness for the amended C3 at the two-keyframe input: the hypotheses
hold and the expression takes the first value at the first timestamp,
interpolates strictly inside, and holds the last value strictly after. -/
theorem piecewise_expr_hold_interp_witness :
    (List.Pairwise (fun a b : ℚ => toFixedVal 3 a < toFixedVal 3 b)
      ((c3k0 :: [c3k1]).map CropKF.t)) ∧
    (¬((((c3k0 :: [c3k1]).map (pwProj PwKey.x)).foldl max (pwProj PwKey.x c3k0)
        - ((c3k0 :: [c3k1]).map (pwProj PwKey.x)).foldl min (pwProj PwKey.x c3k0)) < 1)) ∧
    buildPiecewiseExprVal (c3k0 :: [c3k1]) PwKey.x (toFixedVal 3 c3k0.t)
      = jsRound (pwProj PwKey.x c3k0) ∧
    (∀ tq, toFixedVal 3 ([c3k1].getLastD c3k0).t < tq →
      buildPiecewiseExprVal (c3k0 :: [c3k1]) PwKey.x tq
        = jsRound (pwProj PwKey.x ([c3k1].getLastD c3k0))) :=
  ⟨by decide, by decide,
    ((piecewise_expr_hold_interp c3k0 [c3k1] PwKey.x 606 (by decide)).2.1
      (by decide)).2.1,
    fun tq htq =>
      ((piecewise_expr_hold_interp c3k0 [c3k1] PwKey.x 606 (by decide)).2.1
        (by decide)).2.2.2.2 tq htq⟩

/-! ## C6: greedy association and the track lifecycle (associateAndUpdate) -/

theorem bestCand_fold_ge (tr : Track) (usedD : List ℕ)
    (dets : List (ℕ × PersonDet)) :
    ∀ acc : Option (ℕ × PersonDet) × ℚ,
      acc.2 ≤ (dets.foldl (bestCandStep tr usedD) acc).2 := by
  induction dets with
  | nil => intro acc; exact le_refl _
  | cons p rest ih =>
    intro acc
    rw [List.foldl_cons]
    refine le_trans ?_ (ih (bestCandStep tr usedD acc p))
    unfold bestCandStep
    split_ifs with h1 h2
    · exact le_refl _
    · exact le_of_lt h2
    · exact le_refl _

theorem bestCand_fold_max (tr : Track) (usedD : List ℕ)
    (dets : List (ℕ × PersonDet)) :
    ∀ (acc : Option (ℕ × PersonDet) × ℚ) (q : ℕ × PersonDet),
      q ∈ dets → q.1 ∉ usedD →
      iouTrackDet tr q.2 ≤ (dets.foldl (bestCandStep tr usedD) acc).2 := by
  induction dets with
  | nil => intro acc q hq _; exact absurd hq (List.not_mem_nil q)
  | cons p rest ih =>
    intro acc q hq hqu
    rw [List.foldl_cons]
    rcases List.mem_cons.mp hq with hq' | hq'
    · subst hq'
      refine le_trans ?_ (bestCand_fold_ge tr usedD rest (bestCandStep tr usedD acc q))
      unfold bestCandStep
      split_ifs with h1
      · exact le_refl _
      · exact not_lt.mp h1
    · exact ih (bestCandStep tr usedD acc p) q hq' hqu

theorem bestCand_fold_some (tr : Track) (usedD : List ℕ)
    (dets : List (ℕ × PersonDet)) :
    ∀ (acc : Option (ℕ × PersonDet) × ℚ) (dp : ℕ × PersonDet) (bv : ℚ),
      dets.foldl (bestCandStep tr usedD) acc = (some dp, bv) →
      (dp ∈ dets ∧ dp.1 ∉ usedD ∧ bv = iouTrackDet tr dp.2) ∨ acc = (some dp, bv) := by
  induction dets with
  | nil => intro acc dp bv h; exact Or.inr h
  | cons p rest ih =>
    intro acc dp bv h
    rw [List.foldl_cons] at h
    rcases ih (bestCandStep tr usedD acc p) dp bv h with h' | h'
    · exact Or.inl ⟨List.mem_cons_of_mem p h'.1, h'.2⟩
    · unfold bestCandStep at h'
      split_ifs at h' with h1 h2
      · exact Or.inr h'
      · have hp : p = dp := by
          have hfst := congrArg Prod.fst h'
          simpa using hfst
        have hv : iouTrackDet tr p.2 = bv := congrArg Prod.snd h'
        exact Or.inl ⟨hp ▸ List.mem_cons_self p rest, hp ▸ h1, hp ▸ hv.symm⟩
      · exact Or.inr h'

theorem bestCand_spec (tr : Track) (usedD : List ℕ) (dets : List (ℕ × PersonDet))
    (dp : ℕ × PersonDet) (bv : ℚ) (h : bestCand tr dets usedD = (some dp, bv)) :
    dp ∈ dets ∧ dp.1 ∉ usedD ∧ bv = iouTrackDet tr dp.2 := by
  rw [bestCand] at h
  rcases bestCand_fold_some tr usedD dets (none, 0) dp bv h with h' | h'
  · exact h'
  · simp at h'

theorem bestCand_max (tr : Track) (usedD : List ℕ) (dets : List (ℕ × PersonDet))
    (q : ℕ × PersonDet) (hq : q ∈ dets) (hqu : q.1 ∉ usedD) :
    iouTrackDet tr q.2 ≤ (bestCand tr dets usedD).2 := by
  rw [bestCand]
  exact bestCand_fold_max tr usedD dets (none, 0) q hq hqu

theorem greedy_mem (tps : List (ℕ × Track)) :
    ∀ (dets : List (ℕ × PersonDet)) (usedD : List ℕ)
      (m : (ℕ × Track) × (ℕ × PersonDet)),
      m ∈ greedyMatchAux tps dets usedD →
      m.1 ∈ tps ∧ m.2 ∈ dets ∧ m.2.1 ∉ usedD ∧
        trackIouThresh ≤ iouTrackDet m.1.2 m.2.2 := by
  induction tps with
  | nil => intro dets usedD m hm; simp [greedyMatchAux] at hm
  | cons tp rest ih =>
    intro dets usedD m hm
    rcases hbc : bestCand tp.2 dets usedD with ⟨obc, bv⟩
    cases obc with
    | some dp =>
      simp only [greedyMatchAux, hbc] at hm
      split_ifs at hm with hbv
      · rcases List.mem_cons.mp hm with hm' | hm'
        · obtain ⟨hd, hdu, hbveq⟩ := bestCand_spec tp.2 usedD dets dp bv hbc
          rw [hm']
          exact ⟨List.mem_cons_self tp rest, hd, hdu, hbveq ▸ hbv⟩
        · obtain ⟨h1, h2, h3, h4⟩ := ih dets (dp.1 :: usedD) m hm'
          exact ⟨List.mem_cons_of_mem tp h1, h2,
            fun hc => h3 (List.mem_cons_of_mem dp.1 hc), h4⟩
      · obtain ⟨h1, h2, h3, h4⟩ := ih dets usedD m hm
        exact ⟨List.mem_cons_of_mem tp h1, h2, h3, h4⟩
    | none =>
      simp only [greedyMatchAux, hbc] at hm
      obtain ⟨h1, h2, h3, h4⟩ := ih dets usedD m hm
      exact ⟨List.mem_cons_of_mem tp h1, h2, h3, h4⟩

theorem greedy_max (tps : List (ℕ × Track)) :
    ∀ (dets : List (ℕ × PersonDet)) (usedD : List ℕ)
      (ps1 ps2 : List ((ℕ × Track) × (ℕ × PersonDet)))
      (m : (ℕ × Track) × (ℕ × PersonDet)),
      greedyMatchAux tps dets usedD = ps1 ++ m :: ps2 →
      ∀ q ∈ dets, q.1 ∉ usedD → (∀ mq ∈ ps1, q.1 ≠ mq.2.1) →
        iouTrackDet m.1.2 q.2 ≤ iouTrackDet m.1.2 m.2.2 := by
  induction tps with
  | nil =>
    intro dets usedD ps1 ps2 m h
    rw [greedyMatchAux] at h
    have hlen := congrArg List.length h
    rw [List.length_nil, List.length_append, List.length_cons] at hlen
    omega
  | cons tp rest ih =>
    intro dets usedD ps1 ps2 m h q hq hqu hps
    rcases hbc : bestCand tp.2 dets usedD with ⟨obc, bv⟩
    cases obc with
    | some dp =>
      simp only [greedyMatchAux, hbc] at h
      split_ifs at h with hbv
      · cases ps1 with
        | nil =>
          rw [List.nil_append] at h
          injection h with h1 h2
          obtain ⟨hd, hdu, hbveq⟩ := bestCand_spec tp.2 usedD dets dp bv hbc
          have hle := bestCand_max tp.2 usedD dets q hq hqu
          rw [hbc] at hle
          rw [← h1]
          exact hbveq ▸ hle
        | cons p ps1x =>
          rw [List.cons_append] at h
          injection h with h1 h2
          refine ih dets (dp.1 :: usedD) ps1x ps2 m h2 q hq ?_ ?_
          · intro hmem
            rcases List.mem_cons.mp hmem with h' | h'
            · exact hps p (List.mem_cons_self p ps1x) (by rw [← h1]; exact h')
            · exact hqu h'
          · intro mq hmq
            exact hps mq (List.mem_cons_of_mem p hmq)
      · exact ih dets usedD ps1 ps2 m h q hq hqu hps
    | none =>
      simp only [greedyMatchAux, hbc] at h
      exact ih dets usedD ps1 ps2 m h q hq hqu hps

theorem greedy_tracks_sublist (tps : List (ℕ × Track)) :
    ∀ (dets : List (ℕ × PersonDet)) (usedD : List ℕ),
      ((greedyMatchAux tps dets usedD).map (fun m => m.1)).Sublist tps := by
  induction tps with
  | nil => intro dets usedD; simp [greedyMatchAux]
  | cons tp rest ih =>
    intro dets usedD
    rcases hbc : bestCand tp.2 dets usedD with ⟨obc, bv⟩
    cases obc with
    | some dp =>
      simp only [greedyMatchAux, hbc]
      split_ifs with hbv
      · simp only [List.map_cons]
        exact (ih dets (dp.1 :: usedD)).cons₂ tp
      · exact (ih dets usedD).trans (List.sublist_cons_self tp rest)
    | none =>
      simp only [greedyMatchAux, hbc]
      exact (ih dets usedD).trans (List.sublist_cons_self tp rest)

theorem greedy_dets_nodup (tps : List (ℕ × Track)) :
    ∀ (dets : List (ℕ × PersonDet)) (usedD : List ℕ),
      ((greedyMatchAux tps dets usedD).map (fun m => m.2.1)).Nodup ∧
      ∀ i ∈ (greedyMatchAux tps dets usedD).map (fun m => m.2.1), i ∉ usedD := by
  induction tps with
  | nil =>
    intro dets usedD
    constructor
    · simp [greedyMatchAux]
    · simp [greedyMatchAux]
  | cons tp rest ih =>
    intro dets usedD
    rcases hbc : bestCand tp.2 dets usedD with ⟨obc, bv⟩
    cases obc with
    | some dp =>
      simp only [greedyMatchAux, hbc]
      split_ifs with hbv
      · obtain ⟨hd, hdu, hbveq⟩ := bestCand_spec tp.2 usedD dets dp bv hbc
        obtain ⟨ihn, ihu⟩ := ih dets (dp.1 :: usedD)
        constructor
        · simp only [List.map_cons]
          refine List.nodup_cons.mpr ⟨?_, ihn⟩
          intro hmem
          exact (ihu _ hmem) (List.mem_cons_self _ _)
        · intro i hi
          simp only [List.map_cons] at hi
          rcases List.mem_cons.mp hi with hi' | hi'
          · rw [hi']; exact hdu
          · intro hc
            exact (ihu i hi') (List.mem_cons_of_mem _ hc)
      · exact ih dets usedD
    | none =>
      simp only [greedyMatchAux, hbc]
      exact ih dets usedD

theorem keepUnmatched_of_le (t : ℚ) (usedT : List ℕ) (tp : ℕ × Track)
    (hnot : tp.1 ∉ usedT)
    (hc : tp.2.miss + max 0.001 (t - tp.2.lastT) ≤ trackMaxAgeS) :
    keepUnmatched t usedT tp =
      some { tp.2 with lastT := t, age := tp.2.age + max 0.001 (t - tp.2.lastT),
                        miss := tp.2.miss + max 0.001 (t - tp.2.lastT) } := by
  unfold keepUnmatched
  rw [if_neg hnot]
  dsimp only
  rw [if_pos hc]

theorem keepUnmatched_of_gt (t : ℚ) (usedT : List ℕ) (tp : ℕ × Track)
    (hc : trackMaxAgeS < tp.2.miss + max 0.001 (t - tp.2.lastT)) :
    keepUnmatched t usedT tp = none := by
  unfold keepUnmatched
  dsimp only
  split_ifs with h1 h2
  · rfl
  · exact absurd h2 (not_le.mpr hc)
  · rfl

theorem keepUnmatched_some (t : ℚ) (usedT : List ℕ) (tp : ℕ × Track) (tr' : Track)
    (h : keepUnmatched t usedT tp = some tr') : tr'.id = tp.2.id := by
  unfold keepUnmatched at h
  dsimp only at h
  split_ifs at h with h1 h2
  · rw [← Option.some.inj h]

theorem enum_id_ne (l : List Track) (hids : (l.map Track.id).Nodup)
    {p q : ℕ × Track} (hp : p ∈ l.enum) (hq : q ∈ l.enum) (hne : p.1 ≠ q.1) :
    p.2.id ≠ q.2.id := by
  intro hid
  apply hne
  have hp' := List.mem_enum_iff_getElem?.mp hp
  have hq' := List.mem_enum_iff_getElem?.mp hq
  have hpl : p.1 < l.length := by
    by_contra hge
    rw [List.getElem?_eq_none (le_of_not_lt hge)] at hp'
    exact Option.noConfusion hp'
  have hmp : (l.map Track.id)[p.1]? = some p.2.id := by
    rw [List.getElem?_map, hp']; rfl
  have hmq : (l.map Track.id)[q.1]? = some q.2.id := by
    rw [List.getElem?_map, hq']; rfl
  have hlen : p.1 < (l.map Track.id).length := by simpa using hpl
  exact List.getElem?_inj hlen hids (by rw [hmp, hmq, hid])

theorem assocMatches_eq (prev : List Track) (dets : List PersonDet)
    (t baseW baseH : ℚ) :
    assocMatches prev dets t baseW baseH =
      greedyMatchAux ((prev.map (predictTrack t baseW baseH)).enum) dets.enum [] :=
  rfl

theorem associateAndUpdate_eq (prev : List Track) (dets : List PersonDet)
    (t baseW baseH : ℚ) (nextId : ℕ) :
    associateAndUpdate prev dets t baseW baseH nextId =
      (assocMatches prev dets t baseW baseH).map (updateMatched t)
        ++ (prev.map (predictTrack t baseW baseH)).enum.filterMap
            (keepUnmatched t
              ((assocMatches prev dets t baseW baseH).map (fun m => m.1.1)))
        ++ ((dets.enum.filter (fun dp =>
              dp.1 ∉ (assocMatches prev dets t baseW baseH).map
                (fun m => m.2.1))).enum.map
            (spawnTrack t nextId)) :=
  rfl

/-- C6: In `associateAndUpdate`, tracks (in array order) greedily take the
not-yet-claimed detection of maximal IOU, and only when that IOU reaches the
association threshold; no track index or detection index appears in two
matched pairs.  Every matched track keeps its id (with position/size taken
from the detection, hits+1, miss reset); every unmatched track is kept, at
its predicted position, exactly while miss + dt stays within the max-age
ceiling and its id disappears from the output once miss + dt exceeds it;
every unmatched detection spawns a zero-velocity track with a fresh id. -/
theorem tracker_association_spec (prev : List Track) (dets : List PersonDet)
    (t baseW baseH : ℚ) (nextId : ℕ)
    (hids : (prev.map Track.id).Nodup)
    (hlt : ∀ tr ∈ prev, tr.id < nextId) :
    (∀ m ∈ assocMatches prev dets t baseW baseH,
        trackIouThresh ≤ iouTrackDet m.1.2 m.2.2 ∧
        m.1 ∈ (prev.map (predictTrack t baseW baseH)).enum ∧ m.2 ∈ dets.enum) ∧
    (((assocMatches prev dets t baseW baseH).map (fun m => m.1.1)).Nodup ∧
      ((assocMatches prev dets t baseW baseH).map (fun m => m.2.1)).Nodup) ∧
    (∀ ps1 ps2 mm, assocMatches prev dets t baseW baseH = ps1 ++ mm :: ps2 →
      ∀ q ∈ dets.enum, (∀ mq ∈ ps1, q.1 ≠ mq.2.1) →
        iouTrackDet mm.1.2 q.2 ≤ iouTrackDet mm.1.2 mm.2.2) ∧
    (∀ m ∈ assocMatches prev dets t baseW baseH,
      ∃ tr' ∈ associateAndUpdate prev dets t baseW baseH nextId,
        tr'.id = m.1.2.id ∧ tr'.x = m.2.2.x ∧ tr'.y = m.2.2.y ∧ tr'.w = m.2.2.w ∧
        tr'.h = m.2.2.h ∧ tr'.hits = m.1.2.hits + 1 ∧ tr'.miss = 0) ∧
    (∀ tp ∈ (prev.map (predictTrack t baseW baseH)).enum,
      tp.1 ∉ (assocMatches prev dets t baseW baseH).map (fun m => m.1.1) →
      (tp.2.miss + max 0.001 (t - tp.2.lastT) ≤ trackMaxAgeS →
        { tp.2 with lastT := t, age := tp.2.age + max 0.001 (t - tp.2.lastT),
                    miss := tp.2.miss + max 0.001 (t - tp.2.lastT) }
          ∈ associateAndUpdate prev dets t baseW baseH nextId) ∧
      (trackMaxAgeS < tp.2.miss + max 0.001 (t - tp.2.lastT) →
        ∀ tr' ∈ associateAndUpdate prev dets t baseW baseH nextId,
          tr'.id ≠ tp.2.id)) ∧
    (∀ dp ∈ dets.enum,
      dp.1 ∉ (assocMatches prev dets t baseW baseH).map (fun m => m.2.1) →
      ∃ tr' ∈ associateAndUpdate prev dets t baseW baseH nextId,
        tr'.x = dp.2.x ∧ tr'.y = dp.2.y ∧ tr'.w = dp.2.w ∧ tr'.h = dp.2.h ∧
        tr'.score = dp.2.score ∧ tr'.vx = 0 ∧ tr'.vy = 0 ∧ tr'.hits = 1 ∧
        tr'.miss = 0 ∧ nextId ≤ tr'.id) := by
  have hpl : (prev.map (predictTrack t baseW baseH)).map Track.id =
      prev.map Track.id := by
    rw [List.map_map]
    exact List.map_congr_left (fun a _ => rfl)
  have hpredids : ((prev.map (predictTrack t baseW baseH)).map Track.id).Nodup :=
    hpl ▸ hids
  refine ⟨?_, ⟨?_, ?_⟩, ?_, ?_, ?_, ?_⟩
  · intro m hm
    rw [assocMatches_eq] at hm
    obtain ⟨h1, h2, _, h4⟩ :=
      greedy_mem ((prev.map (predictTrack t baseW baseH)).enum) dets.enum [] m hm
    exact ⟨h4, h1, h2⟩
  · have hsub :=
      greedy_tracks_sublist ((prev.map (predictTrack t baseW baseH)).enum)
        dets.enum []
    have hsub2 := hsub.map Prod.fst
    rw [List.enum_map_fst] at hsub2
    have hnr := List.Nodup.sublist hsub2 (List.nodup_range _)
    rw [assocMatches_eq]
    simpa [List.map_map, Function.comp] using hnr
  · rw [assocMatches_eq]
    exact (greedy_dets_nodup ((prev.map (predictTrack t baseW baseH)).enum)
      dets.enum []).1
  · intro ps1 ps2 mm heq q hq hps
    rw [assocMatches_eq] at heq
    exact greedy_max ((prev.map (predictTrack t baseW baseH)).enum) dets.enum []
      ps1 ps2 mm heq q hq (by simp) hps
  · intro m hm
    refine ⟨updateMatched t m, ?_, rfl, rfl, rfl, rfl, rfl, rfl, rfl⟩
    rw [associateAndUpdate_eq]
    exact List.mem_append.mpr (Or.inl (List.mem_append.mpr
      (Or.inl (List.mem_map_of_mem (updateMatched t) hm))))
  · intro tp htp hnot
    constructor
    · intro hc
      rw [associateAndUpdate_eq]
      refine List.mem_append.mpr (Or.inl (List.mem_append.mpr (Or.inr ?_)))
      exact List.mem_filterMap.mpr ⟨tp, htp, keepUnmatched_of_le t _ tp hnot hc⟩
    · intro hc tr' htr'
      rw [associateAndUpdate_eq] at htr'
      rcases List.mem_append.mp htr' with h12 | h3
      · rcases List.mem_append.mp h12 with h1 | h2
        · obtain ⟨m, hm, hup⟩ := List.mem_map.mp h1
          rw [assocMatches_eq] at hm
          obtain ⟨hm1, _, _, _⟩ :=
            greedy_mem ((prev.map (predictTrack t baseW baseH)).enum)
              dets.enum [] m hm
          have hne : m.1.1 ≠ tp.1 := by
            intro he
            apply hnot
            rw [← he]
            rw [assocMatches_eq]
            exact List.mem_map_of_mem (fun m => m.1.1) hm
          have hidne := enum_id_ne (prev.map (predictTrack t baseW baseH))
            hpredids hm1 htp hne
          rw [← hup]
          exact hidne
        · obtain ⟨tpk, htpk, hk⟩ := List.mem_filterMap.mp h2
          by_cases he : tpk.1 = tp.1
          · have heqp : tpk = tp := by
              have h1' := List.mem_enum_iff_getElem?.mp htpk
              have h2' := List.mem_enum_iff_getElem?.mp htp
              rw [he] at h1'
              rw [h2'] at h1'
              exact Prod.ext he (Option.some.inj h1').symm
            rw [heqp] at hk
            rw [keepUnmatched_of_gt t _ tp hc] at hk
            exact Option.noConfusion hk
          · have hid := keepUnmatched_some t _ tpk tr' hk
            rw [hid]
            exact enum_id_ne (prev.map (predictTrack t baseW baseH))
              hpredids htpk htp he
      · obtain ⟨kp, _, hsp⟩ := List.mem_map.mp h3
        have htpid : tp.2.id < nextId := by
          have hmem : tp.2 ∈ prev.map (predictTrack t baseW baseH) :=
            List.getElem?_mem (List.mem_enum_iff_getElem?.mp htp)
          obtain ⟨tr0, htr0, hpr⟩ := List.mem_map.mp hmem
          have : tp.2.id = tr0.id := by rw [← hpr]; rfl
          rw [this]
          exact hlt tr0 htr0
        intro he
        have he' : nextId + kp.1 = tp.2.id := by
          rw [← he, ← hsp]; rfl
        omega
  · intro dp hdp hnot
    have hfil : dp ∈ dets.enum.filter (fun dq =>
        dq.1 ∉ (assocMatches prev dets t baseW baseH).map (fun m => m.2.1)) := by
      rw [List.mem_filter]
      exact ⟨hdp, decide_eq_true hnot⟩
    obtain ⟨k, hkl, hke⟩ := List.mem_iff_getElem.mp hfil
    have henum : (k, dp) ∈ (dets.enum.filter (fun dq =>
        dq.1 ∉ (assocMatches prev dets t baseW baseH).map
          (fun m => m.2.1))).enum := by
      rw [List.mem_enum_iff_getElem?]
      rw [List.getElem?_eq_getElem hkl]
      exact congrArg some hke
    refine ⟨spawnTrack t nextId (k, dp), ?_, rfl, rfl, rfl, rfl, rfl, rfl, rfl,
      rfl, rfl, Nat.le_add_right nextId k⟩
    rw [associateAndUpdate_eq]
    exact List.mem_append.mpr (Or.inr
      (List.mem_map_of_mem (spawnTrack t nextId) henum))

/-- C6 counterexample: track 2's predicted box overlaps the detection with
IOU 1 ≥ the association threshold and its accumulated miss (0.79 s) is still
within the max-age ceiling, yet after this frame (0.25 s later) its id is
gone: track 1 claimed the only detection first, and the unmatched track 2 is
dropped because miss + dt = 1.04 exceeds 0.8 — overlap above the threshold
does not guarantee id persistence as the claim states. -/
theorem track_dropped_despite_overlap :
    trackIouThresh ≤ iouTrackDet (predictTrack (1/4) 1920 1080 c6T2) c6D ∧
    c6T2.miss ≤ trackMaxAgeS ∧
    ∀ tr ∈ associateAndUpdate [c6T1, c6T2] [c6D] (1/4) 1920 1080 3,
      tr.id ≠ c6T2.id := by
  decide

theorem tracker_association_spec_witness :
    ([c6T1].map Track.id).Nodup ∧ (∀ tr ∈ [c6T1], tr.id < 3) ∧
    ∀ m ∈ assocMatches [c6T1] [c6D] (1/4) 1920 1080,
      ∃ tr' ∈ associateAndUpdate [c6T1] [c6D] (1/4) 1920 1080 3,
        tr'.id = m.1.2.id ∧ tr'.x = m.2.2.x ∧ tr'.y = m.2.2.y ∧ tr'.w = m.2.2.w ∧
        tr'.h = m.2.2.h ∧ tr'.hits = m.1.2.hits + 1 ∧ tr'.miss = 0 :=
  ⟨by decide, by decide,
    (tracker_association_spec [c6T1] [c6D] (1/4) 1920 1080 3
      (by decide) (by decide)).2.2.2.1⟩

/-! ## C10: the zoom machinery is inert for landscape sources -/

theorem zoomRequired_one (g : ZoomGroup) (targetW targetH : ℚ) :
    zoomRequired g targetW targetH 1 = 1 := by
  unfold zoomRequired
  dsimp only
  split_ifs with h
  · have hm : (1:ℚ) <
        max ((g.w + 2 * g.insetX) / targetW) ((g.h + 2 * g.insetY) / targetH) :=
      lt_max_iff.mpr h
    have h0 : (0:ℚ) <
        max ((g.w + 2 * g.insetX) / targetW) ((g.h + 2 * g.insetY) / targetH) :=
      lt_trans one_pos hm
    have h1 : 1 / max ((g.w + 2 * g.insetX) / targetW)
        ((g.h + 2 * g.insetY) / targetH) ≤ 1 := by
      rw [div_le_one h0]
      exact hm.le
    exact max_eq_left h1
  · rfl

theorem solveZoomAux_ones (targetW targetH : ℚ) (groups : List ZoomGroup) :
    ∀ prev : Option ℚ, prev = none ∨ prev = some 1 →
      ∀ z ∈ solveZoomAux targetW targetH 1 groups prev, z = 1 := by
  induction groups with
  | nil => intro prev _ z hz; simp [solveZoomAux] at hz
  | cons g rest ih =>
    intro prev hprev z hz
    rcases hprev with rfl | rfl
    · simp only [solveZoomAux] at hz
      rw [zoomRequired_one] at hz
      rcases List.mem_cons.mp hz with rfl | hz'
      · rfl
      · exact ih (some 1) (Or.inr rfl) z hz'
    · simp only [solveZoomAux] at hz
      rw [zoomRequired_one] at hz
      have hb : max 1 (1 + zDecay * ((1:ℚ) - 1)) = 1 := by simp
      rw [hb] at hz
      rcases List.mem_cons.mp hz with rfl | hz'
      · rfl
      · exact ih (some 1) (Or.inr rfl) z hz'

theorem solveZoomSeries_ones (xs ys : List ℚ) (groups : List ZoomGroup)
    (targetW targetH : ℚ) :
    ∀ z ∈ solveZoomSeries xs ys groups targetW targetH 1, z = 1 := by
  intro z hz
  rw [solveZoomSeries] at hz
  exact solveZoomAux_ones targetW targetH (groups.take xs.length) none
    (Or.inl rfl) z hz

theorem zMinDyn_eq_one (baseW baseH : ℚ)
    (hle : jsFloor (baseH * 9 / 16) ≤ baseW) (h0 : 0 < baseW) :
    zMinDyn baseW baseH = 1 := by
  unfold zMinDyn
  have h1 : jsFloor (baseH * 9 / 16) / baseW ≤ 1 := by
    rw [div_le_one h0]
    exact hle
  rw [max_eq_right h1, max_eq_left]
  unfold zMinUser
  norm_num

theorem getD_all_ones (i : ℕ) (l : List ℚ) (h : ∀ z ∈ l, z = 1) :
    l.getD i 1 = 1 := by
  rw [List.getD_eq_getElem?_getD]
  cases hc : l[i]? with
  | none => rfl
  | some a => exact h a (List.getElem?_mem hc)

/-- C10: for a landscape-or-wider source (floor(baseH*9/16) ≤ baseW, baseW
positive), the dynamic zoom floor zMin = max(targetW/baseW, 1, Z_MIN) is
exactly 1 (Z_MIN is clamped to at most 1), solveZoomSeries yields z = 1 at
every sample regardless of group sizes, and every keyframe the dynamic path
produces has w = floor(baseH*9/16), h = baseH and z = 1: the zoom-to-contain
behavior is inert for such sources. -/
theorem zoom_inert_for_landscape (hyp : ℚ → ℚ → ℚ)
    (timeline : List PersonSnapshot) (turns : List SpeakerTurn)
    (baseW baseH : ℚ) (c : Constraints)
    (hle : jsFloor (baseH * 9 / 16) ≤ baseW) (h0 : 0 < baseW) :
    zMinDyn baseW baseH = 1 ∧
    (∀ (xs ys : List ℚ) (groups : List ZoomGroup),
      ∀ z ∈ solveZoomSeries xs ys groups (jsFloor (baseH * 9 / 16)) baseH
          (zMinDyn baseW baseH), z = 1) ∧
    ∀ k ∈ computeGlobalCropKeyframesFromTracksWithSpeechAndZoom hyp timeline
        turns baseW baseH c,
      k.w = jsFloor (baseH * 9 / 16) ∧ k.h = baseH ∧ k.z = 1 := by
  have hz1 := zMinDyn_eq_one baseW baseH hle h0
  refine ⟨hz1, ?_, ?_⟩
  · intro xs ys groups z hz
    rw [hz1] at hz
    exact solveZoomSeries_ones xs ys groups _ _ z hz
  · intro k hk
    unfold computeGlobalCropKeyframesFromTracksWithSpeechAndZoom at hk
    rw [hz1] at hk
    dsimp only at hk
    split_ifs at hk with hemp
    · exact absurd hk (List.not_mem_nil k)
    · obtain ⟨i, hir, hkeq⟩ := List.mem_map.mp hk
      refine ⟨?_, ?_, ?_⟩
      · rw [← hkeq]
      · rw [← hkeq]
      · rw [← hkeq]
        exact getD_all_ones i _ (solveZoomSeries_ones _ _ _ _ _)

theorem zoom_inert_for_landscape_witness :
    (jsFloor ((1080:ℚ) * 9 / 16) ≤ 1920 ∧ (0:ℚ) < 1920) ∧
    ∀ k ∈ computeGlobalCropKeyframesFromTracksWithSpeechAndZoom hyp0
        c10Timeline [] 1920 1080 wCons,
      k.w = jsFloor ((1080:ℚ) * 9 / 16) ∧ k.h = 1080 ∧ k.z = 1 :=
  ⟨⟨by decide, by decide⟩,
    (zoom_inert_for_landscape hyp0 c10Timeline [] 1920 1080 wCons
      (by decide) (by decide)).2.2⟩

/-! ## C1: bounds and zoom floor of the produced keyframes -/

theorem blend_ge_one (a b q : ℚ) (ha : 1 ≤ a) (hb : 1 ≤ b) (h0 : 0 ≤ q)
    (h1 : q ≤ 1) : 1 ≤ a + q * (b - a) := by nlinarith

theorem zMinDyn_ge_one (baseW baseH : ℚ) : 1 ≤ zMinDyn baseW baseH := by
  unfold zMinDyn
  exact le_trans (le_max_right _ 1) (le_max_left _ zMinUser)

theorem zoomRequired_ge_one (g : ZoomGroup) (tW tH zMin : ℚ) (h : 1 ≤ zMin) :
    1 ≤ zoomRequired g tW tH zMin := by
  unfold zoomRequired
  dsimp only
  split_ifs with hc
  · exact le_trans h (le_max_left _ _)
  · exact le_refl 1

theorem solveZoomAux_ge_one (tW tH zMin : ℚ) (h : 1 ≤ zMin)
    (groups : List ZoomGroup) :
    ∀ (prev : Option ℚ), ∀ z ∈ solveZoomAux tW tH zMin groups prev, 1 ≤ z := by
  induction groups with
  | nil => intro prev z hz; simp [solveZoomAux] at hz
  | cons g rest ih =>
    intro prev z hz
    cases prev with
    | none =>
      simp only [solveZoomAux] at hz
      rcases List.mem_cons.mp hz with rfl | hz'
      · exact zoomRequired_ge_one g tW tH zMin h
      · exact ih _ z hz'
    | some p =>
      simp only [solveZoomAux] at hz
      rcases List.mem_cons.mp hz with rfl | hz'
      · exact le_trans h (le_max_left _ _)
      · exact ih _ z hz'

theorem solveZoomSeries_ge_one (xs ys : List ℚ) (groups : List ZoomGroup)
    (tW tH zMin : ℚ) (h : 1 ≤ zMin) :
    ∀ z ∈ solveZoomSeries xs ys groups tW tH zMin, 1 ≤ z := by
  intro z hz
  rw [solveZoomSeries] at hz
  exact solveZoomAux_ge_one tW tH zMin h _ none z hz

theorem getD_ge_one (i : ℕ) (l : List ℚ) (h : ∀ z ∈ l, 1 ≤ z) :
    1 ≤ l.getD i 1 := by
  rw [List.getD_eq_getElem?_getD]
  cases hc : l[i]? with
  | none => exact le_refl 1
  | some a => exact h a (List.getElem?_mem hc)

theorem dynamic_raw_z_ge_one (hyp : ℚ → ℚ → ℚ) (timeline : List PersonSnapshot)
    (turns : List SpeakerTurn) (baseW baseH : ℚ) (c : Constraints) :
    ∀ k ∈ computeGlobalCropKeyframesFromTracksWithSpeechAndZoom hyp timeline
        turns baseW baseH c, 1 ≤ k.z := by
  intro k hk
  unfold computeGlobalCropKeyframesFromTracksWithSpeechAndZoom at hk
  dsimp only at hk
  split_ifs at hk with hemp
  · exact absurd hk (List.not_mem_nil k)
  · obtain ⟨i, hir, hkeq⟩ := List.mem_map.mp hk
    rw [← hkeq]
    exact getD_ge_one i _
      (solveZoomSeries_ge_one _ _ _ _ _ _ (zMinDyn_ge_one baseW baseH))

theorem smoothKFAux_z (l : List CropKF) :
    ∀ (sx sy sz : ℚ), 1 ≤ sz → (∀ k ∈ l, 1 ≤ k.z) →
      ∀ k ∈ smoothKFAux l sx sy sz, 1 ≤ k.z := by
  induction l with
  | nil => intro sx sy sz _ _ k hk; simp [smoothKFAux] at hk
  | cons a rest ih =>
    intro sx sy sz hsz hl k hk
    have ha := hl a (List.mem_cons_self a rest)
    have hα : smoothAlpha = 1/5 := by norm_num [smoothAlpha]
    have hsz1 : 1 ≤ sz + smoothAlpha * (a.z - sz) := by
      rw [hα]; linarith
    simp only [smoothKFAux] at hk
    rcases List.mem_cons.mp hk with rfl | hk'
    · exact hsz1
    · exact ih _ _ _ hsz1 (fun k2 hk2 => hl k2 (List.mem_cons_of_mem a hk2)) k hk'

theorem smoothKeyframes_z (kf : List CropKF) (h : ∀ k ∈ kf, 1 ≤ k.z) :
    ∀ k ∈ smoothKeyframes kf, 1 ≤ k.z := by
  match kf with
  | [] => intro k hk; simp [smoothKeyframes] at hk
  | [a] => exact h
  | a :: b :: rest =>
    intro k hk
    simp only [smoothKeyframes] at hk
    rcases List.mem_cons.mp hk with rfl | hk'
    · exact h a (List.mem_cons_self a (b :: rest))
    · exact smoothKFAux_z (b :: rest) a.x a.y a.z
        (h a (List.mem_cons_self a (b :: rest)))
        (fun k2 hk2 => h k2 (List.mem_cons_of_mem a hk2)) k hk'

theorem deadzoneAux_z (dzx dzy : ℚ) (l : List CropKF) :
    ∀ (prev : CropKF), 1 ≤ prev.z → (∀ k ∈ l, 1 ≤ k.z) →
      ∀ k ∈ deadzoneAux dzx dzy l prev, 1 ≤ k.z := by
  induction l with
  | nil => intro prev _ _ k hk; simp [deadzoneAux] at hk
  | cons a rest ih =>
    intro prev hprev hl k hk
    have ha := hl a (List.mem_cons_self a rest)
    have hnz : 1 ≤ if |a.z - prev.z| < 0.01 then prev.z else a.z := by
      split_ifs with hd
      · exact hprev
      · exact ha
    simp only [deadzoneAux] at hk
    rcases List.mem_cons.mp hk with rfl | hk'
    · exact hnz
    · refine ih _ ?_ (fun k2 hk2 => hl k2 (List.mem_cons_of_mem a hk2)) k hk'
      exact hnz

theorem applyDeadzone_z (kf : List CropKF) (dzx dzy : ℚ)
    (h : ∀ k ∈ kf, 1 ≤ k.z) : ∀ k ∈ applyDeadzone kf dzx dzy, 1 ≤ k.z := by
  match kf with
  | [] => exact h
  | [a] => exact h
  | a :: b :: rest =>
    intro k hk
    simp only [applyDeadzone] at hk
    rcases List.mem_cons.mp hk with hka | hk'
    · rw [hka]; exact h a (List.mem_cons_self a (b :: rest))
    · exact deadzoneAux_z dzx dzy (b :: rest) a
        (h a (List.mem_cons_self a (b :: rest)))
        (fun k2 hk2 => h k2 (List.mem_cons_of_mem a hk2)) k hk'

theorem panLimitAux_z (mp : ℚ) (l : List CropKF) :
    ∀ (prev : CropKF), (∀ k ∈ l, 1 ≤ k.z) →
      ∀ k ∈ panLimitAux mp l prev, 1 ≤ k.z := by
  induction l with
  | nil => intro prev _ k hk; simp [panLimitAux] at hk
  | cons a rest ih =>
    intro prev hl k hk
    simp only [panLimitAux] at hk
    rcases List.mem_cons.mp hk with rfl | hk'
    · exact hl a (List.mem_cons_self a rest)
    · exact ih _ (fun k2 hk2 => hl k2 (List.mem_cons_of_mem a hk2)) k hk'

theorem applyPanLimits_z (kf : List CropKF) (mp : ℚ)
    (h : ∀ k ∈ kf, 1 ≤ k.z) : ∀ k ∈ applyPanLimits kf mp, 1 ≤ k.z := by
  match kf with
  | [] => exact h
  | [a] => exact h
  | a :: b :: rest =>
    intro k hk
    simp only [applyPanLimits] at hk
    rcases List.mem_cons.mp hk with hka | hk'
    · rw [hka]; exact h a (List.mem_cons_self a (b :: rest))
    · exact panLimitAux_z mp (b :: rest) a
        (fun k2 hk2 => h k2 (List.mem_cons_of_mem a hk2)) k hk'

theorem accelLimitAux_z (ma : ℚ) (l : List CropKF) :
    ∀ (prev : CropKF) (vx vy : ℚ), (∀ k ∈ l, 1 ≤ k.z) →
      ∀ k ∈ accelLimitAux ma l prev vx vy, 1 ≤ k.z := by
  induction l with
  | nil => intro prev vx vy _ k hk; simp [accelLimitAux] at hk
  | cons a rest ih =>
    intro prev vx vy hl k hk
    simp only [accelLimitAux] at hk
    rcases List.mem_cons.mp hk with rfl | hk'
    · exact hl a (List.mem_cons_self a rest)
    · exact ih _ _ _ (fun k2 hk2 => hl k2 (List.mem_cons_of_mem a hk2)) k hk'

theorem applyAccelLimits_z (kf : List CropKF) (ma : ℚ)
    (h : ∀ k ∈ kf, 1 ≤ k.z) : ∀ k ∈ applyAccelLimits kf ma, 1 ≤ k.z := by
  match kf with
  | [] => exact h
  | [a] => exact h
  | [a, b] => exact h
  | a :: b :: c :: rest =>
    intro k hk
    simp only [applyAccelLimits] at hk
    rcases List.mem_cons.mp hk with hka | hk'
    · rw [hka]; exact h a (List.mem_cons_self a (b :: c :: rest))
    · exact accelLimitAux_z ma (b :: c :: rest) a 0 0
        (fun k2 hk2 => h k2 (List.mem_cons_of_mem a hk2)) k hk'

theorem easeAux_z (segStart segEnd es : ℚ) (l : List CropKF) :
    ∀ (prev : CropKF), 1 ≤ prev.z → (∀ k ∈ l, 1 ≤ k.z) →
      ∀ k ∈ easeAux segStart segEnd es l prev, 1 ≤ k.z := by
  induction l with
  | nil => intro prev _ _ k hk; simp [easeAux] at hk
  | cons a rest ih =>
    intro prev hprev hl k hk
    have ha := hl a (List.mem_cons_self a rest)
    have hinf0 : 0 ≤ min (min 1 (max 0 ((a.t - segStart) / es)))
        (min 1 (max 0 ((segEnd - a.t) / es))) :=
      le_min (le_min zero_le_one (le_max_left 0 _))
        (le_min zero_le_one (le_max_left 0 _))
    have hinf1 : min (min 1 (max 0 ((a.t - segStart) / es)))
        (min 1 (max 0 ((segEnd - a.t) / es))) ≤ 1 :=
      le_trans (min_le_left _ _) (min_le_left 1 _)
    have hz1 : 1 ≤ prev.z + (a.z - prev.z) *
        min (min 1 (max 0 ((a.t - segStart) / es)))
          (min 1 (max 0 ((segEnd - a.t) / es))) := by
      have := blend_ge_one prev.z a.z _ hprev ha hinf0 hinf1
      linarith [this]
    simp only [easeAux] at hk
    rcases List.mem_cons.mp hk with rfl | hk'
    · exact hz1
    · exact ih _ hz1 (fun k2 hk2 => hl k2 (List.mem_cons_of_mem a hk2)) k hk'

theorem easeSegmentEdges_z (kf : List CropKF) (segStart segEnd es : ℚ)
    (h : ∀ k ∈ kf, 1 ≤ k.z) :
    ∀ k ∈ easeSegmentEdges kf segStart segEnd es, 1 ≤ k.z := by
  unfold easeSegmentEdges
  split_ifs with hc
  · exact h
  · match kf, h with
    | [], h => exact h
    | a :: rest, h =>
      intro k hk
      rcases List.mem_cons.mp hk with hka | hk'
      · rw [hka]; exact h a (List.mem_cons_self a rest)
      · exact easeAux_z segStart segEnd es rest a
          (h a (List.mem_cons_self a rest))
          (fun k2 hk2 => h k2 (List.mem_cons_of_mem a hk2)) k hk'

theorem dedupeAux_subset (d : ℚ) (l : List CropKF) :
    ∀ (last k : CropKF), k ∈ dedupeAux d l last → k ∈ l := by
  induction l with
  | nil => intro last k hk; simp [dedupeAux] at hk
  | cons a rest ih =>
    intro last k hk
    simp only [dedupeAux] at hk
    split_ifs at hk with hc
    · rcases List.mem_cons.mp hk with hka | hk'
      · rw [hka]; exact List.mem_cons_self a rest
      · exact List.mem_cons_of_mem a (ih a k hk')
    · exact List.mem_cons_of_mem a (ih last k hk)

theorem dedupeByTime_subset (kf : List CropKF) (d : ℚ) :
    ∀ k ∈ dedupeByTime kf d, k ∈ kf := by
  match kf with
  | [] => intro k hk; exact hk
  | a :: rest =>
    intro k hk
    rcases List.mem_cons.mp hk with hka | hk'
    · rw [hka]; exact List.mem_cons_self a rest
    · exact List.mem_cons_of_mem a (dedupeAux_subset d rest a k hk')

theorem compressFilterAux_subset (l : List CropKF) :
    ∀ (prev k : CropKF), k ∈ compressFilterAux l prev → k ∈ l := by
  induction l with
  | nil => intro prev k hk; simp [compressFilterAux] at hk
  | cons a rest ih =>
    intro prev k hk
    simp only [compressFilterAux] at hk
    split_ifs at hk with h1 h2
    · exact List.mem_cons_of_mem a (ih prev k hk)
    · exact List.mem_cons_of_mem a (ih prev k hk)
    · rcases List.mem_cons.mp hk with hka | hk'
      · rw [hka]; exact List.mem_cons_self a rest
      · exact List.mem_cons_of_mem a (ih a k hk')

theorem kfGetLastD_mem (a : CropKF) (l : List CropKF) :
    l.getLastD a ∈ a :: l := by
  cases l with
  | nil => exact List.mem_cons_self a []
  | cons b rest =>
    exact List.mem_cons_of_mem a (List.getLast_mem (List.cons_ne_nil b rest))

theorem kfGetD_mem_cons (a : CropKF) (l : List CropKF) (n : ℕ) :
    (a :: l).getD n a ∈ a :: l := by
  rw [List.getD_eq_getElem?_getD]
  cases hc : (a :: l)[n]? with
  | none => exact List.mem_cons_self a l
  | some b => exact List.getElem?_mem hc

theorem compressCropMap_subset (kf : List CropKF) (m : ℕ) :
    ∀ k ∈ compressCropMap kf m, k ∈ kf := by
  match kf with
  | [] => intro k hk; exact hk
  | a :: rest =>
    intro k hk
    rw [compressCropMap] at hk
    split_ifs at hk with h1 h2
    · exact hk
    · rcases List.mem_append.mp hk with hk' | hk'
      · rcases List.mem_cons.mp hk' with hka | hk2
        · rw [hka]; exact List.mem_cons_self a rest
        · exact List.mem_cons_of_mem a
            ((List.dropLast_sublist rest).subset
              (compressFilterAux_subset rest.dropLast a k hk2))
      · rw [List.mem_singleton] at hk'
        rw [hk']
        exact kfGetLastD_mem a rest
    · rcases List.mem_append.mp hk with hk' | hk'
      · rcases List.mem_cons.mp hk' with hka | hk2
        · rw [hka]; exact List.mem_cons_self a rest
        · obtain ⟨i, _, hieq⟩ := List.mem_map.mp hk2
          rw [← hieq]
          exact kfGetD_mem_cons a rest _
      · rw [List.mem_singleton] at hk'
        rw [hk']
        exact kfGetLastD_mem a rest

theorem jsRound_nonneg (q : ℚ) (h : 0 ≤ q) : 0 ≤ jsRound q := by
  unfold jsRound
  have h2 : (0:ℤ) ≤ ⌊q + 1/2⌋ := Int.floor_nonneg.mpr (by linarith)
  exact_mod_cast h2

theorem jsFloor_nonneg (q : ℚ) (h : 0 ≤ q) : 0 ≤ jsFloor q := by
  unfold jsFloor
  exact_mod_cast Int.floor_nonneg.mpr h

theorem jsRound_of_int {q : ℚ} (h : (⌊q⌋ : ℚ) = q) : jsRound q = q := by
  conv_lhs => rw [← h]
  rw [jsRound_intCast]
  exact h

theorem floorFix_min {a b : ℚ} (ha : (⌊a⌋ : ℚ) = a) (hb : (⌊b⌋ : ℚ) = b) :
    (⌊min a b⌋ : ℚ) = min a b := by
  rcases le_total a b with h | h
  · rw [min_eq_left h]; exact ha
  · rw [min_eq_right h]; exact hb

theorem floorFix_jsFloor (q : ℚ) : (⌊jsFloor q⌋ : ℚ) = jsFloor q := by
  unfold jsFloor
  rw [Int.floor_intCast]

theorem applyScaledCoords_bounds (kf : List CropKF) (baseW baseH : ℚ)
    (hW0 : 0 ≤ baseW) (hWint : (⌊baseW⌋ : ℚ) = baseW)
    (hH0 : 0 ≤ baseH) (hHint : (⌊baseH⌋ : ℚ) = baseH)
    (hz : ∀ k ∈ kf, 1 ≤ k.z) :
    ∀ k ∈ applyScaledCoords kf baseW baseH,
      0 ≤ k.x ∧ k.x + k.w ≤ baseW ∧ 0 ≤ k.y ∧ k.y + k.h ≤ baseH ∧ 1 ≤ k.z := by
  intro k hk
  unfold applyScaledCoords at hk
  dsimp only at hk
  obtain ⟨a, ha, hkeq⟩ := List.mem_map.mp hk
  have haz := hz a ha
  have haz0 : (0:ℚ) < a.z := lt_of_lt_of_le one_pos haz
  have htW0 : 0 ≤ min (jsFloor (baseH * 9 / 16)) baseW :=
    le_min (jsFloor_nonneg _ (by positivity)) hW0
  have htWint : (⌊min (jsFloor (baseH * 9 / 16)) baseW⌋ : ℚ) =
      min (jsFloor (baseH * 9 / 16)) baseW :=
    floorFix_min (floorFix_jsFloor _) hWint
  have hcw_le : jsRound (min (jsFloor (baseH * 9 / 16)) baseW / a.z) ≤ baseW := by
    have h1 : min (jsFloor (baseH * 9 / 16)) baseW / a.z ≤
        min (jsFloor (baseH * 9 / 16)) baseW := div_le_self htW0 haz
    have h2 := jsRound_le_jsRound h1
    rw [jsRound_of_int htWint] at h2
    exact le_trans h2 (min_le_right _ _)
  have hch_le : jsRound (baseH / a.z) ≤ baseH := by
    have h1 : baseH / a.z ≤ baseH := div_le_self hH0 haz
    have h2 := jsRound_le_jsRound h1
    rw [jsRound_of_int hHint] at h2
    exact h2
  rw [← hkeq]
  dsimp only
  refine ⟨?_, ?_, ?_, ?_, haz⟩
  · exact lo_le_clamp _ _ _ (le_max_left 0 _)
  · have hx := clamp_le_hi a.x 0
      (max 0 (baseW - jsRound (min (jsFloor (baseH * 9 / 16)) baseW / a.z)))
      (le_max_left 0 _)
    have hx2 := le_trans hx (le_of_eq (max_eq_right (sub_nonneg.mpr hcw_le)))
    linarith [hx2]
  · exact lo_le_clamp _ _ _ (le_max_left 0 _)
  · have hy := clamp_le_hi a.y 0 (max 0 (baseH - jsRound (baseH / a.z)))
      (le_max_left 0 _)
    have hy2 := le_trans hy (le_of_eq (max_eq_right (sub_nonneg.mpr hch_le)))
    linarith [hy2]

theorem computeCropMapPerson_some (hyp : ℚ → ℚ → ℚ)
    (snaps : List PersonSnapshot) (input : ComputeInput) (c : Constraints)
    (kfs : List CropKF)
    (h : computeCropMapPerson hyp snaps input c = some kfs) :
    kfs = compressCropMap (dedupeByTime (applyScaledCoords (easeSegmentEdges
      (applyAccelLimits (applyPanLimits (applyDeadzone (smoothKeyframes
        (computeGlobalCropKeyframesFromTracksWithSpeechAndZoom hyp
          (buildTracks snaps input.baseW input.baseH)
          (buildSpeakerTurns input.transcript input.segStart input.segEnd)
          input.baseW input.baseH c))
        deadzoneX deadzoneY) c.maxPan) maxAccel)
      input.segStart input.segEnd (c.easeMs / 1000))
      input.baseW input.baseH) 0.1) 120 := by
  unfold computeCropMapPerson at h
  dsimp only at h
  split_ifs at h
  all_goals first
    | exact Option.noConfusion h
    | exact (Option.some.inj h).symm
    | simp_all

theorem computeCropMapPerson_bounds (hyp : ℚ → ℚ → ℚ)
    (snaps : List PersonSnapshot) (input : ComputeInput) (c : Constraints)
    (hW0 : 0 ≤ input.baseW) (hWint : (⌊input.baseW⌋ : ℚ) = input.baseW)
    (hH0 : 0 ≤ input.baseH) (hHint : (⌊input.baseH⌋ : ℚ) = input.baseH)
    (kfs : List CropKF)
    (h : computeCropMapPerson hyp snaps input c = some kfs) :
    ∀ k ∈ kfs, 0 ≤ k.x ∧ k.x + k.w ≤ input.baseW ∧ 0 ≤ k.y ∧
      k.y + k.h ≤ input.baseH ∧ 1 ≤ k.z := by
  have hkfs := computeCropMapPerson_some hyp snaps input c kfs h
  intro k hk
  rw [hkfs] at hk
  have h1 := compressCropMap_subset _ _ k hk
  have h2 := dedupeByTime_subset _ _ k h1
  refine applyScaledCoords_bounds _ input.baseW input.baseH hW0 hWint hH0 hHint
    ?_ k h2
  exact easeSegmentEdges_z _ _ _ _
    (applyAccelLimits_z _ _
      (applyPanLimits_z _ _
        (applyDeadzone_z _ _ _
          (smoothKeyframes_z _
            (dynamic_raw_z_ge_one hyp _ _ input.baseW input.baseH c)))))

theorem evenHalf_le (q : ℚ) : jsFloor (q / 2) * 2 ≤ q := by
  unfold jsFloor
  have h := Int.floor_le (q / 2)
  linarith

theorem computeCropMapPersonStatic_bounds (hyp : ℚ → ℚ → ℚ)
    (snaps : List PersonSnapshot) (input : ComputeInput) (c : Constraints)
    (kfs : List CropKF)
    (h : computeCropMapPersonStatic hyp snaps input c none = some kfs) :
    ∀ k ∈ kfs, 0 ≤ k.x ∧ k.x + k.w ≤ input.baseW ∧ 0 ≤ k.y ∧
      k.y + k.h ≤ input.baseH ∧ 1 ≤ k.z := by
  unfold computeCropMapPersonStatic at h
  dsimp only at h
  split_ifs at h
  all_goals
    have hkfs := (Option.some.inj h).symm
  all_goals
    intro k hk
  all_goals
    rw [hkfs, List.mem_singleton] at hk
  all_goals
    rw [hk]
  all_goals
    have hEle : jsFloor (min (jsFloor (input.baseH * 9 / 16)) input.baseW / 2)
        * 2 ≤ input.baseW :=
      le_trans (evenHalf_le _) (min_le_right _ _)
  all_goals
    refine ⟨?_, ?_, le_refl 0, by dsimp only; linarith,
      le_trans (le_max_right _ 1) (le_max_left _ _)⟩ <;>
    dsimp only <;> linarith

theorem calculateCrop_bounds (W H : ℚ) (dets : List FaceDetection) :
    0 ≤ (calculateCrop (W, H) dets).cropX ∧
    (calculateCrop (W, H) dets).cropX + (calculateCrop (W, H) dets).cropWidth ≤ W ∧
    (calculateCrop (W, H) dets).cropY = 0 ∧
    (calculateCrop (W, H) dets).cropHeight = H := by
  unfold calculateCrop
  dsimp only
  cases dets with
  | nil =>
    dsimp only
    refine ⟨le_max_left 0 _, ?_, rfl, rfl⟩
    split_ifs with hc
    · have h0 : (W - W) / 2 = 0 := by ring
      rw [h0]
      have h1 : jsFloor 0 = 0 := by unfold jsFloor; norm_num
      rw [h1]
      norm_num
    · have hWR : 0 ≤ W - jsRound (H * 9 / 16) := by
        have := not_lt.mp hc
        linarith
      have hfl : jsFloor ((W - jsRound (H * 9 / 16)) / 2) ≤
          (W - jsRound (H * 9 / 16)) / 2 := by
        unfold jsFloor
        exact Int.floor_le _
      have hmax : max 0 (jsFloor ((W - jsRound (H * 9 / 16)) / 2)) ≤
          W - jsRound (H * 9 / 16) :=
        max_le (by linarith) (by linarith)
      linarith
  | cons d0 drest =>
    dsimp only
    refine ⟨?_, ?_, ?_, rfl⟩
    · split_ifs <;> linarith
    · split_ifs <;> linarith
    · split_ifs <;> first | rfl | linarith

theorem computeGlobalStaticCrop_bounds
    (f : ℕ → Except String (List FrameDetections))
    (dur baseW baseH : ℚ) (skip : Option ℚ) (gc : GlobalCrop)
    (h : computeGlobalStaticCrop f dur baseW baseH skip = some gc) :
    0 ≤ gc.cropX ∧ gc.cropX + gc.cropW ≤ baseW ∧ gc.cropY = 0 ∧
    gc.cropH = baseH ∧ 1 ≤ gc.zMin := by
  unfold computeGlobalStaticCrop at h
  dsimp only at h
  split_ifs at h with h1
  have hgc := (Option.some.inj h).symm
  obtain ⟨hx0, hxw, hy, hh⟩ :=
    calculateCrop_bounds baseW baseH (gscPool f (gscNumSamples dur skip))
  rw [hgc]
  refine ⟨hx0, ?_, hy, hh, le_trans (le_max_right _ 1) (le_max_left _ _)⟩
  have hev := evenHalf_le
    (calculateCrop (baseW, baseH) (gscPool f (gscNumSamples dur skip))).cropWidth
  dsimp only
  linarith

theorem staticFromGlobal_bounds (hyp : ℚ → ℚ → ℚ)
    (f : ℕ → Except String (List FrameDetections))
    (dur : ℚ) (skip : Option ℚ) (snaps : List PersonSnapshot)
    (input : ComputeInput) (c : Constraints) (gc : GlobalCrop)
    (kfs : List CropKF)
    (hgc : computeGlobalStaticCrop f dur input.baseW input.baseH skip = some gc)
    (h : computeCropMapPersonStatic hyp snaps input c (some gc) = some kfs) :
    ∀ k ∈ kfs, 0 ≤ k.x ∧ k.x + k.w ≤ input.baseW ∧ 0 ≤ k.y ∧
      k.y + k.h ≤ input.baseH ∧ 1 ≤ k.z ∧ k.z = gc.zMin := by
  obtain ⟨h1, h2, h3, h4, h5⟩ :=
    computeGlobalStaticCrop_bounds f dur input.baseW input.baseH skip gc hgc
  unfold computeCropMapPersonStatic at h
  dsimp only at h
  have hkfs := (Option.some.inj h).symm
  intro k hk
  rw [hkfs, List.mem_singleton] at hk
  rw [hk]
  refine ⟨h1, h2, ?_, ?_, h5, rfl⟩
  · dsimp only
    rw [h3]
  · dsimp only
    rw [h3, h4]
    linarith

/-- C1: every keyframe sequence the framing engine produces keeps its crop
rectangle inside the source (0 ≤ x, x + w ≤ baseW, 0 ≤ y, y + h ≤ baseH,
for integer source dimensions on the dynamic path) and its zoom at least 1;
on the path reading a persisted global crop the zoom equals that crop's
zMin.  The zoom can, however, drop below the dynamic zMin floor (see the
counterexample), so z ≥ 1 — not z ≥ zMin — is the invariant that holds. -/
theorem produced_keyframes_invariant (hyp : ℚ → ℚ → ℚ)
    (input : ComputeInput) (c : Constraints)
    (hW0 : 0 ≤ input.baseW) (hWint : (⌊input.baseW⌋ : ℚ) = input.baseW)
    (hH0 : 0 ≤ input.baseH) (hHint : (⌊input.baseH⌋ : ℚ) = input.baseH) :
    (∀ (snaps : List PersonSnapshot) (kfs : List CropKF),
      computeCropMapPerson hyp snaps input c = some kfs →
      ∀ k ∈ kfs, 0 ≤ k.x ∧ k.x + k.w ≤ input.baseW ∧ 0 ≤ k.y ∧
        k.y + k.h ≤ input.baseH ∧ 1 ≤ k.z) ∧
    (∀ (snaps : List PersonSnapshot) (kfs : List CropKF),
      computeCropMapPersonStatic hyp snaps input c none = some kfs →
      ∀ k ∈ kfs, 0 ≤ k.x ∧ k.x + k.w ≤ input.baseW ∧ 0 ≤ k.y ∧
        k.y + k.h ≤ input.baseH ∧ 1 ≤ k.z) ∧
    (∀ (f : ℕ → Except String (List FrameDetections)) (dur : ℚ)
        (skip : Option ℚ) (snaps : List PersonSnapshot) (gc : GlobalCrop)
        (kfs : List CropKF),
      computeGlobalStaticCrop f dur input.baseW input.baseH skip = some gc →
      computeCropMapPersonStatic hyp snaps input c (some gc) = some kfs →
      ∀ k ∈ kfs, 0 ≤ k.x ∧ k.x + k.w ≤ input.baseW ∧ 0 ≤ k.y ∧
        k.y + k.h ≤ input.baseH ∧ 1 ≤ k.z ∧ k.z = gc.zMin) := by
  refine ⟨?_, ?_, ?_⟩
  · intro snaps kfs h
    exact computeCropMapPerson_bounds hyp snaps input c hW0 hWint hH0 hHint kfs h
  · intro snaps kfs h
    exact computeCropMapPersonStatic_bounds hyp snaps input c kfs h
  · intro f dur skip snaps gc kfs hgc h
    exact staticFromGlobal_bounds hyp f dur skip snaps input c gc kfs hgc h

/-- C1 counterexample: on a 1000×1920 portrait source the dynamic zoom floor
is zMin = 1080/1000 = 1.08, yet the produced keyframe has z = 1 < zMin: the
first sample of solveZoomSeries returns the raw requirement without flooring
it at zMin, so "zoom ≥ zMin" fails as stated. -/
theorem dynamic_zoom_below_zmin :
    (computeCropMapPerson hyp0 c1Snaps c1Input wCons).isSome = true ∧
    ∃ k ∈ (computeCropMapPerson hyp0 c1Snaps c1Input wCons).getD [],
      k.z < zMinDyn c1Input.baseW c1Input.baseH := by
  decide

theorem produced_keyframes_invariant_witness :
    ((0:ℚ) ≤ wInput.baseW ∧ (⌊wInput.baseW⌋ : ℚ) = wInput.baseW ∧
      (0:ℚ) ≤ wInput.baseH ∧ (⌊wInput.baseH⌋ : ℚ) = wInput.baseH) ∧
    (∀ (snaps : List PersonSnapshot) (kfs : List CropKF),
      computeCropMapPerson hyp0 snaps wInput wCons = some kfs →
      ∀ k ∈ kfs, 0 ≤ k.x ∧ k.x + k.w ≤ wInput.baseW ∧ 0 ≤ k.y ∧
        k.y + k.h ≤ wInput.baseH ∧ 1 ≤ k.z) :=
  ⟨⟨by decide, by decide, by decide, by decide⟩,
    (produced_keyframes_invariant hyp0 wInput wCons (by decide) (by decide)
      (by decide) (by decide)).1⟩

/-! ## C4: keyframe time spacing after dedupe and compression -/

theorem dedupeAux_chain (d : ℚ) (l : List CropKF) :
    ∀ last, List.Chain (fun a b => a.t + d ≤ b.t) last (dedupeAux d l last) := by
  induction l with
  | nil => intro last; exact List.Chain.nil
  | cons k rest ih =>
    intro last
    simp only [dedupeAux]
    split_ifs with hc
    · exact List.Chain.cons (by linarith) (ih k)
    · exact ih last

theorem dedupeByTime_chain (kf : List CropKF) (d : ℚ) :
    List.Chain' (fun a b => a.t + d ≤ b.t) (dedupeByTime kf d) := by
  match kf with
  | [] => exact List.chain'_nil
  | k :: rest => exact dedupeAux_chain d rest k

theorem compressFilterAux_sublist (l : List CropKF) :
    ∀ prev, (compressFilterAux l prev).Sublist l := by
  induction l with
  | nil => intro prev; simp [compressFilterAux]
  | cons a rest ih =>
    intro prev
    simp only [compressFilterAux]
    split_ifs with h1 h2
    · exact (ih prev).trans (List.sublist_cons_self a rest)
    · exact (ih prev).trans (List.sublist_cons_self a rest)
    · exact (ih a).cons₂ a

theorem getLastD_eq_getLast (l : List CropKF) (h : l ≠ []) (d : CropKF) :
    l.getLastD d = l.getLast h := by
  induction l generalizing d with
  | nil => exact absurd rfl h
  | cons b rs ih =>
    cases rs with
    | nil => rfl
    | cons c rs2 =>
      rw [List.getLastD_cons, List.getLast_cons (List.cons_ne_nil c rs2)]
      exact ih (List.cons_ne_nil c rs2) b

theorem compressCropMap_chain (kf : List CropKF) (hlen : kf.length ≤ 120)
    (hch : List.Chain' (fun a b => a.t + 0.1 ≤ b.t) kf) :
    List.Chain' (fun a b => a.t + 0.1 ≤ b.t) (compressCropMap kf 120) := by
  haveI : IsTrans CropKF (fun a b => a.t + 0.1 ≤ b.t) :=
    ⟨fun x y z h1 h2 => by linarith⟩
  match kf, hlen, hch with
  | [], _, _ => exact List.chain'_nil
  | a :: rest, hlen, hch =>
    rw [compressCropMap]
    split_ifs with h1
    · exact hch
    · have hr2 : rest ≠ [] := by
        intro he
        rw [he] at h1
        simp at h1
      have hgl : rest.getLastD a = rest.getLast hr2 := getLastD_eq_getLast rest hr2 a
      have hsub : ((a :: compressFilterAux rest.dropLast a)
          ++ [rest.getLastD a]).Sublist (a :: rest) := by
        rw [hgl]
        have h3 : (a :: compressFilterAux rest.dropLast a) ++ [rest.getLast hr2]
            = a :: (compressFilterAux rest.dropLast a ++ [rest.getLast hr2]) := by
          simp
        rw [h3]
        have h4 : (compressFilterAux rest.dropLast a
            ++ [rest.getLast hr2]).Sublist (rest.dropLast ++ [rest.getLast hr2]) :=
          (compressFilterAux_sublist rest.dropLast a).append (List.Sublist.refl _)
        rw [List.dropLast_append_getLast hr2] at h4
        exact h4.cons₂ a
      have hpw := List.chain'_iff_pairwise.mp hch
      exact List.chain'_iff_pairwise.mpr (hpw.sublist hsub)

/-- C4: dedupeByTime unconditionally spaces consecutive keyframes at least
the minimum delta apart (hence strictly increases their times for a positive
delta); compression preserves that spacing whenever the deduped sequence is
within the 120-keyframe ceiling; and every computeCropMapPerson result is
exactly the compression of a deduped sequence, so it has strictly increasing
times with spacing ≥ 0.1 whenever the deduped sequence had at most 120
keyframes.  Above the ceiling the decimation re-appends the last original
keyframe which its index loop can also emit, so the claimed strictness can
fail there (see the counterexample). -/
theorem keyframe_spacing :
    (∀ (kf : List CropKF) (d : ℚ),
      List.Chain' (fun a b => a.t + d ≤ b.t) (dedupeByTime kf d)) ∧
    (∀ kf : List CropKF, kf.length ≤ 120 →
      List.Chain' (fun a b => a.t + 0.1 ≤ b.t) kf →
      List.Chain' (fun a b => a.t + 0.1 ≤ b.t) (compressCropMap kf 120)) ∧
    (∀ (hyp : ℚ → ℚ → ℚ) (snaps : List PersonSnapshot) (input : ComputeInput)
        (c : Constraints) (kfs : List CropKF),
      computeCropMapPerson hyp snaps input c = some kfs →
      ∃ ws, kfs = compressCropMap (dedupeByTime ws 0.1) 120 ∧
        ((dedupeByTime ws 0.1).length ≤ 120 →
          List.Chain' (fun a b => a.t + 0.1 ≤ b.t) kfs)) := by
  refine ⟨fun kf d => dedupeByTime_chain kf d,
    fun kf hl hc => compressCropMap_chain kf hl hc, ?_⟩
  intro hyp snaps input c kfs h
  have hkfs := computeCropMapPerson_some hyp snaps input c kfs h
  refine ⟨_, hkfs, ?_⟩
  intro hlen
  rw [hkfs]
  exact compressCropMap_chain _ hlen (dedupeByTime_chain _ _)

theorem keyframe_spacing_witness :
    (([c3k0, c3k1] : List CropKF).length ≤ 120 ∧
      List.Chain' (fun a b => a.t + 0.1 ≤ b.t) [c3k0, c3k1]) ∧
    List.Chain' (fun a b => a.t + 0.1 ≤ b.t) (compressCropMap [c3k0, c3k1] 120) :=
  ⟨⟨by decide, List.chain'_pair.mpr (by norm_num [c3k0, c3k1])⟩,
    keyframe_spacing.2.1 [c3k0, c3k1] (by decide)
      (List.chain'_pair.mpr (by norm_num [c3k0, c3k1]))⟩


set_option maxRecDepth 100000 in
theorem c4_fold1 :
    ((List.range 31).map c4Snap).foldl
      (buildTracksStep wInput.baseW wInput.baseH) ([], 1, []) = c4State 31 := by
  decide

set_option maxRecDepth 100000 in
theorem c4_fold2 :
    ((List.range' 31 31).map c4Snap).foldl
      (buildTracksStep wInput.baseW wInput.baseH) (c4State 31) = c4State 62 := by
  decide

set_option maxRecDepth 100000 in
theorem c4_fold3 :
    ((List.range' 62 30).map c4Snap).foldl
      (buildTracksStep wInput.baseW wInput.baseH) (c4State 62) = c4State 92 := by
  decide

set_option maxRecDepth 100000 in
theorem c4_fold4 :
    ((List.range' 92 30).map c4Snap).foldl
      (buildTracksStep wInput.baseW wInput.baseH) (c4State 92) = c4State 122 := by
  decide

set_option maxRecDepth 100000 in
theorem c4_split :
    c4Snaps = (List.range 31).map c4Snap ++ (List.range' 31 31).map c4Snap
      ++ (List.range' 62 30).map c4Snap ++ (List.range' 92 30).map c4Snap := by
  decide

theorem c4_tracks :
    buildTracks c4Snaps wInput.baseW wInput.baseH = (c4State 122).2.2 := by
  unfold buildTracks
  rw [c4_split, List.foldl_append, List.foldl_append, List.foldl_append,
    c4_fold1, c4_fold2, c4_fold3, c4_fold4]

set_option maxRecDepth 400000 in
theorem c4_frames :
    collectAnchorFrames hyp0 ((c4State 122).2.2)
      (buildSpeakerTurns wInput.transcript wInput.segStart wInput.segEnd)
      wInput.baseW wInput.baseH =
    c4Ts.map (fun t => { anchor := c4Anchor, box := c4Box, t := t }) := by
  decide

theorem getD_replicate_of_lt (n k : ℕ) (v d : ℚ) (hk : k < n) :
    (List.replicate n v).getD k d = v := by
  rw [List.getD_eq_getElem?_getD, List.getElem?_replicate, if_pos hk]
  rfl

theorem gAt_replicate (lv la : ℚ) (ww : List ℚ) (n i : ℕ) (v : ℚ)
    (hin : i < n) :
    gAt lv la (List.replicate n v) (List.replicate n v) ww n i = 0 := by
  have hx : ∀ k, k < n → (List.replicate n v).getD k 0 = v :=
    fun k hk => getD_replicate_of_lt n k v 0 hk
  unfold gAt
  have hT2 : (if 1 ≤ i ∧ i < n then
      2 * lv * ((List.replicate n v).getD i 0
        - (List.replicate n v).getD (i - 1) 0) else 0) = 0 := by
    split_ifs with hc
    · rw [hx i hc.2, hx (i - 1) (by omega)]
      ring
    · rfl
  have hT3 : (if i + 2 ≤ n then
      2 * lv * ((List.replicate n v).getD (i + 1) 0
        - (List.replicate n v).getD i 0) else 0) = 0 := by
    split_ifs with hc
    · rw [hx (i + 1) (by omega), hx i hin]
      ring
    · rfl
  have hT4 : (if 2 ≤ i ∧ i < n then
      2 * la * daAt (List.replicate n v) (i - 1) else 0) = 0 := by
    split_ifs with hc
    · unfold daAt
      rw [show i - 1 + 1 = i by omega]
      rw [hx i hc.2, hx (i - 1) (by omega), hx (i - 1 - 1) (by omega)]
      ring
    · rfl
  have hT5 : (if 1 ≤ i ∧ i + 2 ≤ n then
      -(4 * la * daAt (List.replicate n v) i) else 0) = 0 := by
    split_ifs with hc
    · unfold daAt
      rw [hx (i + 1) (by omega), hx i hin, hx (i - 1) (by omega)]
      ring
    · rfl
  have hT6 : (if i + 3 ≤ n then
      2 * la * daAt (List.replicate n v) (i + 1) else 0) = 0 := by
    split_ifs with hc
    · unfold daAt
      rw [show i + 1 + 1 = i + 2 by omega, show i + 1 - 1 = i by omega]
      rw [hx (i + 2) (by omega), hx (i + 1) (by omega), hx i hin]
      ring
    · rfl
  rw [hT2, hT3, hT4, hT5, hT6, sub_self, mul_zero]
  ring

theorem optIter_const (lv la lr : ℚ) (n : ℕ) (v lval uval : ℚ) (ww : List ℚ)
    (h1 : ¬ v < lval) (h2 : ¬ v > uval) :
    optIter lv la lr (List.replicate n v) (List.replicate n lval)
      (List.replicate n uval) ww (List.replicate n v) =
    List.replicate n v := by
  unfold optIter
  dsimp only
  rw [List.length_replicate]
  have hbody : ∀ i ∈ List.range n,
      (let v1 := (List.replicate n v).getD i 0
        - lr * gAt lv la (List.replicate n v) (List.replicate n v) ww n i
       let v2 := if v1 < (List.replicate n lval).getD i 0
         then (List.replicate n lval).getD i 0 else v1
       if v2 > (List.replicate n uval).getD i 0
         then (List.replicate n uval).getD i 0 else v2) = v := by
    intro i hi
    have hin : i < n := List.mem_range.mp hi
    dsimp only
    rw [gAt_replicate lv la ww n i v hin, mul_zero, sub_zero,
      getD_replicate_of_lt n i v 0 hin,
      getD_replicate_of_lt n i lval 0 hin,
      getD_replicate_of_lt n i uval 0 hin,
      if_neg h1, if_neg h2]
  rw [List.map_congr_left hbody, List.map_const', List.length_range]

theorem globalOptimize1D_const (t : List ℚ) (n : ℕ) (v lval uval wval : ℚ)
    (lv la : ℚ) (iters : ℕ) (lr : ℚ)
    (h1 : ¬ v < lval) (h2 : ¬ v > uval) :
    globalOptimize1D t (List.replicate n v) (List.replicate n lval)
      (List.replicate n uval) (List.replicate n wval) lv la iters lr =
    List.replicate n v := by
  unfold globalOptimize1D
  dsimp only
  exact Function.iterate_fixed
    (optIter_const lv la lr n v lval uval _ h1 h2) iters

set_option maxRecDepth 400000 in
theorem c4_raw :
    computeGlobalCropKeyframesFromTracksWithSpeechAndZoom hyp0
      ((c4State 122).2.2)
      (buildSpeakerTurns wInput.transcript wInput.segStart wInput.segEnd)
      wInput.baseW wInput.baseH wCons = c4Ts.map c4RawKF := by
  unfold computeGlobalCropKeyframesFromTracksWithSpeechAndZoom
  rw [c4_frames]
  dsimp only
  rw [if_neg (by decide : ¬((c4Ts.map (fun t =>
    { anchor := c4Anchor, box := c4Box, t := t : AnchorFrame })).isEmpty = true))]
  rw [show List.zipWith (fun a sm => buildFeasible a.box a.anchor
      (jsFloor (wInput.baseH * 9 / 16)) wInput.baseH wInput.baseW wInput.baseH
      wCons sm)
      (c4Ts.map (fun t => { anchor := c4Anchor, box := c4Box, t := t : AnchorFrame }))
      (smoothAnchors (c4Ts.map (fun t =>
        { anchor := c4Anchor, box := c4Box, t := t : AnchorFrame })) none)
      = List.replicate 121 c4F from by decide]
  rw [show (c4Ts.map (fun t =>
      { anchor := c4Anchor, box := c4Box, t := t : AnchorFrame })).map
        (fun a => a.t) = c4Ts from by decide]
  rw [show (c4Ts.map (fun t =>
      { anchor := c4Anchor, box := c4Box, t := t : AnchorFrame })).map
        (fun a => a.anchor.score) = List.replicate 121 1 from by decide]
  simp only [List.map_replicate]
  rw [globalOptimize1D_const c4Ts 121 (Feasible.xDes c4F) (Feasible.xL c4F)
    (Feasible.xU c4F) 1 globLambdaV globLambdaA globIters globLR
    (by decide) (by decide)]
  rw [globalOptimize1D_const c4Ts 121 (Feasible.yDes c4F) (Feasible.yL c4F)
    (Feasible.yU c4F) 1 globLambdaV globLambdaA globIters globLR
    (by decide) (by decide)]
  rw [show zMinDyn wInput.baseW wInput.baseH = 1 from by decide]
  rw [show solveZoomSeries (List.replicate 121 (Feasible.xDes c4F))
      (List.replicate 121 (Feasible.yDes c4F))
      (List.replicate 121 { w := c4F.groupW, h := c4F.groupH,
                            insetX := c4F.insetX,
                            insetY := c4F.insetY : ZoomGroup })
      (jsFloor (wInput.baseH * 9 / 16)) wInput.baseH 1
      = List.replicate 121 1 from by decide]
  decide

set_option maxRecDepth 400000 in
theorem c4_pipeline :
    computeCropMapPerson hyp0 c4Snaps wInput wCons = some c4Out := by
  unfold computeCropMapPerson
  rw [c4_tracks]
  dsimp only
  rw [c4_raw]
  decide

set_option maxRecDepth 400000 in
/-- C4 counterexample: a run of computeCropMapPerson whose deduped sequence
has 121 keyframes (1/6 s apart).  Decimation's last index
round(118 * 121/119) = 120 already emits the final keyframe before the
compressor re-appends it, so the returned sequence ends in two keyframes
with the same timestamp: times are not strictly increasing and the 0.1 s
minimum spacing is violated. -/
theorem compressed_times_not_strict :
    ∃ kfs, computeCropMapPerson hyp0 c4Snaps wInput wCons = some kfs ∧
      ¬ List.Chain' (fun a b => a.t < b.t) kfs := by
  refine ⟨c4Out, c4_pipeline, ?_⟩
  intro hch
  have hlen : c4Out.length = 120 := by decide
  have h1 : (118 : ℕ) < c4Out.length := by rw [hlen]; omega
  have h2 : (119 : ℕ) < c4Out.length := by rw [hlen]; omega
  have h118 := List.chain'_iff_get.mp hch 118 (by rw [hlen]; omega)
  have e1 : c4Out.get ⟨118, h1⟩ = c4Out.getD 118 (c4RawKF 0) :=
    (List.getD_eq_getElem c4Out (c4RawKF 0) h1).symm
  have e2 : c4Out.get ⟨119, h2⟩ = c4Out.getD 119 (c4RawKF 0) :=
    (List.getD_eq_getElem c4Out (c4RawKF 0) h2).symm
  rw [e1, e2] at h118
  have hv1 : (c4Out.getD 118 (c4RawKF 0)).t = 121 / 6 := by decide
  have hv2 : (c4Out.getD 119 (c4RawKF 0)).t = 121 / 6 := by decide
  rw [hv1, hv2] at h118
  exact lt_irrefl _ h118

end
